import Mathlib

set_option maxRecDepth 8192

/-!
# Verification of the reverse-tetris board engine

Shallow embedding of the game engine from the two source variants
(src/index.js and src/unnamed/part_000).  The two variants share the whole
engine; they differ only in cosmetic constants, in decorative rendering code,
and in the release-time row-spawn trigger of `dropSelectedBlock`
(index.js uses the `selectionMoved` flag, part_000 uses `offset !== 0`);
both behaviours are embedded below.

Modelling conventions:
* A grid cell `{color, blockId}` is embedded as `Option BlockCell`:
  `none` is the background (empty) cell.  The source maintains the data-model
  invariant "blockId is null iff color is the background color" at every
  construction site (`makeCell(COLOR_BACKGROUND)` vs `makeCell(color, id)`
  with a non-background color), so the merged representation is faithful.
* The grid is a total function `ℤ → ℤ → Cell`; the source's flat array only
  ever gets indexed in bounds, and all embedded operations are proved to
  write only in bounds.
* `Math.random()`-driven choices are passed in as explicit choice streams;
  quantifying over the streams quantifies over all random outcomes.
  A draw `Math.floor(Math.random()*n)` (a uniform element of `[0,n)`) is
  modelled as `pick k % n`, which ranges over exactly `[0,n)` as the
  arbitrary stream value `pick k` ranges over `ℕ`.
* JS `while` loops are embedded with an explicit fuel that provably dominates
  the number of iterations the loop can make (lemmas below show that the
  fuel is never exhausted before the loop's own exit condition fires).
* Callbacks (closures stored in the animation queue) are defunctionalized in
  the inductive `Callback`; the functions that would run callbacks
  synchronously instead return the list of callbacks they invoke, in order.
-/

/-- A block color of the palette (variant A palette: green, white, blue).
The concrete color values never influence the engine logic. -/
inductive ColorV where
  | green
  | white
  | blue
  deriving DecidableEq, Repr

/-- The payload of a non-empty cell: its color and the id of the block it
belongs to (`makeCell(color, blockId)` with a non-background color). -/
structure BlockCell where
  color : ColorV
  blockId : ℕ
  deriving DecidableEq, Repr

/-- A grid cell: `none` is the background cell `makeCell(COLOR_BACKGROUND)`. -/
abbrev Cell := Option BlockCell

/-- A coordinate pair `(x, y)`. -/
abbrev Pos := ℤ × ℤ

/-- The board: a total function from coordinates to cells.  The source's
flat `grid` array covers exactly the in-bounds coordinates. -/
abbrev Grid := ℤ → ℤ → Cell

/-- `const WIDTH = 10`. -/
def WIDTH : ℤ := 10

/-- `const HEIGHT = 20`. -/
def HEIGHT : ℤ := 20

/-- `const MAX_BLOCK_SPAWN = 7`. -/
def MAX_BLOCK_SPAWN : ℕ := 7

/-- `isEmptyCell(cell)`: the cell's color is the background color. -/
def isEmptyCell (c : Cell) : Bool := c.isNone

/-- `cell.blockId` (null becomes `none`). -/
def blockIdOf (c : Cell) : Option ℕ := c.map BlockCell.blockId

/-- In-bounds test `0 ≤ x < WIDTH ∧ 0 ≤ y < HEIGHT`. -/
abbrev inB (x y : ℤ) : Prop := 0 ≤ x ∧ x < WIDTH ∧ 0 ≤ y ∧ y < HEIGHT

/-- The in-bounds coordinate box as a finite set. -/
def boxFinset : Finset Pos :=
  Finset.Icc (0 : ℤ) (WIDTH - 1) ×ˢ Finset.Icc (0 : ℤ) (HEIGHT - 1)

/-- `grid[idx(x,y)] = cell` as a functional update. -/
def gridSet (g : Grid) (x y : ℤ) (c : Cell) : Grid :=
  fun a b => if a = x ∧ b = y then c else g a b

/-- The board potential: the sum over the occupied in-bounds cells of their
distance-from-the-floor weight `HEIGHT - y`.  Every gravity move drops a
block, so it strictly decreases this potential; every line clear empties
occupied cells, so it strictly decreases it as well.  It is at most
200 · 20 = 4000, which bounds every settle/gravity loop. -/
def measureG (g : Grid) : ℕ :=
  ∑ p ∈ boxFinset, (if g p.1 p.2 = none then 0 else (HEIGHT - p.2).toNat)

/-- The palette `colors` of variant A: three block colors plus the
background color (`none`), each an equally weighted draw. -/
def colors : List (Option ColorV) := [some .green, some .white, some .blue, none]

/-- A candidate bottom row, indexed 0..WIDTH-1. -/
abbrev Row := List Cell

/-- The all-empty row `Array.from({length: WIDTH}, () => makeCell(COLOR_BACKGROUND))`. -/
def emptyRow : Row := List.replicate 10 none

/-- The inner write loop of `generateNextRow`:
`for (bx = 0; bx < len && x + bx < WIDTH; bx++) row[x + bx] = cell`. -/
def setRun (row : Row) (x : ℕ) (len : ℕ) (c : Cell) : Row :=
  match len with
  | 0 => row
  | n + 1 => if x < 10 then setRun (row.set x c) (x + 1) n c else row

/-- The `while (x < WIDTH && spawned < MAX_BLOCK_SPAWN)` loop of
`generateNextRow`.  `colorPick k` is the palette index drawn at iteration
`k`, `lenPick k` the raw length draw (used modulo the iteration's `maxLen`).
The counter is the global `blockCounter` (`nextBlockId()` pre-increments).
Each iteration advances `x` by `len ≥ 1`, so fuel 10 dominates the loop. -/
def generateRowGo (colorPick : ℕ → Fin 4) (lenPick : ℕ → ℕ) :
    ℕ → Row → ℕ → ℕ → ℕ → ℕ → Row × ℕ
  | 0, row, _, _, _, counter => (row, counter)
  | fuel + 1, row, spawned, x, k, counter =>
    if x < 10 ∧ spawned < MAX_BLOCK_SPAWN then
      let maxLen : ℕ := min 4 (min (MAX_BLOCK_SPAWN - spawned) (10 - x))
      if maxLen = 0 then (row, counter)
      else
        let color := colors.getD (colorPick k).val none
        let len := 1 + lenPick k % maxLen
        match color with
        | none =>
            generateRowGo colorPick lenPick fuel (setRun row x len none)
              spawned (x + len) (k + 1) counter
        | some cv =>
            generateRowGo colorPick lenPick fuel
              (setRun row x len (some ⟨cv, counter + 1⟩))
              (spawned + len) (x + len) (k + 1) (counter + 1)
    else (row, counter)

/-- `generateNextRow()`: builds a fresh candidate row from the two random
choice streams, returning the row and the updated block-id counter. -/
def generateNextRow (colorPick : ℕ → Fin 4) (lenPick : ℕ → ℕ) (counter : ℕ) :
    Row × ℕ :=
  generateRowGo colorPick lenPick 10 (List.replicate 10 none) 0 0 0 counter

/-- Number of non-empty cells in a row, counted by index. -/
def filledCount (row : Row) : ℕ :=
  ((Finset.range row.length).filter (fun i => ¬ row.getD i none = none)).card

/-- The indices of `row` carrying block id `id` are exactly the interval
`[l, l+len)`: the id occupies one contiguous run. -/
def IdRun (row : Row) (id : ℕ) (l len : ℕ) : Prop :=
  ∀ i, blockIdOf (row.getD i none) = some id ↔ (l ≤ i ∧ i < l + len)

/-- Loop invariant of `generateRowGo` (counter0 is the allocator value at
entry to `generateNextRow`): the row built so far has its filled count equal
to the spawn budget spent, everything at or beyond the cursor `x` is empty,
and every id present occupies one contiguous run of length 1–4 ending at or
before the cursor, with an id freshly drawn from `(counter0, counter]`. -/
def RowInv (counter0 : ℕ) (row : Row) (spawned x counter : ℕ) : Prop :=
  row.length = 10 ∧ filledCount row = spawned ∧ spawned ≤ MAX_BLOCK_SPAWN ∧
  counter0 ≤ counter ∧ x ≤ 10 ∧
  (∀ i, x ≤ i → row.getD i none = none) ∧
  (∀ id, (∃ i, blockIdOf (row.getD i none) = some id) →
    counter0 < id ∧ id ≤ counter ∧
    ∃ l len, 1 ≤ len ∧ len ≤ 4 ∧ l + len ≤ x ∧ IdRun row id l len)

/-- Clear a list of cells to background:
`for (cell of cells) grid[idx(cell.x, cell.y)] = makeCell(COLOR_BACKGROUND)`. -/
def clearCellsG (g : Grid) (cells : List Pos) : Grid :=
  cells.foldl (fun h c => gridSet h c.1 c.2 none) g

/-- Write a block's cells translated down by `d`:
`grid[idx(cell.x, cell.y + d)] = makeCell(color, blockId)`. -/
def writeCellsG (g : Grid) (cells : List Pos) (d : ℕ) (color : ColorV) (id : ℕ) :
    Grid :=
  cells.foldl (fun h c => gridSet h c.1 (c.2 + (d : ℤ)) (some ⟨color, id⟩)) g

/-- The write positions of the row-shift loop of `moveBlocksUp`, in source
order (`y` from 1 to HEIGHT-1 ascending, `x` ascending); each position `(x,y)`
is read and copied to `(x, y-1)`. -/
def shiftSources : List Pos :=
  (List.range 19).flatMap fun (yi : ℕ) => (List.range 10).map fun (xi : ℕ) => (((xi : ℤ), (yi : ℤ) + 1) : Pos)

/-- The 4-neighborhood, in the source's push order (right, left, down, up). -/
def neighborsOf (p : Pos) : List Pos :=
  [(p.1 + 1, p.2), (p.1 - 1, p.2), (p.1, p.2 + 1), (p.1, p.2 - 1)]

/-- The iterative stack loop of `collectBlockCells`.  The stack is the head
of the list (the source pushes/pops at the array end; the four fresh
neighbors are pushed so that pop order matches the source).  Every pushed
position is recorded in `seen` at push time, so each position enters the
stack at most once; all ever-seen positions lie in the (WIDTH+2)×(HEIGHT+2)
box around the board plus the start, so fuel 300 dominates the loop. -/
def collectGo (g : Grid) (targetId : ℕ) :
    ℕ → List Pos → Finset Pos → List Pos → List Pos
  | 0, _, _, cells => cells
  | _ + 1, [], _, cells => cells
  | fuel + 1, p :: rest, seen, cells =>
    if inB p.1 p.2 then
      if blockIdOf (g p.1 p.2) = some targetId then
        let fresh := (neighborsOf p).filter (fun q => q ∉ seen)
        collectGo g targetId fuel (fresh.reverse ++ rest) (seen ∪ fresh.toFinset)
          (cells ++ [p])
      else collectGo g targetId fuel rest seen cells
    else collectGo g targetId fuel rest seen cells

/-- `collectBlockCells(startX, startY, blockId)`: flood fill over the
4-neighborhood collecting the cells whose blockId equals the given id;
returns `[]` when the id is null. -/
def collectBlockCells (g : Grid) (x y : ℤ) (blockId : Option ℕ) : List Pos :=
  match blockId with
  | none => []
  | some id => collectGo g id 300 [(x, y)] {(x, y)} []

/-- One round of the drop-distance probe: every cell of the block can move
down to depth `e` (`targetY < HEIGHT` and the target cell is empty).  The
source checks the bound first and the occupancy second, per cell. -/
def canDropTo (g : Grid) (cells : List Pos) (e : ℕ) : Bool :=
  cells.all fun c => decide (c.2 + (e : ℤ) < HEIGHT) && isEmptyCell (g c.1 (c.2 + (e : ℤ)))

/-- The `outer: while (true) ... dropDistance++` loop shared by
`computeDropDistance` and the identical inline loop of `applyGravity`:
increment the distance while depth `d+1` is clear for every cell.  For a
non-empty cell list the test fails at the latest once `d + 1 ≥ HEIGHT`, so
fuel 20 dominates the loop. -/
def dropGo (g : Grid) (cells : List Pos) : ℕ → ℕ → ℕ
  | 0, d => d
  | fuel + 1, d => if canDropTo g cells (d + 1) then dropGo g cells fuel (d + 1) else d

/-- `computeDropDistance(cells)`: the first depth whose one-step extension is
blocked. -/
def computeDropDistance (g : Grid) (cells : List Pos) : ℕ := dropGo g cells 20 0

/-- Modelled from the spec (§4.3, and claim C4): the *specification's*
characterization of the drop distance, written from the spec's words, for
comparison with `computeDropDistance`: the maximal `d ≥ 0` such that
translating every cell down by `d` keeps all cells in bounds and lands only
on cells that are empty in the grid with the block's own footprint vacated. -/
def specDropOk (g : Grid) (cells : List Pos) (d : ℕ) : Bool :=
  let gv := clearCellsG g cells
  cells.all fun c =>
    decide (0 ≤ c.1) && decide (c.1 < WIDTH) && decide (0 ≤ c.2 + (d : ℤ)) &&
      decide (c.2 + (d : ℤ) < HEIGHT) && isEmptyCell (gv c.1 (c.2 + (d : ℤ)))

/-- Modelled from the spec (claim C4): the greatest `d ≤ 20` satisfying
`specDropOk` (0 when none does). -/
def specMaxDrop (g : Grid) (cells : List Pos) : ℕ :=
  (List.range 21).foldl (fun acc d => if specDropOk g cells d then d else acc) 0

/-- A recorded gravity move `{cells, color, blockId, dropDistance}` (cells
are the pre-move positions). -/
structure Move where
  cells : List Pos
  color : ColorV
  blockId : ℕ
  dropDistance : ℕ
  deriving DecidableEq, Repr

/-- Defunctionalized closures stored for later invocation (animation
continuations, finalize callbacks, and `onComplete` arguments). -/
inductive Callback where
  /-- The continuation `() => settleBoard({animate: true, onComplete})`. -/
  | settleCont (onComplete : Option Callback) : Callback
  /-- The `onComplete` closure `() => { if (shouldSpawn) spawnBlocks(); }`
  installed by `finalizePlacement`. -/
  | spawnIfShould (shouldSpawn : Bool) : Callback
  /-- The `finalize` closure
  `() => finalizePlacement(cells, color, blockId, dropDistance, shouldSpawn)`
  installed by the mouseup handler. -/
  | finalizePlace (cells : List Pos) (color : ColorV) (blockId : ℕ)
      (dropDistance : ℕ) (shouldSpawn : Bool) : Callback

/-- The `fallingAnimation` record.  `strokeStyle` is already resolved to its
stored value (`none` models the explicit `strokeStyle: null` of settle
animations). -/
structure FallingAnimation where
  moves : List Move
  finalize : Option Callback
  after : List Callback
  strokeStyle : Option String
  startTime : Option ℕ
  duration : ℕ

/-- The `hoveredBlock` record. -/
structure HoverInfo where
  color : ColorV
  blockId : ℕ
  cells : List Pos

/-- The `selectedBlock` record.  `pointerStartX` is omitted: it only feeds
the pointer-to-offset mapping, which is an external interface (§6); drag
events are embedded directly by their requested offset. -/
structure Selection where
  color : ColorV
  blockId : ℕ
  baseCells : List Pos
  cells : List Pos
  offset : ℤ
  deriving DecidableEq, Repr

/-- The complete mutable program state (the module-level variables of the
source). -/
@[ext]
structure State where
  grid : Grid
  topLine : ℤ
  selectedBlock : Option Selection
  hoveredBlock : Option HoverInfo
  score : ℕ
  nextRow : Option Row
  selectionMoved : Bool
  fallingAnimation : Option FallingAnimation
  blockCounter : ℕ

/-- The grid part of `moveBlocksUp()`: shift every cell one row up (reading
the evolving grid, exactly as the source's ascending-`y` loop does; each
read happens before its row is overwritten), then clear the bottom row. -/
def shiftUpGrid (g : Grid) : Grid :=
  let g1 := shiftSources.foldl (fun h p => gridSet h p.1 (p.2 - 1) (h p.1 p.2)) g
  (List.range 10).foldl (fun h (xi : ℕ) => gridSet h (xi : ℤ) (HEIGHT - 1) none) g1

/-- `moveBlocksUp()`: shift the grid up and increment `topLine`. -/
def moveBlocksUp (st : State) : State :=
  { st with grid := shiftUpGrid st.grid, topLine := st.topLine + 1 }

/-- The bottom-row insertion loop
`for (x...) grid[idx(x, HEIGHT-1)] = copyCell(row[x])` shared by
`rowWouldClearLines` and `spawnBlocks`. -/
def insertRowGrid (g : Grid) (row : Row) : Grid :=
  (List.range 10).foldl
    (fun h (xi : ℕ) => gridSet h (xi : ℤ) (HEIGHT - 1) (row.getD xi none)) g

/-- State-level wrapper of `insertRowGrid`. -/
def insertBottomRow (st : State) (row : Row) : State :=
  { st with grid := insertRowGrid st.grid row }

/-- The per-position body of one bottom-to-top sweep of `applyGravity`. -/
structure SweepState where
  grid : Grid
  processed : List ℕ
  moved : Bool
  moves : List Move

/-- One step of the sweep at position `p`: skip empty / already-processed
cells, flood-fill the block, compute its drop distance against the current
grid, and on a positive distance clear the old cells then write the new
ones (clear-then-write) and record the move when collecting. -/
def sweepStep (collect : Bool) (st : SweepState) (p : Pos) : SweepState :=
  match st.grid p.1 p.2 with
  | none => st
  | some bc =>
    if bc.blockId ∈ st.processed then st
    else
      let cells := collectBlockCells st.grid p.1 p.2 (some bc.blockId)
      if cells = [] then st
      else
        let processed := bc.blockId :: st.processed
        let d := computeDropDistance st.grid cells
        if d = 0 then { st with processed := processed }
        else
          { grid := writeCellsG (clearCellsG st.grid cells) cells d bc.color bc.blockId
            processed := processed
            moved := true
            moves := if collect then st.moves ++ [⟨cells, bc.color, bc.blockId, d⟩] else st.moves }

/-- The sweep order: `y` from HEIGHT-1 down to 0, `x` from 0 to WIDTH-1. -/
def sweepPositions : List Pos :=
  (List.range 20).reverse.flatMap fun (yi : ℕ) => (List.range 10).map fun (xi : ℕ) => (((xi : ℤ), (yi : ℤ)) : Pos)

/-- One full bottom-to-top sweep (one iteration of the `do ... while (moved)`
loop), with a fresh `processedBlocks` set. -/
def sweepOnce (collect : Bool) (g : Grid) (moves : List Move) : SweepState :=
  sweepPositions.foldl (sweepStep collect) ⟨g, [], false, moves⟩

/-- The `do ... while (moved)` loop of `applyGravity`.  Every sweep that
reports `moved` strictly decreases the board potential (sum over non-empty
cells of `HEIGHT - y`, at most 200·20 = 4000), so fuel 4096 dominates the
loop. -/
def gravityGo (collect : Bool) : ℕ → Grid → Bool → List Move → Grid × Bool × List Move
  | 0, g, movedAny, moves => (g, movedAny, moves)
  | fuel + 1, g, movedAny, moves =>
    let st := sweepOnce collect g moves
    if st.moved then gravityGo collect fuel st.grid true st.moves
    else (st.grid, movedAny, st.moves)

/-- `applyGravity({collectMoves})`: no-op while a selection or animation is
active; otherwise sweep to the fixed point.  Returns the updated state, the
`moved` flag, and the collected moves. -/
def applyGravity (collect : Bool) (st : State) : State × Bool × List Move :=
  if st.selectedBlock.isSome || st.fallingAnimation.isSome then (st, false, [])
  else
    let r := gravityGo collect 4096 st.grid false []
    ({ st with grid := r.1 }, r.2.1, r.2.2)

/-- A row is full iff every column in it is non-empty. -/
def rowFull (g : Grid) (y : ℤ) : Bool :=
  (List.range 10).all fun (xi : ℕ) => !isEmptyCell (g (xi : ℤ) y)

/-- Reset one row to all-empty in place. -/
def clearRow (g : Grid) (y : ℤ) : Grid :=
  (List.range 10).foldl (fun g (xi : ℕ) => gridSet g (xi : ℤ) y none) g

/-- The grid part of `clearFullLines()`: clear every full row (checked
against the evolving grid, row by row — clearing one row cannot change
another row's fullness) and count them. -/
def clearFullLinesGrid (g : Grid) : ℕ × Grid :=
  (List.range 20).foldl
    (fun (acc : ℕ × Grid) (yi : ℕ) =>
      if rowFull acc.2 (yi : ℤ) then (acc.1 + 1, clearRow acc.2 (yi : ℤ)) else acc)
    (0, g)

/-- `clearFullLines()`: clear the full rows, return the count, and drop the
hover highlight when anything cleared. -/
def clearFullLines (st : State) : ℕ × State :=
  let r := clearFullLinesGrid st.grid
  (r.1, { st with
            grid := r.2
            hoveredBlock := if r.1 > 0 then none else st.hoveredBlock })

/-- The synchronous settle loop
`while (true) { applyGravity(); cleared = clearFullLines(); if (!cleared) break;
totalCleared += cleared; }`.  Every continuing iteration clears at least one
full row and so strictly decreases the board potential (≤ 4000), hence fuel
4096 dominates the loop. -/
def settleLoopGo : ℕ → State → ℕ → ℕ × State
  | 0, st, total => (total, st)
  | fuel + 1, st, total =>
    let st1 := (applyGravity false st).1
    let r := clearFullLines st1
    if r.1 = 0 then (total, r.2) else settleLoopGo fuel r.2 (total + r.1)

/-- `settleBoard({animate: false})`: run the synchronous loop, then add the
total to the score once (only when non-zero).  The sync path is only called
without an `onComplete` callback. -/
def settleBoardNoAnimate (st : State) : ℕ × State :=
  let r := settleLoopGo 4096 st 0
  (r.1, { r.2 with score := if r.1 ≠ 0 then r.2.score + r.1 else r.2.score })

/-- `startFallAnimation(moves, options)`: no-op on an empty move list,
otherwise install the single animation slot (move data is cloned in the
source; values are immutable here).  `strokeGiven` models whether the
options object carries a `strokeStyle` property. -/
def startFallAnimation (st : State) (moves : List Move) (finalize : Option Callback)
    (afterCb : Option Callback) (strokeGiven : Bool) (stroke : Option String) : State :=
  if moves = [] then st
  else
    { st with
      fallingAnimation := some
        { moves := moves
          finalize := finalize
          after := afterCb.toList
          strokeStyle := if strokeGiven then stroke else some "BORDER_SELECTED"
          startTime := none
          duration := max 120 ((moves.foldl (fun m mv => max m mv.dropDistance) 0) * 120) } }

/-- `settleBoard({animate: true, onComplete})`.  If an animation is in
flight, append the settle continuation to its queue and return 0.  Otherwise
run gravity collecting moves; stage them as an animation if any, else clear
lines, score them, and recurse (each recursion follows a positive clear and
so strictly decreases the board potential; fuel 4096 dominates).  The third
component lists the callbacks the call invokes synchronously at its end
(`onComplete` when the board is already stable). -/
def settleAnimateGo : ℕ → State → Option Callback → ℕ × State × List Callback
  | 0, st, _ => (0, st, [])
  | fuel + 1, st, onComplete =>
    match st.fallingAnimation with
    | some anim =>
        let anim2 := { anim with after := anim.after ++ [Callback.settleCont onComplete] }
        (0, { st with fallingAnimation := some anim2 }, [])
    | none =>
        let r := applyGravity true st
        if r.2.2 ≠ [] then
          (0, startFallAnimation ({ r.1 with hoveredBlock := none }) r.2.2 none
                (some (Callback.settleCont onComplete)) true none, [])
        else
          let c := clearFullLines r.1
          if c.1 > 0 then
            settleAnimateGo fuel { c.2 with score := c.2.score + c.1 } onComplete
          else (0, c.2, onComplete.toList)

/-- `settleBoard({animate: true, onComplete})` at its standard fuel. -/
def settleBoardAnimate (st : State) (onComplete : Option Callback) :
    ℕ × State × List Callback :=
  settleAnimateGo 4096 st onComplete

/-- `rowWouldClearLines(row)`: snapshot the grid and the five scalar/
transient fields, suspend hover/selection/animation, shift rows up, insert
the candidate at the bottom, settle unanimated, then restore everything and
report whether anything cleared.  (`nextRow`, `selectionMoved` and
`blockCounter` are not snapshotted in the source; none of the probe's
callees touches them.) -/
def rowWouldClearLines (st : State) (row : Row) : Bool × State :=
  let st1 := { st with hoveredBlock := none, selectedBlock := none,
                       fallingAnimation := none }
  let st2 := insertBottomRow (moveBlocksUp st1) row
  let r := settleBoardNoAnimate st2
  let restored := { r.2 with
    grid := fun x y => if inB x y then st.grid x y else r.2.grid x y
    topLine := st.topLine
    score := st.score
    hoveredBlock := st.hoveredBlock
    selectedBlock := st.selectedBlock
    fallingAnimation := st.fallingAnimation }
  (r.1 > 0, restored)

/-- The retry loop of `spawnBlocks`:
`while (rowWouldClearLines(nextRow) && attempts < 20) { nextRow =
generateNextRow(); attempts++; }`.  `stream a` is the candidate produced by
the regeneration at attempt counter `a`; the probed state is constant across
iterations because `rowWouldClearLines` restores it (see claim C2).  The
attempts counter strictly increases and the guard caps it at 20, so fuel 21
dominates the loop. -/
def spawnLoopGo (st : State) (stream : ℕ → Row) : ℕ → Row → ℕ → Row × ℕ
  | 0, current, attempts => (current, attempts)
  | fuel + 1, current, attempts =>
    if (rowWouldClearLines st current).1 = true ∧ attempts < 20 then
      spawnLoopGo st stream fuel (stream attempts) (attempts + 1)
    else (current, attempts)

/-- The candidate sequence seen by the retry loop: index 0 is the held
`nextRow` buffer, index `i+1` is the row produced by the `i`-th
regeneration. -/
def spawnCandidate (initial : Row) (stream : ℕ → Row) : ℕ → Row
  | 0 => initial
  | i + 1 => stream i

/-- The row `spawnBlocks` actually inserts: the loop's survivor, replaced by
the deterministic all-empty fallback when the attempt bound was exhausted
(`if (attempts >= 20) nextRow = all-empty`). -/
def spawnChooseRow (st : State) (stream : ℕ → Row) (initial : Row) : Row :=
  let r := spawnLoopGo st stream 21 initial 0
  if r.2 ≥ 20 then emptyRow else r.1

/-- `canPlaceOffset(baseCells, offset)`: every base cell shifted by `offset`
stays in `[0, WIDTH)` and lands on an empty grid cell. -/
def canPlaceOffset (g : Grid) (baseCells : List Pos) (offset : ℤ) : Bool :=
  baseCells.all fun c =>
    decide (0 ≤ c.1 + offset) && decide (c.1 + offset < WIDTH) &&
      isEmptyCell (g (c.1 + offset) c.2)

/-- The one-column-at-a-time walk of `applyOffset`: step from the current
offset toward the target, stopping at the first candidate that cannot be
placed.  The fuel is the exact remaining distance, so the loop ends when the
target is reached or a step is blocked. -/
def walkOffsetGo (g : Grid) (baseCells : List Pos) (dir : ℤ) : ℕ → ℤ → ℤ
  | 0, cur => cur
  | fuel + 1, cur =>
    if canPlaceOffset g baseCells (cur + dir) then walkOffsetGo g baseCells dir fuel (cur + dir)
    else cur

/-- `applyOffset(offset)` of variant A (index.js): walk toward the requested
offset, and when the offset actually changed update the selection's cells
and set `selectionMoved = true`. -/
def applyOffset (st : State) (offset : ℤ) : State :=
  match st.selectedBlock with
  | none => st
  | some sel =>
    if offset = sel.offset then st
    else
      let dir : ℤ := if offset > sel.offset then 1 else -1
      let newOffset := walkOffsetGo st.grid sel.baseCells dir (offset - sel.offset).natAbs sel.offset
      if newOffset = sel.offset then st
      else
        { st with
          selectedBlock := some
            { sel with
              offset := newOffset
              cells := sel.baseCells.map fun c => (c.1 + newOffset, c.2) }
          selectionMoved := true }

/-- `applyOffset(offset)` of variant B (part_000): identical walk, but the
variant has no `selectionMoved` flag to set. -/
def applyOffsetB (st : State) (offset : ℤ) : State :=
  match st.selectedBlock with
  | none => st
  | some sel =>
    if offset = sel.offset then st
    else
      let dir : ℤ := if offset > sel.offset then 1 else -1
      let newOffset := walkOffsetGo st.grid sel.baseCells dir (offset - sel.offset).natAbs sel.offset
      if newOffset = sel.offset then st
      else
        { st with
          selectedBlock := some
            { sel with
              offset := newOffset
              cells := sel.baseCells.map fun c => (c.1 + newOffset, c.2) } }

/-- `trySelectBlock` at an already-mapped cell coordinate (pointer mapping
and the primary-button check are external interfaces, §6): ignore when a
selection or animation is active or the cell is empty; otherwise remove the
block's cells from the grid and create the selection with offset 0.
Variant A also resets `selectionMoved`; variant B has no such flag. -/
def trySelectBlock (st : State) (cellX cellY : ℤ) : State :=
  if st.selectedBlock.isSome || st.fallingAnimation.isSome then st
  else if ¬ (inB cellX cellY) then st
  else
    match st.grid cellX cellY with
    | none => st
    | some bc =>
      let cells := collectBlockCells st.grid cellX cellY (some bc.blockId)
      if cells = [] then st
      else
        { st with
          grid := clearCellsG st.grid cells
          selectedBlock := some
            { color := bc.color, blockId := bc.blockId
              baseCells := cells, cells := cells, offset := 0 }
          hoveredBlock := none
          selectionMoved := false }

/-- The placement record produced by `dropSelectedBlock`. -/
structure Placement where
  cells : List Pos
  color : ColorV
  blockId : ℕ
  dropDistance : ℕ
  shouldSpawn : Bool

/-- `dropSelectedBlock()` of variant A (index.js): the spawn trigger is the
`selectionMoved` flag (true iff some drag changed the offset). -/
def dropSelectedBlockA (st : State) : Option (Placement × State) :=
  match st.selectedBlock with
  | none => none
  | some sel =>
    some ({ cells := sel.cells, color := sel.color, blockId := sel.blockId
            dropDistance := computeDropDistance st.grid sel.cells
            shouldSpawn := st.selectionMoved },
          { st with selectedBlock := none })

/-- `dropSelectedBlock()` of variant B (part_000): the spawn trigger is
`offset !== 0` at release time. -/
def dropSelectedBlockB (st : State) : Option (Placement × State) :=
  match st.selectedBlock with
  | none => none
  | some sel =>
    some ({ cells := sel.cells, color := sel.color, blockId := sel.blockId
            dropDistance := computeDropDistance st.grid sel.cells
            shouldSpawn := sel.offset ≠ 0 },
          { st with selectedBlock := none })

/-- `finalizePlacement(...)`: write the dropped cells into the grid, settle
with the spawn-on-complete callback, and clear `selectionMoved` (variant A).
Returns the state and the callbacks the settle call invoked. -/
def finalizePlacement (st : State) (cells : List Pos) (color : ColorV) (blockId : ℕ)
    (dropDistance : ℕ) (shouldSpawn : Bool) : State × List Callback :=
  let g := writeCellsG st.grid cells dropDistance color blockId
  let r := settleBoardAnimate { st with grid := g } (some (Callback.spawnIfShould shouldSpawn))
  ({ r.2.1 with selectionMoved := false }, r.2.2)

/-- The block id stored at a position. -/
def idAt (g : Grid) (p : Pos) : Option ℕ := blockIdOf (g p.1 p.2)

/-- The in-bounds cells carrying a given block id. -/
def BlockOf (g : Grid) (id : ℕ) : Finset Pos :=
  boxFinset.filter (fun p => idAt g p = some id)

/-- A non-empty horizontal run: cells `(x0, y) … (x0+len-1, y)`. -/
def IsHRun (s : Finset Pos) : Prop :=
  ∃ x0 y len, 0 < len ∧ s = (Finset.range len).image (fun i : ℕ => ((x0 + (i : ℤ), y) : Pos))

/-- Every out-of-bounds coordinate is empty. -/
def OffBoxEmpty (g : Grid) : Prop := ∀ x y, ¬ inB x y → g x y = none

/-- Every block id present in the grid was allocated (is ≤ the counter) and
occupies a single horizontal run of cells. -/
def GoodGrid (g : Grid) (counter : ℕ) : Prop :=
  ∀ id, (BlockOf g id).Nonempty → id ≤ counter ∧ IsHRun (BlockOf g id)

/-- The transient invariant of an active selection: the base cells are a
horizontal run with in-bounds rows, the displayed cells are the base cells
shifted by the offset, the current offset is placeable, the selected id has
been fully removed from the grid, and it was allocated. -/
def SelGood (g : Grid) (counter : ℕ) : Option Selection → Prop
  | none => True
  | some s =>
      s.baseCells ≠ [] ∧ IsHRun s.baseCells.toFinset ∧
      (∀ p ∈ s.baseCells, 0 ≤ p.2 ∧ p.2 < HEIGHT) ∧
      s.cells = s.baseCells.map (fun c => (c.1 + s.offset, c.2)) ∧
      canPlaceOffset g s.baseCells s.offset = true ∧
      BlockOf g s.blockId = ∅ ∧ s.blockId ≤ counter

/-- Grid-level machine state for the reachability invariant of claim C10:
the grid, the block-id allocator, and the optional active selection. -/
structure GSt where
  grid : Grid
  counter : ℕ
  sel : Option Selection

/-- View a machine state as a full program state (the omitted fields do not
influence the grid-mutating operations used by the machine; `applyGravity`'s
animation guard is subsumed by the fact that the machine only takes
grid-mutating steps, which the source never runs mid-animation). -/
def toState (s : GSt) : State :=
  { grid := s.grid, topLine := 0, selectedBlock := s.sel, hoveredBlock := none
    score := 0, nextRow := none, selectionMoved := false, fallingAnimation := none
    blockCounter := s.counter }

/-- Project a program state back to the machine state. -/
def ofState (st : State) : GSt := ⟨st.grid, st.blockCounter, st.selectedBlock⟩

/-- The grid-mutating operations of the engine, as a step relation.  Settle
is covered by interleavings of `gravity` and `clearStep`; a spawn is a
`shiftInsert` (or `shiftInsertEmpty` for the 20-attempt fallback) followed
by settle steps; a release commit is `placeStep` followed by settle steps
(the grid is not touched between release and the animation's finalize, so
computing the drop distance at the step is equivalent to the source's
release-time computation).  `shiftInsert` generates the inserted row at the
machine's current counter; in the source the buffered row was generated at
an earlier counter value, with the same freshness of its ids relative to
every id on the grid, so the machine covers the source's reachable grids up
to the concrete id values. -/
inductive GStep : GSt → GSt → Prop where
  /-- A gravity pass (`applyGravity`). -/
  | gravity (s : GSt) : GStep s (ofState (applyGravity false (toState s)).1)
  /-- A line-clear pass (`clearFullLines`). -/
  | clearStep (s : GSt) : GStep s (ofState (clearFullLines (toState s)).2)
  /-- `moveBlocksUp` plus insertion of a freshly generated row. -/
  | shiftInsert (s : GSt) (colorPick : ℕ → Fin 4) (lenPick : ℕ → ℕ)
      (h : s.sel = none) :
      GStep s ⟨insertRowGrid (shiftUpGrid s.grid)
                 (generateNextRow colorPick lenPick s.counter).1,
               (generateNextRow colorPick lenPick s.counter).2, none⟩
  /-- `moveBlocksUp` plus insertion of the all-empty fallback row. -/
  | shiftInsertEmpty (s : GSt) (h : s.sel = none) :
      GStep s ⟨insertRowGrid (shiftUpGrid s.grid) emptyRow, s.counter, none⟩
  /-- `trySelectBlock` at any cell coordinate. -/
  | selectStep (s : GSt) (x y : ℤ) : GStep s (ofState (trySelectBlock (toState s) x y))
  /-- A drag event (`applyOffset`) with any requested offset. -/
  | dragStep (s : GSt) (offset : ℤ) : GStep s (ofState (applyOffset (toState s) offset))
  /-- The release commit: `dropSelectedBlock` plus the grid write of
  `finalizePlacement` (direct when the drop distance is 0, otherwise via the
  animation's finalize callback). -/
  | placeStep (s : GSt) (sel : Selection) (h : s.sel = some sel) :
      GStep s ⟨writeCellsG s.grid sel.cells (computeDropDistance s.grid sel.cells)
                 sel.color sel.blockId,
               s.counter, none⟩

/-- The bootstrap state: empty board, counter 0, no selection. -/
def initGSt : GSt := ⟨fun _ _ => none, 0, none⟩

/-- Reachability of machine states from the bootstrap state. -/
def ReachableG (s : GSt) : Prop := Relation.ReflTransGen GStep initGSt s

/-- The horizontal run of `len` cells starting at `(x0, y0)` (the canonical
witness shape of `IsHRun`). -/
def runFinset (x0 y0 : ℤ) (len : ℕ) : Finset Pos :=
  (Finset.range len).image fun i : ℕ => ((x0 + (i : ℤ), y0) : Pos)

/-- The halo box `[-1, WIDTH] × [-1, HEIGHT]`: every position the flood fill
can ever push is a 4-neighbor of an in-bounds cell, hence lies here. -/
def bigBox : Finset Pos :=
  (Finset.Icc (-1 : ℤ) WIDTH) ×ˢ (Finset.Icc (-1 : ℤ) HEIGHT)

/-- The reachability invariant behind claim C10: off-board cells are empty,
every block id on the grid was allocated and occupies one horizontal run,
and an active selection satisfies its transient invariant. -/
def InvG (s : GSt) : Prop :=
  OffBoxEmpty s.grid ∧ GoodGrid s.grid s.counter ∧ SelGood s.grid s.counter s.sel

/-- A constant color stream drawing palette index 0 (green). -/
def cpA : ℕ → Fin 4 := fun _ => 0

/-- A constant raw-length stream drawing 1 (yielding runs of length 2 while
the budget allows). -/
def lpA : ℕ → ℕ := fun _ => 1

/-- The machine state after one `shiftInsert` step from the bootstrap state
with the constant streams: its bottom row starts with a green block of id 1
on cells `(0,19)` and `(1,19)`. -/
def c10St : GSt :=
  ⟨insertRowGrid (shiftUpGrid initGSt.grid)
     (generateNextRow cpA lpA initGSt.counter).1,
   (generateNextRow cpA lpA initGSt.counter).2, none⟩

/-- A concrete board for the drag example: one foreign cell at `(2, 19)`,
everything else empty. -/
def dragExampleGrid : Grid :=
  fun a b => if a = 2 ∧ b = 19 then some ⟨.green, 5⟩ else none

/-- A selection of the single-cell block `(0, 19)` on `dragExampleGrid`. -/
def dragExampleSel : Selection :=
  { color := .blue, blockId := 1, baseCells := [((0 : ℤ), (19 : ℤ))]
    cells := [((0 : ℤ), (19 : ℤ))], offset := 0 }

/-- The program state of the drag example. -/
def dragExampleSt : State :=
  { grid := dragExampleGrid, topLine := 0, selectedBlock := some dragExampleSel
    hoveredBlock := none, score := 0, nextRow := none, selectionMoved := false
    fallingAnimation := none, blockCounter := 5 }

/-- The all-empty board. -/
def emptyGridEx : Grid := fun _ _ => none

/-- The bootstrap program state: empty board, no transient state. -/
def emptyStateEx : State :=
  { grid := emptyGridEx, topLine := -1, selectedBlock := none, hoveredBlock := none
    score := 0, nextRow := none, selectionMoved := false, fallingAnimation := none
    blockCounter := 0 }

/-- A board with a single one-cell block (id 1) at `(0, 19)`. -/
def c1Grid : Grid := fun a b => if a = 0 ∧ b = 19 then some ⟨.green, 1⟩ else none

/-- The program state holding `c1Grid`, ready for a selection. -/
def c1St0 : State := { emptyStateEx with grid := c1Grid, blockCounter := 1 }

/-- The selection created by pressing on `(0, 19)` in `c1St0`. -/
def c1Sel : Selection :=
  { color := .green, blockId := 1, baseCells := [((0 : ℤ), (19 : ℤ))]
    cells := [((0 : ℤ), (19 : ℤ))], offset := 0 }

/-- A concrete in-flight animation for the serialization example. -/
def animExampleAnim : FallingAnimation :=
  { moves := [⟨[((0 : ℤ), (17 : ℤ))], .green, 1, 2⟩], finalize := none, after := []
    strokeStyle := none, startTime := none, duration := 240 }

/-- A program state with `animExampleAnim` in flight. -/
def animExampleSt : State :=
  { emptyStateEx with fallingAnimation := some animExampleAnim }

/-- A concrete board for the drop-distance example: block 1 at `(0,17)`,
a foreign block 2 directly below it at `(0,18)`, and `(0,19)` empty. -/
def dropExampleGrid : Grid :=
  fun a b =>
    if a = 0 ∧ b = 17 then some ⟨.green, 1⟩
    else if a = 0 ∧ b = 18 then some ⟨.white, 2⟩
    else none

/-! ## Theorems

Supporting lemmas first, then one theorem (plus witness or counterexample)
per claim. -/

theorem walkOffsetGo_canPlace (g : Grid) (base : List Pos) (dir : ℤ) :
    ∀ (fuel : ℕ) (cur : ℤ), canPlaceOffset g base cur = true →
      canPlaceOffset g base (walkOffsetGo g base dir fuel cur) = true := by
  intro fuel
  induction fuel with
  | zero => intro cur h; simpa [walkOffsetGo] using h
  | succ n ih =>
    intro cur h
    by_cases hc : canPlaceOffset g base (cur + dir) = true
    · rw [walkOffsetGo, if_pos hc]
      exact ih (cur + dir) hc
    · rw [walkOffsetGo, if_neg hc]
      exact h

theorem walkOffsetGo_dichotomy (g : Grid) (base : List Pos) (dir : ℤ) :
    ∀ (fuel : ℕ) (cur : ℤ),
      walkOffsetGo g base dir fuel cur = cur + dir * fuel ∨
        canPlaceOffset g base (walkOffsetGo g base dir fuel cur + dir) = false := by
  intro fuel
  induction fuel with
  | zero => intro cur; left; simp [walkOffsetGo]
  | succ n ih =>
    intro cur
    by_cases hc : canPlaceOffset g base (cur + dir) = true
    · rw [walkOffsetGo, if_pos hc]
      rcases ih (cur + dir) with h | h
      · left; rw [h]; push_cast; ring
      · right; exact h
    · rw [walkOffsetGo, if_neg hc]
      right
      exact Bool.eq_false_iff.mpr hc

theorem dir_mul_natAbs (a b : ℤ) :
    a + (if a < b then (1 : ℤ) else -1) * ((b - a).natAbs : ℤ) = b := by
  by_cases hlt : a < b
  · rw [if_pos hlt]; simp only [one_mul]; omega
  · rw [if_neg hlt]; simp only [neg_one_mul]; omega

/-- C7: for every active selection and requested drag offset, offset
resolution walks one column at a time from the current offset toward the
requested one, stopping at the first blocked step: the resulting offset is
placeable (its cell set stays inside `[0, WIDTH)` and overlaps no occupied
cell), the selection's displayed cells are its base cells shifted by the
resulting offset, and either the requested offset was reached or the next
step toward it is blocked. -/
theorem c7_drag_offset_resolution
    (st : State) (sel : Selection) (target : ℤ)
    (hsel : st.selectedBlock = some sel)
    (hcells : sel.cells = sel.baseCells.map (fun c => (c.1 + sel.offset, c.2)))
    (hplace : canPlaceOffset st.grid sel.baseCells sel.offset = true) :
    ∃ sel2, (applyOffset st target).selectedBlock = some sel2 ∧
      sel2.baseCells = sel.baseCells ∧
      sel2.cells = sel.baseCells.map (fun c => (c.1 + sel2.offset, c.2)) ∧
      canPlaceOffset st.grid sel.baseCells sel2.offset = true ∧
      (sel2.offset = target ∨
        canPlaceOffset st.grid sel.baseCells
          (sel2.offset + (if sel.offset < target then (1 : ℤ) else -1)) = false) := by
  by_cases h0 : target = sel.offset
  · refine ⟨sel, ?_, rfl, hcells, hplace, Or.inl h0.symm⟩
    simp only [applyOffset, hsel, if_pos h0]
  · have hdir :
        (if target > sel.offset then (1 : ℤ) else -1) =
          (if sel.offset < target then (1 : ℤ) else -1) := rfl
    set dir : ℤ := if sel.offset < target then (1 : ℤ) else -1 with hdirdef
    set newOffset := walkOffsetGo st.grid sel.baseCells dir (target - sel.offset).natAbs sel.offset
      with hno
    have hreach : sel.offset + dir * ((target - sel.offset).natAbs : ℤ) = target :=
      dir_mul_natAbs sel.offset target
    have hdich := walkOffsetGo_dichotomy st.grid sel.baseCells dir
      (target - sel.offset).natAbs sel.offset
    by_cases h1 : newOffset = sel.offset
    · refine ⟨sel, ?_, rfl, hcells, hplace, Or.inr ?_⟩
      · simp only [applyOffset, hsel, if_neg h0, hdir, ← hno, if_pos h1]
      · rcases hdich with hEq | hBlocked
        · exfalso
          rw [← hno, h1] at hEq
          exact h0 (by linarith)
        · rw [← hno, h1] at hBlocked
          exact hBlocked
    · refine ⟨⟨sel.color, sel.blockId, sel.baseCells,
        sel.baseCells.map (fun c => (c.1 + newOffset, c.2)), newOffset⟩, ?_, rfl, rfl, ?_, ?_⟩
      · simp only [applyOffset, hsel, if_neg h0, hdir, ← hno, if_neg h1]
      · exact walkOffsetGo_canPlace st.grid sel.baseCells dir _ sel.offset hplace
      · rcases hdich with hEq | hBlocked
        · left
          show newOffset = target
          rw [← hno] at hEq
          rw [hEq]
          exact hreach
        · right
          rw [← hno] at hBlocked
          exact hBlocked

/-- Witness for C7: the spec's scenario — a drag request of +3 when only +1
is reachable before hitting the occupant at column 2 resolves to offset +1,
which is placeable. -/
theorem c7_drag_offset_resolution_witness :
    dragExampleSt.selectedBlock = some dragExampleSel ∧
    canPlaceOffset dragExampleSt.grid dragExampleSel.baseCells dragExampleSel.offset = true ∧
    (∃ sel2, (applyOffset dragExampleSt 3).selectedBlock = some sel2 ∧
      sel2.baseCells = dragExampleSel.baseCells ∧
      sel2.cells = dragExampleSel.baseCells.map (fun c => (c.1 + sel2.offset, c.2)) ∧
      canPlaceOffset dragExampleSt.grid dragExampleSel.baseCells sel2.offset = true ∧
      (sel2.offset = 3 ∨
        canPlaceOffset dragExampleSt.grid dragExampleSel.baseCells
          (sel2.offset + (if dragExampleSel.offset < 3 then (1 : ℤ) else -1)) = false)) ∧
    (applyOffset dragExampleSt 3).selectedBlock =
      some ⟨.blue, 1, [((0 : ℤ), (19 : ℤ))], [((1 : ℤ), (19 : ℤ))], 1⟩ :=
  ⟨rfl, by decide,
    c7_drag_offset_resolution dragExampleSt dragExampleSel 3 rfl (by decide) (by decide),
    by decide⟩

theorem getD_set_char (l : List Cell) (j i : ℕ) (c : Cell) :
    (l.set j c).getD i none = if j = i ∧ j < l.length then c else l.getD i none := by
  by_cases h1 : j = i
  · subst h1
    by_cases h2 : j < l.length
    · simp [List.getD_eq_getElem?_getD, List.getElem?_set, h2]
    · rw [if_neg (fun hh => h2 hh.2), List.set_eq_of_length_le (by omega)]
  · simp [List.getD_eq_getElem?_getD, List.getElem?_set, h1]

theorem setRun_length (c : Cell) : ∀ (len : ℕ) (row : Row) (x : ℕ),
    (setRun row x len c).length = row.length := by
  intro len
  induction len with
  | zero => intro row x; rfl
  | succ n ih =>
    intro row x
    rw [setRun]
    by_cases h : x < 10
    · rw [if_pos h, ih, List.length_set]
    · rw [if_neg h]

theorem setRun_getD (c : Cell) : ∀ (len : ℕ) (row : Row) (x : ℕ), row.length = 10 →
    ∀ i, (setRun row x len c).getD i none =
      if x ≤ i ∧ i < x + len ∧ i < 10 then c else row.getD i none := by
  intro len
  induction len with
  | zero =>
    intro row x _ i
    rw [setRun, if_neg]
    rintro ⟨h1, h2, -⟩
    omega
  | succ n ih =>
    intro row x hlen i
    rw [setRun]
    by_cases hx : x < 10
    · rw [if_pos hx, ih (row.set x c) (x + 1) (by rw [List.length_set, hlen]) i,
        getD_set_char, hlen]
      split_ifs <;> first | rfl | omega
    · rw [if_neg hx, if_neg]
      rintro ⟨h1, -, h3⟩
      omega

theorem filledCount_congr (row row2 : Row) (hlen : row2.length = row.length)
    (hpt : ∀ i, row2.getD i none = row.getD i none) :
    filledCount row2 = filledCount row := by
  unfold filledCount
  rw [hlen]
  congr 1
  apply Finset.filter_congr
  intro i _
  rw [hpt i]

theorem RowInv_congr (c0 : ℕ) (row row2 : Row) (sp x x2 cnt : ℕ)
    (hlen : row2.length = row.length)
    (hpt : ∀ i, row2.getD i none = row.getD i none)
    (hx : x ≤ x2) (hx2 : x2 ≤ 10)
    (hInv : RowInv c0 row sp x cnt) : RowInv c0 row2 sp x2 cnt := by
  obtain ⟨hL, hF, hS, hC, -, hEmp, hIds⟩ := hInv
  refine ⟨by rw [hlen, hL], by rw [filledCount_congr row row2 hlen hpt, hF], hS, hC, hx2,
    ?_, ?_⟩
  · intro i hi
    rw [hpt i]
    exact hEmp i (by omega)
  · intro id hid
    have hid2 : ∃ i, blockIdOf (row.getD i none) = some id := by
      obtain ⟨i, hi⟩ := hid
      exact ⟨i, by rw [← hpt i]; exact hi⟩
    obtain ⟨hgt, hle, l, len, h1, h4, hlx, hrun⟩ := hIds id hid2
    refine ⟨hgt, hle, l, len, h1, h4, by omega, ?_⟩
    intro i
    rw [hpt i]
    exact hrun i

theorem RowInv_writeEmpty (c0 : ℕ) (row : Row) (sp x cnt len : ℕ)
    (h : RowInv c0 row sp x cnt) (hxlen : x + len ≤ 10) :
    RowInv c0 (setRun row x len none) sp (x + len) cnt := by
  have hL := h.1
  have hEmp := h.2.2.2.2.2.1
  apply RowInv_congr c0 row (setRun row x len none) sp x (x + len) cnt
    (by rw [setRun_length, hL]) ?_ (by omega) hxlen h
  intro i
  rw [setRun_getD none len row x hL i]
  by_cases hc : x ≤ i ∧ i < x + len ∧ i < 10
  · rw [if_pos hc, hEmp i hc.1]
  · rw [if_neg hc]

theorem RowInv_writeColored (c0 : ℕ) (row : Row) (sp x cnt len : ℕ) (cv : ColorV)
    (h : RowInv c0 row sp x cnt)
    (hlen1 : 1 ≤ len) (hlen4 : len ≤ 4)
    (hS : sp + len ≤ MAX_BLOCK_SPAWN) (hX : x + len ≤ 10) :
    RowInv c0 (setRun row x len (some ⟨cv, cnt + 1⟩)) (sp + len) (x + len) (cnt + 1) := by
  obtain ⟨hL, hF, hS0, hC, hx10, hEmp, hIds⟩ := h
  have hchar : ∀ i, (setRun row x len (some ⟨cv, cnt + 1⟩)).getD i none =
      if x ≤ i ∧ i < x + len then some ⟨cv, cnt + 1⟩ else row.getD i none := by
    intro i
    rw [setRun_getD _ len row x hL i]
    by_cases hc : x ≤ i ∧ i < x + len
    · rw [if_pos ⟨hc.1, hc.2, by omega⟩, if_pos hc]
    · rw [if_neg (fun hh => hc ⟨hh.1, hh.2.1⟩), if_neg hc]
  refine ⟨by rw [setRun_length, hL], ?_, hS, by omega, by omega, ?_, ?_⟩
  · unfold filledCount
    rw [setRun_length, hL]
    have hsplit : (Finset.range 10).filter
          (fun i => ¬ (setRun row x len (some ⟨cv, cnt + 1⟩)).getD i none = none) =
        ((Finset.range 10).filter (fun i => ¬ row.getD i none = none)) ∪
          Finset.Ico x (x + len) := by
      ext i
      simp only [Finset.mem_filter, Finset.mem_range, Finset.mem_union, Finset.mem_Ico]
      rw [hchar i]
      by_cases hc : x ≤ i ∧ i < x + len
      · rw [if_pos hc]
        constructor
        · intro _; right; exact hc
        · intro _; exact ⟨by omega, by simp⟩
      · rw [if_neg hc]
        constructor
        · intro hi; left; exact hi
        · rintro (hi | hico)
          · exact hi
          · exact absurd hico hc
    rw [hsplit, Finset.card_union_of_disjoint, Nat.card_Ico]
    · unfold filledCount at hF
      rw [hL] at hF
      omega
    · rw [Finset.disjoint_left]
      intro i hi hico
      rw [Finset.mem_filter] at hi
      rw [Finset.mem_Ico] at hico
      exact hi.2 (hEmp i hico.1)
  · intro i hi
    rw [hchar i, if_neg (by omega)]
    exact hEmp i (by omega)
  · intro id hid
    by_cases hidc : id = cnt + 1
    · subst hidc
      refine ⟨by omega, le_refl _, x, len, hlen1, hlen4, le_refl _, ?_⟩
      intro i
      rw [hchar i]
      by_cases hc : x ≤ i ∧ i < x + len
      · rw [if_pos hc]
        constructor
        · intro _; exact hc
        · intro _; rfl
      · rw [if_neg hc]
        constructor
        · intro hrow
          have := (hIds (cnt + 1) ⟨i, hrow⟩).2.1
          omega
        · intro hci; exact absurd hci hc
    · obtain ⟨i, hi⟩ := hid
      rw [hchar i] at hi
      have hiout : ¬ (x ≤ i ∧ i < x + len) := by
        intro hc
        rw [if_pos hc] at hi
        simp only [blockIdOf, Option.map_some', Option.some.injEq] at hi
        exact hidc hi.symm
      rw [if_neg hiout] at hi
      obtain ⟨hgt, hle, l, len', h1', h4', hlx, hrun⟩ := hIds id ⟨i, hi⟩
      refine ⟨hgt, by omega, l, len', h1', h4', by omega, ?_⟩
      intro j
      rw [hchar j]
      by_cases hc : x ≤ j ∧ j < x + len
      · rw [if_pos hc]
        constructor
        · intro hj
          simp only [blockIdOf, Option.map_some', Option.some.injEq] at hj
          exact absurd hj.symm hidc
        · intro hj; omega
      · rw [if_neg hc]
        exact hrun j

theorem generateRowGo_succ (cp : ℕ → Fin 4) (lp : ℕ → ℕ) (n : ℕ) (row : Row)
    (sp x k cnt : ℕ) :
    generateRowGo cp lp (n + 1) row sp x k cnt =
      if x < 10 ∧ sp < MAX_BLOCK_SPAWN then
        if min 4 (min (MAX_BLOCK_SPAWN - sp) (10 - x)) = 0 then (row, cnt)
        else
          match colors.getD (cp k).val none with
          | none =>
              generateRowGo cp lp n
                (setRun row x (1 + lp k % min 4 (min (MAX_BLOCK_SPAWN - sp) (10 - x))) none)
                sp (x + (1 + lp k % min 4 (min (MAX_BLOCK_SPAWN - sp) (10 - x)))) (k + 1) cnt
          | some cv =>
              generateRowGo cp lp n
                (setRun row x (1 + lp k % min 4 (min (MAX_BLOCK_SPAWN - sp) (10 - x)))
                  (some ⟨cv, cnt + 1⟩))
                (sp + (1 + lp k % min 4 (min (MAX_BLOCK_SPAWN - sp) (10 - x))))
                (x + (1 + lp k % min 4 (min (MAX_BLOCK_SPAWN - sp) (10 - x)))) (k + 1) (cnt + 1)
      else (row, cnt) := rfl

theorem generateRowGo_inv (cp : ℕ → Fin 4) (lp : ℕ → ℕ) (c0 : ℕ) :
    ∀ (fuel : ℕ) (row : Row) (sp x k cnt : ℕ),
      RowInv c0 row sp x cnt →
      ∃ x2 sp2,
        RowInv c0 (generateRowGo cp lp fuel row sp x k cnt).1 sp2 x2
          (generateRowGo cp lp fuel row sp x k cnt).2 := by
  intro fuel
  induction fuel with
  | zero => intro row sp x k cnt h; exact ⟨x, sp, h⟩
  | succ n ih =>
    intro row sp x k cnt h
    rw [generateRowGo_succ]
    have h7 : MAX_BLOCK_SPAWN = 7 := rfl
    by_cases hg : x < 10 ∧ sp < MAX_BLOCK_SPAWN
    · rw [if_pos hg]
      have hml0 : ¬ min 4 (min (MAX_BLOCK_SPAWN - sp) (10 - x)) = 0 := by omega
      rw [if_neg hml0]
      have hlen1 : 1 ≤ 1 + lp k % min 4 (min (MAX_BLOCK_SPAWN - sp) (10 - x)) := by omega
      have hmod := Nat.mod_lt (lp k)
        (show 0 < min 4 (min (MAX_BLOCK_SPAWN - sp) (10 - x)) by omega)
      rcases hcol : colors.getD (cp k).val none with _ | cv
      · exact ih _ sp _ (k + 1) cnt (RowInv_writeEmpty c0 row sp x cnt _ h (by omega))
      · exact ih _ _ _ (k + 1) (cnt + 1)
          (RowInv_writeColored c0 row sp x cnt _ cv h hlen1 (by omega) (by omega) (by omega))
    · rw [if_neg hg]
      exact ⟨x, sp, h⟩

/-- C6: for every random outcome, the generated row has at most
`MAX_BLOCK_SPAWN` (7) filled cells; every block id present in the row
occupies exactly one contiguous run of length 1–4 (so distinct maximal runs
necessarily carry distinct ids), and each such id is freshly allocated from
the monotone counter (strictly above the entry counter, at most the exit
counter).  Cells outside every run are empty with no block id by the cell
data model (`Cell` is either `none` — background, no id — or a colored cell
carrying its id). -/
theorem c6_generated_row_shape (cp : ℕ → Fin 4) (lp : ℕ → ℕ) (c0 : ℕ) :
    filledCount (generateNextRow cp lp c0).1 ≤ MAX_BLOCK_SPAWN ∧
    (∀ id, (∃ i, blockIdOf ((generateNextRow cp lp c0).1.getD i none) = some id) →
      c0 < id ∧ id ≤ (generateNextRow cp lp c0).2 ∧
      ∃ l len, 1 ≤ len ∧ len ≤ 4 ∧ l + len ≤ 10 ∧
        IdRun (generateNextRow cp lp c0).1 id l len) := by
  have hrep : ∀ i, (List.replicate 10 (none : Cell)).getD i none = none := by
    intro i
    rw [List.getD_eq_getElem?_getD, List.getElem?_replicate]
    split <;> rfl
  have hinit : RowInv c0 (List.replicate 10 none) 0 0 c0 := by
    refine ⟨List.length_replicate 10 none, ?_, by omega, le_refl c0, by omega,
      fun i _ => hrep i, ?_⟩
    · unfold filledCount
      rw [List.length_replicate]
      rw [Finset.filter_eq_empty_iff.mpr]
      · rfl
      · intro i _
        exact not_not_intro (hrep i)
    · intro id hid
      obtain ⟨i, hi⟩ := hid
      rw [hrep i] at hi
      exact absurd hi (by simp [blockIdOf])
  obtain ⟨x2, sp2, hfin⟩ := generateRowGo_inv cp lp c0 10 (List.replicate 10 none) 0 0 0 c0 hinit
  obtain ⟨hL, hF, hS, hC, hx, hE, hI⟩ := hfin
  have hgen : generateNextRow cp lp c0 = generateRowGo cp lp 10 (List.replicate 10 none) 0 0 0 c0 :=
    rfl
  rw [hgen]
  constructor
  · omega
  · intro id hid
    obtain ⟨hgt, hle, l, len, h1, h4, hlx, hrun⟩ := hI id hid
    exact ⟨hgt, hle, l, len, h1, h4, by omega, hrun⟩

theorem all_congr (l : List Pos) (p q : Pos → Bool) (h : ∀ a ∈ l, p a = q a) :
    l.all p = l.all q := by
  induction l with
  | nil => rfl
  | cons a t ih =>
    simp only [List.all_cons, h a (by simp), ih (fun b hb => h b (by simp [hb]))]

theorem clearCellsG_apply (cells : List Pos) : ∀ (g : Grid) (x y : ℤ),
    clearCellsG g cells x y = if (x, y) ∈ cells then none else g x y := by
  induction cells with
  | nil => intro g x y; simp [clearCellsG]
  | cons c rest ih =>
    intro g x y
    show clearCellsG (gridSet g c.1 c.2 none) rest x y = _
    rw [ih]
    by_cases hr : (x, y) ∈ rest
    · rw [if_pos hr, if_pos (by simp [hr])]
    · rw [if_neg hr]
      by_cases hc : (x, y) = c
      · rw [if_pos (by simp [hc]), gridSet, if_pos]
        rw [← hc]
        exact ⟨rfl, rfl⟩
      · rw [if_neg (by simp [hc, hr]), gridSet, if_neg]
        intro hh
        apply hc
        cases c
        simp only [Prod.mk.injEq]
        simp only at hh
        exact ⟨hh.1, hh.2⟩

theorem writeCellsG_apply (cells : List Pos) (d : ℕ) (color : ColorV) (id : ℕ) :
    ∀ (g : Grid) (x y : ℤ),
      writeCellsG g cells d color id x y =
        if (x, y) ∈ cells.map (fun c => ((c.1, c.2 + (d : ℤ)) : Pos)) then some ⟨color, id⟩
        else g x y := by
  induction cells with
  | nil => intro g x y; simp [writeCellsG]
  | cons c rest ih =>
    intro g x y
    show writeCellsG (gridSet g c.1 (c.2 + (d : ℤ)) (some ⟨color, id⟩)) rest d color id x y = _
    rw [ih]
    by_cases hr : (x, y) ∈ rest.map (fun c => ((c.1, c.2 + (d : ℤ)) : Pos))
    · rw [if_pos hr, if_pos (by simp only [List.map_cons, List.mem_cons]; exact Or.inr hr)]
    · rw [if_neg hr]
      by_cases hc : (x, y) = (c.1, c.2 + (d : ℤ))
      · rw [if_pos (by simp only [List.map_cons, List.mem_cons]; exact Or.inl hc), gridSet,
          if_pos (by rw [Prod.mk.injEq] at hc; exact hc)]
      · have hnotin : (x, y) ∉ (c :: rest).map (fun c => ((c.1, c.2 + (d : ℤ)) : Pos)) := by
          simp only [List.map_cons, List.mem_cons]
          rintro (h | h)
          · exact hc h
          · exact hr h
        rw [if_neg hnotin, gridSet, if_neg]
        intro hh
        apply hc
        rw [Prod.mk.injEq]
        exact hh

theorem canDropTo_big (g : Grid) (cells : List Pos) (c0 : Pos) (hc0 : c0 ∈ cells)
    (hy : 0 ≤ c0.2) (e : ℕ) (he : 20 ≤ e) : canDropTo g cells e = false := by
  rw [canDropTo, List.all_eq_false]
  refine ⟨c0, hc0, ?_⟩
  have : ¬ (c0.2 + (e : ℤ) < HEIGHT) := by
    unfold HEIGHT
    omega
  simp [this]

theorem dropGo_char (g : Grid) (cells : List Pos) (c0 : Pos) (hc0 : c0 ∈ cells)
    (hy : 0 ≤ c0.2) :
    ∀ (fuel d : ℕ), 20 ≤ fuel + d →
      canDropTo g cells (dropGo g cells fuel d + 1) = false ∧
      (∀ e, d < e → e ≤ dropGo g cells fuel d → canDropTo g cells e = true) ∧
      d ≤ dropGo g cells fuel d := by
  intro fuel
  induction fuel with
  | zero =>
    intro d hd
    refine ⟨canDropTo_big g cells c0 hc0 hy (d + 1) (by omega), ?_, le_refl d⟩
    intro e he1 he2
    rw [dropGo] at he2
    omega
  | succ n ih =>
    intro d hd
    rw [dropGo]
    by_cases hc : canDropTo g cells (d + 1) = true
    · rw [if_pos hc]
      obtain ⟨h1, h2, h3⟩ := ih (d + 1) (by omega)
      refine ⟨h1, ?_, by omega⟩
      intro e he1 he2
      rcases Nat.lt_or_ge d.succ e with he3 | he3
      · exact h2 e he3 he2
      · have : e = d + 1 := by omega
        rw [this]
        exact hc
    · rw [if_neg hc]
      exact ⟨Bool.eq_false_iff.mpr hc, fun e he1 he2 => by omega, le_refl d⟩

theorem computeDropDistance_char (g : Grid) (cells : List Pos) (c0 : Pos)
    (hc0 : c0 ∈ cells) (hy : 0 ≤ c0.2) :
    canDropTo g cells (computeDropDistance g cells + 1) = false ∧
    (∀ e, 1 ≤ e → e ≤ computeDropDistance g cells → canDropTo g cells e = true) := by
  obtain ⟨h1, h2, h3⟩ := dropGo_char g cells c0 hc0 hy 20 0 (by omega)
  exact ⟨h1, fun e he1 he2 => h2 e (by omega) he2⟩

theorem mem_boxFinset (p : Pos) : p ∈ boxFinset ↔ inB p.1 p.2 := by
  rw [boxFinset, Finset.mem_product, Finset.mem_Icc, Finset.mem_Icc]
  have hW : WIDTH = 10 := rfl
  have hH : HEIGHT = 20 := rfl
  constructor
  · rintro ⟨⟨a, b⟩, c, e⟩; exact ⟨a, by omega, c, by omega⟩
  · rintro ⟨a, b, c, e⟩; exact ⟨⟨a, by omega⟩, c, by omega⟩

theorem collectGo_mem (g : Grid) (id : ℕ) :
    ∀ (fuel : ℕ) (tv : List Pos) (seen : Finset Pos) (acc : List Pos),
      (∀ c ∈ acc, inB c.1 c.2 ∧ blockIdOf (g c.1 c.2) = some id) →
      ∀ c ∈ collectGo g id fuel tv seen acc,
        inB c.1 c.2 ∧ blockIdOf (g c.1 c.2) = some id := by
  intro fuel
  induction fuel with
  | zero => intro tv seen acc hacc c hc; exact hacc c hc
  | succ n ih =>
    intro tv seen acc hacc c hc
    rcases tv with _ | ⟨p, rest⟩
    · exact hacc c hc
    · rw [collectGo] at hc
      by_cases hin : inB p.1 p.2
      · rw [if_pos hin] at hc
        by_cases hid : blockIdOf (g p.1 p.2) = some id
        · rw [if_pos hid] at hc
          refine ih _ _ _ ?_ c hc
          intro c2 hc2
          rcases List.mem_append.mp hc2 with h | h
          · exact hacc c2 h
          · rw [List.mem_singleton.mp h]
            exact ⟨hin, hid⟩
        · rw [if_neg hid] at hc
          exact ih _ _ _ hacc c hc
      · rw [if_neg hin] at hc
        exact ih _ _ _ hacc c hc

theorem collectBlockCells_mem (g : Grid) (x y : ℤ) (id : ℕ) :
    ∀ c ∈ collectBlockCells g x y (some id),
      inB c.1 c.2 ∧ blockIdOf (g c.1 c.2) = some id :=
  collectGo_mem g id 300 [(x, y)] {(x, y)} []
    (fun c hc => absurd hc (List.not_mem_nil c))

theorem canDropTo_facts (g : Grid) (cells : List Pos) (e : ℕ)
    (h : canDropTo g cells e = true) :
    ∀ c ∈ cells, c.2 + (e : ℤ) < HEIGHT ∧ g c.1 (c.2 + (e : ℤ)) = none := by
  intro c hc
  rw [canDropTo, List.all_eq_true] at h
  have h2 := h c hc
  rw [Bool.and_eq_true, decide_eq_true_eq] at h2
  exact ⟨h2.1, Option.isNone_iff_eq_none.mp h2.2⟩

theorem moveDestFacts (g : Grid) (cells : List Pos) (id : ℕ)
    (hmem : ∀ c ∈ cells, inB c.1 c.2 ∧ blockIdOf (g c.1 c.2) = some id)
    (hne : cells ≠ []) (d : ℕ) (hd : d = computeDropDistance g cells) (hd1 : 1 ≤ d) :
    ∀ c ∈ cells, inB c.1 (c.2 + (d : ℤ)) ∧ g c.1 (c.2 + (d : ℤ)) = none ∧
      ((c.1, c.2 + (d : ℤ)) : Pos) ∉ cells := by
  obtain ⟨c0, hc0⟩ := List.exists_mem_of_ne_nil cells hne
  have hy0 : 0 ≤ c0.2 := (hmem c0 hc0).1.2.2.1
  have hchar := computeDropDistance_char g cells c0 hc0 hy0
  have hdrop : canDropTo g cells d = true := hchar.2 d hd1 (by omega)
  have hfacts := canDropTo_facts g cells d hdrop
  intro c hc
  obtain ⟨hbound, hempty⟩ := hfacts c hc
  obtain ⟨hx0, hxW, hy0c, hyH⟩ := (hmem c hc).1
  refine ⟨⟨hx0, hxW, by omega, hbound⟩, hempty, ?_⟩
  intro hmem2
  have := (hmem _ hmem2).2
  rw [hempty] at this
  exact Option.noConfusion this

theorem foldl_gridSet_offbox {α : Type} (X Y : α → ℤ) (V : Grid → α → Cell) :
    ∀ (l : List α), (∀ a ∈ l, inB (X a) (Y a)) →
      ∀ (g : Grid) (x y : ℤ), ¬ inB x y →
        (l.foldl (fun h a => gridSet h (X a) (Y a) (V h a)) g) x y = g x y := by
  intro l
  induction l with
  | nil => intro _ g x y _; rfl
  | cons a t ih =>
    intro hl g x y hxy
    rw [List.foldl_cons, ih (fun b hb => hl b (List.mem_cons_of_mem a hb)) _ x y hxy,
      gridSet, if_neg]
    intro hh
    apply hxy
    rw [hh.1, hh.2]
    exact hl a (List.mem_cons_self a t)

theorem sweepStep_spec (collect : Bool) (st : SweepState) (p : Pos) :
    ((sweepStep collect st p).grid = st.grid ∧ (sweepStep collect st p).moved = st.moved) ∨
    (∃ bc cells d,
      st.grid p.1 p.2 = some bc ∧
      cells = collectBlockCells st.grid p.1 p.2 (some bc.blockId) ∧
      cells ≠ [] ∧
      d = computeDropDistance st.grid cells ∧ 1 ≤ d ∧
      (sweepStep collect st p).grid =
        writeCellsG (clearCellsG st.grid cells) cells d bc.color bc.blockId ∧
      (sweepStep collect st p).moved = true) := by
  rcases hcell : st.grid p.1 p.2 with _ | bc
  · left; constructor <;> simp [sweepStep, hcell]
  · by_cases hproc : bc.blockId ∈ st.processed
    · left; constructor <;> simp [sweepStep, hcell, hproc]
    · by_cases hcells : collectBlockCells st.grid p.1 p.2 (some bc.blockId) = []
      · left; constructor <;> simp [sweepStep, hcell, hproc, hcells]
      · by_cases hd :
          computeDropDistance st.grid (collectBlockCells st.grid p.1 p.2 (some bc.blockId)) = 0
        · left; constructor <;> simp [sweepStep, hcell, hproc, hcells, hd]
        · right
          refine ⟨bc, collectBlockCells st.grid p.1 p.2 (some bc.blockId),
            computeDropDistance st.grid (collectBlockCells st.grid p.1 p.2 (some bc.blockId)),
            rfl, rfl, hcells, rfl, by omega, ?_, ?_⟩ <;>
            simp [sweepStep, hcell, hproc, hcells, hd]

theorem measure_move_lt (g : Grid) (cells : List Pos) (d : ℕ) (color : ColorV) (id : ℕ)
    (hmem : ∀ c ∈ cells, inB c.1 c.2 ∧ blockIdOf (g c.1 c.2) = some id)
    (hne : cells ≠ []) (hd : d = computeDropDistance g cells) (hd1 : 1 ≤ d) :
    measureG (writeCellsG (clearCellsG g cells) cells d color id) < measureG g := by
  classical
  have hdest := moveDestFacts g cells id hmem hne d hd hd1
  set S : Finset Pos := cells.toFinset with hS
  set D : Finset Pos := S.image (fun c => ((c.1, c.2 + (d : ℤ)) : Pos)) with hD
  have hmemS : ∀ p, p ∈ S ↔ p ∈ cells := fun p => List.mem_toFinset
  have hmemD : ∀ p, p ∈ D ↔ ∃ c ∈ cells, p = ((c.1, c.2 + (d : ℤ)) : Pos) := by
    intro p
    rw [hD, Finset.mem_image]
    constructor
    · rintro ⟨c, hc, hcp⟩; exact ⟨c, (hmemS c).mp hc, hcp.symm⟩
    · rintro ⟨c, hc, hcp⟩; exact ⟨c, (hmemS c).mpr hc, hcp.symm⟩
  have hSsub : S ⊆ boxFinset := by
    intro p hp
    rw [mem_boxFinset]
    exact (hmem p ((hmemS p).mp hp)).1
  have hDsub : D ⊆ boxFinset := by
    intro p hp
    obtain ⟨c, hc, hcp⟩ := (hmemD p).mp hp
    rw [mem_boxFinset, hcp]
    exact (hdest c hc).1
  have hSvals : ∀ p ∈ S, ¬ g p.1 p.2 = none := by
    intro p hp hnone
    have := (hmem p ((hmemS p).mp hp)).2
    rw [hnone] at this
    exact Option.noConfusion this
  have hDvals : ∀ p ∈ D, g p.1 p.2 = none := by
    intro p hp
    obtain ⟨c, hc, hcp⟩ := (hmemD p).mp hp
    rw [hcp]
    exact (hdest c hc).2.1
  have hSD : Disjoint S D := by
    rw [Finset.disjoint_left]
    intro p hpS hpD
    exact hSvals p hpS (hDvals p hpD)
  have hval : ∀ p : Pos, writeCellsG (clearCellsG g cells) cells d color id p.1 p.2 =
      if p ∈ D then some ⟨color, id⟩ else if p ∈ S then none else g p.1 p.2 := by
    intro p
    rw [writeCellsG_apply, clearCellsG_apply]
    have hmapD : ((p.1, p.2) : Pos) ∈ cells.map (fun c => ((c.1, c.2 + (d : ℤ)) : Pos)) ↔
        p ∈ D := by
      rw [List.mem_map, hmemD]
      constructor
      · rintro ⟨c, hc, hcp⟩; exact ⟨c, hc, (hcp.trans Prod.mk.eta).symm⟩
      · rintro ⟨c, hc, hcp⟩; exact ⟨c, hc, hcp.symm.trans Prod.mk.eta.symm⟩
    by_cases hpD : p ∈ D
    · rw [if_pos (hmapD.mpr hpD), if_pos hpD]
    · rw [if_neg (fun hh => hpD (hmapD.mp hh)), if_neg hpD]
      by_cases hpS : p ∈ S
      · rw [if_pos ((hmemS p).mp hpS), if_pos hpS]
      · rw [if_neg (fun hh => hpS ((hmemS p).mpr hh)), if_neg hpS]
  have hunion_sub : S ∪ D ⊆ boxFinset := Finset.union_subset hSsub hDsub
  have hw : ∀ (h : Grid), measureG h =
      (∑ p ∈ boxFinset \ (S ∪ D), (if h p.1 p.2 = none then 0 else (HEIGHT - p.2).toNat)) +
      ((∑ p ∈ S, (if h p.1 p.2 = none then 0 else (HEIGHT - p.2).toNat)) +
       (∑ p ∈ D, (if h p.1 p.2 = none then 0 else (HEIGHT - p.2).toNat))) := by
    intro h
    rw [measureG, ← Finset.sum_sdiff hunion_sub, Finset.sum_union hSD]
  rw [hw g, hw (writeCellsG (clearCellsG g cells) cells d color id)]
  have hrest : (∑ p ∈ boxFinset \ (S ∪ D),
        (if writeCellsG (clearCellsG g cells) cells d color id p.1 p.2 = none then 0
         else (HEIGHT - p.2).toNat)) =
      ∑ p ∈ boxFinset \ (S ∪ D), (if g p.1 p.2 = none then 0 else (HEIGHT - p.2).toNat) := by
    apply Finset.sum_congr rfl
    intro p hp
    rw [Finset.mem_sdiff, Finset.mem_union] at hp
    rw [hval p, if_neg (fun hh => hp.2 (Or.inr hh)), if_neg (fun hh => hp.2 (Or.inl hh))]
  have hSnew : (∑ p ∈ S,
        (if writeCellsG (clearCellsG g cells) cells d color id p.1 p.2 = none then 0
         else (HEIGHT - p.2).toNat)) = 0 := by
    apply Finset.sum_eq_zero
    intro p hp
    rw [hval p, if_neg (Finset.disjoint_left.mp hSD hp), if_pos hp, if_pos rfl]
  have hDnew : (∑ p ∈ D,
        (if writeCellsG (clearCellsG g cells) cells d color id p.1 p.2 = none then 0
         else (HEIGHT - p.2).toNat)) = ∑ p ∈ D, (HEIGHT - p.2).toNat := by
    apply Finset.sum_congr rfl
    intro p hp
    rw [hval p, if_pos hp, if_neg (fun hh => Option.noConfusion hh)]
  have hSold : (∑ p ∈ S, (if g p.1 p.2 = none then 0 else (HEIGHT - p.2).toNat)) =
      ∑ p ∈ S, (HEIGHT - p.2).toNat := by
    apply Finset.sum_congr rfl
    intro p hp
    rw [if_neg (hSvals p hp)]
  have hDold : (∑ p ∈ D, (if g p.1 p.2 = none then 0 else (HEIGHT - p.2).toNat)) = 0 := by
    apply Finset.sum_eq_zero
    intro p hp
    rw [if_pos (hDvals p hp)]
  rw [hrest, hSnew, hDnew, hSold, hDold]
  have hDsum : (∑ p ∈ D, (HEIGHT - p.2).toNat) =
      ∑ p ∈ S, (HEIGHT - (p.2 + (d : ℤ))).toNat := by
    rw [hD, Finset.sum_image]
    intro a ha b hb hab
    rw [Prod.mk.injEq] at hab
    have h2 : a.2 = b.2 := by omega
    exact Prod.ext hab.1 h2
  rw [hDsum]
  have hSne : S.Nonempty := by
    obtain ⟨c0, hc0⟩ := List.exists_mem_of_ne_nil cells hne
    exact ⟨c0, (hmemS c0).mpr hc0⟩
  have hlt : (∑ p ∈ S, (HEIGHT - (p.2 + (d : ℤ))).toNat) < ∑ p ∈ S, (HEIGHT - p.2).toNat := by
    apply Finset.sum_lt_sum_of_nonempty hSne
    intro p hp
    have h1 := (hmem p ((hmemS p).mp hp)).1
    have h2 := (hdest p ((hmemS p).mp hp)).1
    obtain ⟨-, -, hy0, hyH⟩ := h1
    obtain ⟨-, -, -, hyH2⟩ := h2
    have hH : HEIGHT = 20 := rfl
    omega
  omega

theorem sweepFold_spec (collect : Bool) :
    ∀ (l : List Pos) (st : SweepState),
      ((l.foldl (sweepStep collect) st).grid = st.grid ∧
        (l.foldl (sweepStep collect) st).moved = st.moved) ∨
      (measureG (l.foldl (sweepStep collect) st).grid < measureG st.grid ∧
        (l.foldl (sweepStep collect) st).moved = true) := by
  intro l
  induction l with
  | nil => intro st; left; exact ⟨rfl, rfl⟩
  | cons p t ih =>
    intro st
    rw [List.foldl_cons]
    rcases sweepStep_spec collect st p with ⟨hg, hm⟩ |
      ⟨bc, cells, d, hcell, hcells, hne, hd, hd1, hg, hm⟩
    · rcases ih (sweepStep collect st p) with ⟨h1, h2⟩ | ⟨h1, h2⟩
      · left; exact ⟨h1.trans hg, h2.trans hm⟩
      · right; refine ⟨?_, h2⟩; rw [hg] at h1; exact h1
    · have hmemfacts : ∀ c ∈ cells,
          inB c.1 c.2 ∧ blockIdOf (st.grid c.1 c.2) = some bc.blockId := by
        rw [hcells]; exact collectBlockCells_mem st.grid p.1 p.2 bc.blockId
      have hlt : measureG (sweepStep collect st p).grid < measureG st.grid := by
        rw [hg]
        exact measure_move_lt st.grid cells d bc.color bc.blockId hmemfacts hne hd hd1
      rcases ih (sweepStep collect st p) with ⟨h1, h2⟩ | ⟨h1, h2⟩
      · right; refine ⟨?_, h2.trans hm⟩; rw [h1]; exact hlt
      · right; exact ⟨lt_trans h1 hlt, h2⟩

theorem sweepStep_agnostic (c1 c2 : Bool) (g1 : Grid) (pr1 : List ℕ) (m1 : Bool)
    (ms1 ms2 : List Move) (p : Pos) :
    (sweepStep c1 ⟨g1, pr1, m1, ms1⟩ p).grid = (sweepStep c2 ⟨g1, pr1, m1, ms2⟩ p).grid ∧
    (sweepStep c1 ⟨g1, pr1, m1, ms1⟩ p).processed =
      (sweepStep c2 ⟨g1, pr1, m1, ms2⟩ p).processed ∧
    (sweepStep c1 ⟨g1, pr1, m1, ms1⟩ p).moved = (sweepStep c2 ⟨g1, pr1, m1, ms2⟩ p).moved := by
  rcases hcell : g1 p.1 p.2 with _ | bc
  · refine ⟨?_, ?_, ?_⟩ <;> simp [sweepStep, hcell]
  · by_cases hproc : bc.blockId ∈ pr1
    · refine ⟨?_, ?_, ?_⟩ <;> simp [sweepStep, hcell, hproc]
    · by_cases hcells : collectBlockCells g1 p.1 p.2 (some bc.blockId) = []
      · refine ⟨?_, ?_, ?_⟩ <;> simp [sweepStep, hcell, hproc, hcells]
      · by_cases hd : computeDropDistance g1 (collectBlockCells g1 p.1 p.2 (some bc.blockId)) = 0
        · refine ⟨?_, ?_, ?_⟩ <;> simp [sweepStep, hcell, hproc, hcells, hd]
        · refine ⟨?_, ?_, ?_⟩ <;> simp [sweepStep, hcell, hproc, hcells, hd]

theorem sweepFold_agnostic (c1 c2 : Bool) :
    ∀ (l : List Pos) (g1 : Grid) (pr1 : List ℕ) (m1 : Bool) (ms1 ms2 : List Move),
      (l.foldl (sweepStep c1) ⟨g1, pr1, m1, ms1⟩).grid =
        (l.foldl (sweepStep c2) ⟨g1, pr1, m1, ms2⟩).grid ∧
      (l.foldl (sweepStep c1) ⟨g1, pr1, m1, ms1⟩).moved =
        (l.foldl (sweepStep c2) ⟨g1, pr1, m1, ms2⟩).moved := by
  intro l
  induction l with
  | nil => intro g1 pr1 m1 ms1 ms2; exact ⟨rfl, rfl⟩
  | cons p t ih =>
    intro g1 pr1 m1 ms1 ms2
    rw [List.foldl_cons, List.foldl_cons]
    obtain ⟨hg, hp, hm⟩ := sweepStep_agnostic c1 c2 g1 pr1 m1 ms1 ms2 p
    rcases hrec : sweepStep c1 ⟨g1, pr1, m1, ms1⟩ p with ⟨ga, pra, ma, msa⟩
    rcases hrec2 : sweepStep c2 ⟨g1, pr1, m1, ms2⟩ p with ⟨gb, prb, mb, msb⟩
    rw [hrec, hrec2] at hg hp hm
    simp only at hg hp hm
    subst hg; subst hp; subst hm
    exact ih ga pra ma msa msb

theorem sweepOnce_agnostic (c1 c2 : Bool) (g : Grid) (ms1 ms2 : List Move) :
    (sweepOnce c1 g ms1).grid = (sweepOnce c2 g ms2).grid ∧
    (sweepOnce c1 g ms1).moved = (sweepOnce c2 g ms2).moved :=
  sweepFold_agnostic c1 c2 sweepPositions g [] false ms1 ms2

theorem measureG_le (g : Grid) : measureG g ≤ 4000 := by
  rw [measureG]
  have hterm : ∀ p ∈ boxFinset,
      (if g p.1 p.2 = none then 0 else (HEIGHT - p.2).toNat) ≤ 20 := by
    intro p hp
    have hin := (mem_boxFinset p).mp hp
    obtain ⟨-, -, hy, -⟩ := hin
    have hH : HEIGHT = 20 := rfl
    split <;> omega
  have := Finset.sum_le_sum hterm
  rw [Finset.sum_const, smul_eq_mul] at this
  have hcard : boxFinset.card = 200 := by
    rw [boxFinset, Finset.card_product, Int.card_Icc, Int.card_Icc]
    rfl
  omega

theorem gravityGo_succ (collect : Bool) (n : ℕ) (g : Grid) (ma : Bool) (moves : List Move) :
    gravityGo collect (n + 1) g ma moves =
      if (sweepOnce collect g moves).moved = true then
        gravityGo collect n (sweepOnce collect g moves).grid true (sweepOnce collect g moves).moves
      else ((sweepOnce collect g moves).grid, ma, (sweepOnce collect g moves).moves) := rfl

theorem gravityGo_fix (collect : Bool) :
    ∀ (fuel : ℕ) (g : Grid) (ma : Bool) (moves : List Move),
      measureG g < fuel →
      (sweepOnce false (gravityGo collect fuel g ma moves).1 []).moved = false := by
  intro fuel
  induction fuel with
  | zero => intro g ma moves h; exact absurd h (Nat.not_lt_zero _)
  | succ n ih =>
    intro g ma moves h
    rw [gravityGo_succ]
    by_cases hm : (sweepOnce collect g moves).moved = true
    · rw [if_pos hm]
      apply ih
      rcases sweepFold_spec collect sweepPositions ⟨g, [], false, moves⟩ with ⟨h1, h2⟩ | ⟨h1, h2⟩
      · have hcontra : (true : Bool) = false := hm.symm.trans h2
        exact Bool.noConfusion hcontra
      · have h1x : measureG (sweepOnce collect g moves).grid < measureG g := h1
        omega
    · rw [if_neg hm]
      have hmf : (sweepOnce collect g moves).moved = false := Bool.eq_false_iff.mpr hm
      have hgrid : (sweepOnce collect g moves).grid = g := by
        rcases sweepFold_spec collect sweepPositions ⟨g, [], false, moves⟩ with ⟨h1, -⟩ | ⟨-, h2⟩
        · exact h1
        · have h2x : (sweepOnce collect g moves).moved = true := h2
          rw [hmf] at h2x
          exact Bool.noConfusion h2x
      rw [hgrid]
      have := (sweepOnce_agnostic false collect g [] moves).2
      rw [this]
      exact hmf

theorem sweepStep_offbox (collect : Bool) (st : SweepState) (p : Pos) (x y : ℤ)
    (hxy : ¬ inB x y) : (sweepStep collect st p).grid x y = st.grid x y := by
  rcases sweepStep_spec collect st p with ⟨hg, -⟩ |
    ⟨bc, cells, d, hcell, hcells, hne, hd, hd1, hg, -⟩
  · rw [hg]
  · have hmemfacts : ∀ c ∈ cells,
        inB c.1 c.2 ∧ blockIdOf (st.grid c.1 c.2) = some bc.blockId := by
      rw [hcells]; exact collectBlockCells_mem st.grid p.1 p.2 bc.blockId
    have hdest := moveDestFacts st.grid cells bc.blockId hmemfacts hne d hd hd1
    rw [hg, writeCellsG_apply, clearCellsG_apply, if_neg, if_neg]
    · intro hmem
      exact hxy (hmemfacts (x, y) hmem).1
    · intro hmem
      obtain ⟨c, hc, hcp⟩ := List.mem_map.mp hmem
      rw [Prod.mk.injEq] at hcp
      have := (hdest c hc).1
      rw [hcp.1, hcp.2] at this
      exact hxy this

theorem sweepStep_safety (collect : Bool) (st : SweepState) (p : Pos) (x y : ℤ)
    (hch : ¬ (sweepStep collect st p).grid x y = st.grid x y) :
    inB x y ∧ ((sweepStep collect st p).grid x y = none ∨ st.grid x y = none) := by
  rcases sweepStep_spec collect st p with ⟨hg, -⟩ |
    ⟨bc, cells, d, hcell, hcells, hne, hd, hd1, hg, -⟩
  · exact absurd (by rw [hg]) hch
  · have hmemfacts : ∀ c ∈ cells,
        inB c.1 c.2 ∧ blockIdOf (st.grid c.1 c.2) = some bc.blockId := by
      rw [hcells]; exact collectBlockCells_mem st.grid p.1 p.2 bc.blockId
    have hdest := moveDestFacts st.grid cells bc.blockId hmemfacts hne d hd hd1
    rw [hg, writeCellsG_apply, clearCellsG_apply] at hch ⊢
    by_cases hmapmem : ((x, y) : Pos) ∈ cells.map (fun c => ((c.1, c.2 + (d : ℤ)) : Pos))
    · obtain ⟨c, hc, hcp⟩ := List.mem_map.mp hmapmem
      rw [Prod.mk.injEq] at hcp
      refine ⟨?_, Or.inr ?_⟩
      · have := (hdest c hc).1
        rw [hcp.1, hcp.2] at this
        exact this
      · have := (hdest c hc).2.1
        rw [hcp.1, hcp.2] at this
        exact this
    · rw [if_neg hmapmem] at hch ⊢
      by_cases hcmem : ((x, y) : Pos) ∈ cells
      · rw [if_pos hcmem] at hch ⊢
        exact ⟨(hmemfacts (x, y) hcmem).1, Or.inl rfl⟩
      · rw [if_neg hcmem] at hch
        exact absurd rfl hch

theorem sweepFold_offbox (collect : Bool) :
    ∀ (l : List Pos) (st : SweepState) (x y : ℤ), ¬ inB x y →
      (l.foldl (sweepStep collect) st).grid x y = st.grid x y := by
  intro l
  induction l with
  | nil => intro st x y _; rfl
  | cons p t ih =>
    intro st x y hxy
    rw [List.foldl_cons, ih (sweepStep collect st p) x y hxy,
      sweepStep_offbox collect st p x y hxy]

set_option maxRecDepth 8192 in
theorem gravityGo_offbox (collect : Bool) :
    ∀ (fuel : ℕ) (g : Grid) (ma : Bool) (moves : List Move) (x y : ℤ), ¬ inB x y →
      (gravityGo collect fuel g ma moves).1 x y = g x y := by
  intro fuel
  induction fuel with
  | zero => intro g ma moves x y _; rfl
  | succ n ih =>
    intro g ma moves x y hxy
    rw [gravityGo_succ]
    have hsw : sweepOnce collect g moves =
        sweepPositions.foldl (sweepStep collect) ⟨g, [], false, moves⟩ := rfl
    have hoff : (sweepOnce collect g moves).grid x y = g x y := by
      rw [hsw]
      exact sweepFold_offbox collect sweepPositions ⟨g, [], false, moves⟩ x y hxy
    by_cases hm : (sweepOnce collect g moves).moved = true
    · rw [if_pos hm, ih _ _ _ x y hxy]
      exact hoff
    · rw [if_neg hm]
      show (sweepOnce collect g moves).grid x y = g x y
      exact hoff

/-- C3: for every board state with no active selection and no active
animation, `applyGravity` terminates at a fixed point: sweeping the
resulting grid once more moves nothing (no non-empty block can drop any
further, by the code's own droppability test).  Moreover, throughout the
process no cell outside the board is ever written (the out-of-bounds frame
is preserved by the whole run), and at the granularity of the single-block
move — the only grid-mutating step of the sweep — every changed in-bounds
cell is either a vacated footprint cell (becomes empty) or a destination
cell that was empty beforehand, so no block's cells are ever written onto
cells occupied by a different block. -/
theorem c3_gravity_fixed_point_safe (st : State)
    (hsel : st.selectedBlock = none) (hanim : st.fallingAnimation = none) :
    (sweepOnce false ((applyGravity false st).1.grid) []).moved = false ∧
    (∀ x y, ¬ inB x y → (applyGravity false st).1.grid x y = st.grid x y) ∧
    (∀ (collect : Bool) (sw : SweepState) (p : Pos) (x y : ℤ),
      ¬ (sweepStep collect sw p).grid x y = sw.grid x y →
        inB x y ∧ ((sweepStep collect sw p).grid x y = none ∨ sw.grid x y = none)) := by
  have hcond : ¬ (st.selectedBlock.isSome || st.fallingAnimation.isSome) = true := by
    rw [hsel, hanim]
    simp
  have happ : (applyGravity false st).1.grid = (gravityGo false 4096 st.grid false []).1 := by
    rw [applyGravity, if_neg hcond]
  refine ⟨?_, ?_, ?_⟩
  · rw [happ]
    exact gravityGo_fix false 4096 st.grid false []
      (by have := measureG_le st.grid; omega)
  · intro x y hxy
    rw [happ]
    exact gravityGo_offbox false 4096 st.grid false [] x y hxy
  · intro collect sw p x y hch
    exact sweepStep_safety collect sw p x y hch

/-- Witness for C3 at the bootstrap state (empty board, no selection, no
animation). -/
theorem c3_gravity_fixed_point_safe_witness :
    emptyStateEx.selectedBlock = none ∧ emptyStateEx.fallingAnimation = none ∧
    ((sweepOnce false ((applyGravity false emptyStateEx).1.grid) []).moved = false ∧
    (∀ x y, ¬ inB x y → (applyGravity false emptyStateEx).1.grid x y = emptyStateEx.grid x y) ∧
    (∀ (collect : Bool) (sw : SweepState) (p : Pos) (x y : ℤ),
      ¬ (sweepStep collect sw p).grid x y = sw.grid x y →
        inB x y ∧ ((sweepStep collect sw p).grid x y = none ∨ sw.grid x y = none))) :=
  ⟨rfl, rfl, c3_gravity_fixed_point_safe emptyStateEx rfl rfl⟩

theorem applyGravity_fields (collect : Bool) (st : State) :
    (applyGravity collect st).1.selectedBlock = st.selectedBlock ∧
    (applyGravity collect st).1.fallingAnimation = st.fallingAnimation ∧
    (applyGravity collect st).1.score = st.score ∧
    (applyGravity collect st).1.topLine = st.topLine ∧
    (applyGravity collect st).1.nextRow = st.nextRow ∧
    (applyGravity collect st).1.selectionMoved = st.selectionMoved ∧
    (applyGravity collect st).1.blockCounter = st.blockCounter ∧
    (applyGravity collect st).1.hoveredBlock = st.hoveredBlock := by
  rw [applyGravity]
  split_ifs <;> exact ⟨rfl, rfl, rfl, rfl, rfl, rfl, rfl, rfl⟩

theorem clearFullLines_fields (st : State) :
    (clearFullLines st).2.selectedBlock = st.selectedBlock ∧
    (clearFullLines st).2.fallingAnimation = st.fallingAnimation ∧
    (clearFullLines st).2.score = st.score ∧
    (clearFullLines st).2.topLine = st.topLine ∧
    (clearFullLines st).2.nextRow = st.nextRow ∧
    (clearFullLines st).2.selectionMoved = st.selectionMoved ∧
    (clearFullLines st).2.blockCounter = st.blockCounter :=
  ⟨rfl, rfl, rfl, rfl, rfl, rfl, rfl⟩

theorem settleLoopGo_succ (fuel : ℕ) (st : State) (total : ℕ) :
    settleLoopGo (fuel + 1) st total =
      if (clearFullLines (applyGravity false st).1).1 = 0 then
        ((total, (clearFullLines (applyGravity false st).1).2) : ℕ × State)
      else
        settleLoopGo fuel (clearFullLines (applyGravity false st).1).2
          (total + (clearFullLines (applyGravity false st).1).1) := rfl

theorem settleLoopGo_fields : ∀ (fuel : ℕ) (st : State) (total : ℕ),
    (settleLoopGo fuel st total).2.selectedBlock = st.selectedBlock ∧
    (settleLoopGo fuel st total).2.fallingAnimation = st.fallingAnimation ∧
    (settleLoopGo fuel st total).2.score = st.score ∧
    (settleLoopGo fuel st total).2.topLine = st.topLine ∧
    (settleLoopGo fuel st total).2.nextRow = st.nextRow ∧
    (settleLoopGo fuel st total).2.selectionMoved = st.selectionMoved ∧
    (settleLoopGo fuel st total).2.blockCounter = st.blockCounter := by
  intro fuel
  induction fuel with
  | zero => intro st total; exact ⟨rfl, rfl, rfl, rfl, rfl, rfl, rfl⟩
  | succ n ih =>
    intro st total
    rw [settleLoopGo_succ]
    obtain ⟨ga, gb, gc, gd, ge, gf, gg, -⟩ := applyGravity_fields false st
    obtain ⟨ca, cb, cc, cd, ce, cf, cg⟩ := clearFullLines_fields (applyGravity false st).1
    by_cases hc : (clearFullLines (applyGravity false st).1).1 = 0
    · rw [if_pos hc]
      exact ⟨ca.trans ga, cb.trans gb, cc.trans gc, cd.trans gd, ce.trans ge,
        cf.trans gf, cg.trans gg⟩
    · rw [if_neg hc]
      obtain ⟨ia, ib, ic, id2, ie, if2, ig⟩ :=
        ih (clearFullLines (applyGravity false st).1).2
          (total + (clearFullLines (applyGravity false st).1).1)
      exact ⟨ia.trans (ca.trans ga), ib.trans (cb.trans gb), ic.trans (cc.trans gc),
        id2.trans (cd.trans gd), ie.trans (ce.trans ge), if2.trans (cf.trans gf),
        ig.trans (cg.trans gg)⟩

theorem settleNoAnimate_spec (st : State) :
    (settleBoardNoAnimate st).2.score = st.score + (settleBoardNoAnimate st).1 ∧
    (settleBoardNoAnimate st).2.fallingAnimation = st.fallingAnimation ∧
    (settleBoardNoAnimate st).2.selectedBlock = st.selectedBlock ∧
    (settleBoardNoAnimate st).2.topLine = st.topLine ∧
    (settleBoardNoAnimate st).2.nextRow = st.nextRow ∧
    (settleBoardNoAnimate st).2.selectionMoved = st.selectionMoved ∧
    (settleBoardNoAnimate st).2.blockCounter = st.blockCounter := by
  obtain ⟨la, lb, lc, ld, le, lf, lg⟩ := settleLoopGo_fields 4096 st 0
  have h1 : (settleBoardNoAnimate st).1 = (settleLoopGo 4096 st 0).1 := rfl
  have h2 : (settleBoardNoAnimate st).2 =
      { (settleLoopGo 4096 st 0).2 with
        score := if (settleLoopGo 4096 st 0).1 ≠ 0 then
            (settleLoopGo 4096 st 0).2.score + (settleLoopGo 4096 st 0).1
          else (settleLoopGo 4096 st 0).2.score } := rfl
  rw [h1, h2]
  refine ⟨?_, lb, la, ld, le, lf, lg⟩
  by_cases hz : (settleLoopGo 4096 st 0).1 = 0
  · simp only [hz, ne_eq, not_true_eq_false, if_false]
    rw [lc]
    omega
  · simp only [ne_eq, hz, not_false_eq_true, if_true]
    rw [lc]

/-- C8: `settleBoard({animate:false})` is synchronous — it installs no
animation and leaves the selection (and all other non-grid, non-hover,
non-score state) untouched — returns the total number of lines cleared over
all gravity/clear iterations, and increases the score by exactly that total
in a single addition; in particular the score is unchanged when the total
is zero. -/
theorem c8_settle_sync (st : State) :
    (settleBoardNoAnimate st).2.score = st.score + (settleBoardNoAnimate st).1 ∧
    (settleBoardNoAnimate st).2.fallingAnimation = st.fallingAnimation ∧
    (settleBoardNoAnimate st).2.selectedBlock = st.selectedBlock ∧
    (settleBoardNoAnimate st).2.topLine = st.topLine ∧
    (settleBoardNoAnimate st).2.nextRow = st.nextRow ∧
    (settleBoardNoAnimate st).2.selectionMoved = st.selectionMoved ∧
    (settleBoardNoAnimate st).2.blockCounter = st.blockCounter :=
  settleNoAnimate_spec st

theorem shiftUpGrid_offbox (g : Grid) (x y : ℤ) (hxy : ¬ inB x y) :
    shiftUpGrid g x y = g x y := by
  have hdef : shiftUpGrid g =
      (List.range 10).foldl (fun h (xi : ℕ) => gridSet h (xi : ℤ) (HEIGHT - 1) none)
        (shiftSources.foldl (fun h p => gridSet h p.1 (p.2 - 1) (h p.1 p.2)) g) := rfl
  rw [hdef,
    foldl_gridSet_offbox (fun xi : ℕ => (xi : ℤ)) (fun _ => HEIGHT - 1) (fun _ _ => none)
      (List.range 10) (by decide) _ x y hxy,
    foldl_gridSet_offbox (fun p : Pos => p.1) (fun p : Pos => p.2 - 1)
      (fun h p => h p.1 p.2) shiftSources (by decide) g x y hxy]

theorem insertRowGrid_offbox (g : Grid) (row : Row) (x y : ℤ) (hxy : ¬ inB x y) :
    insertRowGrid g row x y = g x y := by
  have hdef : insertRowGrid g row =
      (List.range 10).foldl
        (fun h (xi : ℕ) => gridSet h (xi : ℤ) (HEIGHT - 1) (row.getD xi none)) g := rfl
  rw [hdef,
    foldl_gridSet_offbox (fun xi : ℕ => (xi : ℤ)) (fun _ => HEIGHT - 1)
      (fun _ xi => row.getD xi none) (List.range 10) (by decide) g x y hxy]

theorem clearRow_offbox (g : Grid) (yi : ℤ) (hy : 0 ≤ yi ∧ yi < HEIGHT) (x y : ℤ)
    (hxy : ¬ inB x y) : clearRow g yi x y = g x y := by
  rw [clearRow,
    foldl_gridSet_offbox (fun xi : ℕ => (xi : ℤ)) (fun _ => yi) (fun _ _ => none)
      (List.range 10) ?_ g x y hxy]
  intro a ha
  rw [List.mem_range] at ha
  show inB (a : ℤ) yi
  have hW : WIDTH = 10 := rfl
  exact ⟨by omega, by omega, hy.1, hy.2⟩

theorem clearLinesFold_offbox (x y : ℤ) (hxy : ¬ inB x y) :
    ∀ (l : List ℕ), (∀ yi ∈ l, ((yi : ℤ) < HEIGHT)) → ∀ (acc : ℕ × Grid),
      ((l.foldl (fun (acc : ℕ × Grid) (yi : ℕ) =>
          if rowFull acc.2 (yi : ℤ) then (acc.1 + 1, clearRow acc.2 (yi : ℤ)) else acc) acc).2 x y
        = acc.2 x y) := by
  intro l
  induction l with
  | nil => intro _ acc; rfl
  | cons a t ih =>
    intro hl acc
    rw [List.foldl_cons]
    rw [ih (fun b hb => hl b (List.mem_cons_of_mem a hb))]
    by_cases hf : rowFull acc.2 (a : ℤ) = true
    · rw [if_pos hf]
      exact clearRow_offbox acc.2 (a : ℤ) ⟨by omega, hl a (List.mem_cons_self a t)⟩ x y hxy
    · rw [if_neg hf]

theorem clearFullLinesGrid_offbox (g : Grid) (x y : ℤ) (hxy : ¬ inB x y) :
    (clearFullLinesGrid g).2 x y = g x y := by
  rw [clearFullLinesGrid]
  exact clearLinesFold_offbox x y hxy (List.range 20) (by decide) (0, g)

theorem applyGravity_offbox (collect : Bool) (st : State) (x y : ℤ) (hxy : ¬ inB x y) :
    (applyGravity collect st).1.grid x y = st.grid x y := by
  by_cases h : (st.selectedBlock.isSome || st.fallingAnimation.isSome) = true
  · rw [applyGravity, if_pos h]
  · rw [applyGravity, if_neg h]
    exact gravityGo_offbox collect 4096 st.grid false [] x y hxy

theorem settleLoopGo_offbox (x y : ℤ) (hxy : ¬ inB x y) :
    ∀ (fuel : ℕ) (st : State) (total : ℕ),
      (settleLoopGo fuel st total).2.grid x y = st.grid x y := by
  intro fuel
  induction fuel with
  | zero => intro st total; rfl
  | succ n ih =>
    intro st total
    rw [settleLoopGo_succ]
    have hclear : ∀ s : State, (clearFullLines s).2.grid x y = s.grid x y := by
      intro s
      have : (clearFullLines s).2.grid = (clearFullLinesGrid s.grid).2 := rfl
      rw [this]
      exact clearFullLinesGrid_offbox s.grid x y hxy
    by_cases hc : (clearFullLines (applyGravity false st).1).1 = 0
    · rw [if_pos hc]
      rw [hclear (applyGravity false st).1, applyGravity_offbox false st x y hxy]
    · rw [if_neg hc, ih, hclear (applyGravity false st).1,
        applyGravity_offbox false st x y hxy]

/-- C2: the anti-degenerate probe `rowWouldClearLines` returns exactly
whether shifting the rows up, inserting the candidate at the bottom and
settling synchronously would clear at least one line, and it restores the
complete program state: grid cells, score, `topLine`, selection, hover and
animation state (as well as the untouched `nextRow`, `selectionMoved` and
`blockCounter`) are equal to their values before the call. -/
theorem insertBottomRow_fields (st : State) (row : Row) :
    (insertBottomRow st row).nextRow = st.nextRow ∧
    (insertBottomRow st row).selectionMoved = st.selectionMoved ∧
    (insertBottomRow st row).blockCounter = st.blockCounter :=
  ⟨rfl, rfl, rfl⟩

theorem moveBlocksUp_fields (st : State) :
    (moveBlocksUp st).nextRow = st.nextRow ∧
    (moveBlocksUp st).selectionMoved = st.selectionMoved ∧
    (moveBlocksUp st).blockCounter = st.blockCounter :=
  ⟨rfl, rfl, rfl⟩

/-- C2: the anti-degenerate probe `rowWouldClearLines` returns exactly
whether shifting the rows up, inserting the candidate at the bottom and
settling synchronously would clear at least one line, and it restores the
complete program state: grid cells, score, `topLine`, selection, hover and
animation state (as well as the untouched `nextRow`, `selectionMoved` and
`blockCounter`) are equal to their values before the call. -/
theorem c2_probe_frame (st : State) (row : Row) :
    (rowWouldClearLines st row).2 = st ∧
    ((rowWouldClearLines st row).1 = true ↔
      0 < (settleBoardNoAnimate (insertBottomRow (moveBlocksUp
        { st with hoveredBlock := none, selectedBlock := none,
                  fallingAnimation := none }) row)).1) := by
  set st1 : State := { st with hoveredBlock := none, selectedBlock := none,
                               fallingAnimation := none } with hst1
  set st2 : State := insertBottomRow (moveBlocksUp st1) row with hst2
  have hfields := settleNoAnimate_spec st2
  obtain ⟨hi1, hi2, hi3⟩ := insertBottomRow_fields (moveBlocksUp st1) row
  obtain ⟨hm1, hm2, hm3⟩ := moveBlocksUp_fields st1
  constructor
  · have hunfold : (rowWouldClearLines st row).2 =
        { (settleBoardNoAnimate st2).2 with
          grid := fun x y => if inB x y then st.grid x y
            else (settleBoardNoAnimate st2).2.grid x y
          topLine := st.topLine
          score := st.score
          hoveredBlock := st.hoveredBlock
          selectedBlock := st.selectedBlock
          fallingAnimation := st.fallingAnimation } := rfl
    rw [hunfold]
    apply State.ext
    · funext a b
      show (if inB a b then st.grid a b else (settleBoardNoAnimate st2).2.grid a b) = st.grid a b
      by_cases hab : inB a b
      · rw [if_pos hab]
      · rw [if_neg hab]
        have h1 : (settleBoardNoAnimate st2).2.grid a b =
            (settleLoopGo 4096 st2 0).2.grid a b := rfl
        rw [h1, settleLoopGo_offbox a b hab]
        have h2 : st2.grid a b = insertRowGrid (moveBlocksUp st1).grid row a b := rfl
        have h3 : (moveBlocksUp st1).grid = shiftUpGrid st1.grid := rfl
        rw [h2, insertRowGrid_offbox _ row a b hab, h3, shiftUpGrid_offbox st1.grid a b hab]
    · rfl
    · rfl
    · rfl
    · rfl
    · rw [hfields.2.2.2.2.1, hi1, hm1]
    · rw [hfields.2.2.2.2.2.1, hi2, hm2]
    · rfl
    · rw [hfields.2.2.2.2.2.2, hi3, hm3]
  · have hb : (rowWouldClearLines st row).1 =
        decide ((settleBoardNoAnimate st2).1 > 0) := rfl
    rw [hb, decide_eq_true_iff]

theorem spawnLoopGo_succ (st : State) (stream : ℕ → Row) (fuel : ℕ) (current : Row)
    (attempts : ℕ) :
    spawnLoopGo st stream (fuel + 1) current attempts =
      if (rowWouldClearLines st current).1 = true ∧ attempts < 20 then
        spawnLoopGo st stream fuel (stream attempts) (attempts + 1)
      else (current, attempts) := rfl

theorem spawnLoopGo_char (st : State) (stream : ℕ → Row) (initial : Row) :
    ∀ (fuel a : ℕ), fuel + a = 21 → a ≤ 20 →
      (spawnLoopGo st stream fuel (spawnCandidate initial stream a) a).2 ≤ 20 ∧
      (∀ j, a ≤ j → j < 20 →
        (∀ i, a ≤ i → i < j →
          (rowWouldClearLines st (spawnCandidate initial stream i)).1 = true) →
        (rowWouldClearLines st (spawnCandidate initial stream j)).1 = false →
        spawnLoopGo st stream fuel (spawnCandidate initial stream a) a =
          (spawnCandidate initial stream j, j)) ∧
      ((∀ i, a ≤ i → i < 20 →
          (rowWouldClearLines st (spawnCandidate initial stream i)).1 = true) →
        (spawnLoopGo st stream fuel (spawnCandidate initial stream a) a).2 = 20) := by
  intro fuel
  induction fuel with
  | zero => intro a h1 h2; omega
  | succ n ih =>
    intro a h1 h2
    rw [spawnLoopGo_succ]
    by_cases ha : a < 20
    · by_cases hbad : (rowWouldClearLines st (spawnCandidate initial stream a)).1 = true
      · rw [if_pos ⟨hbad, ha⟩]
        have hstream : stream a = spawnCandidate initial stream (a + 1) := rfl
        rw [hstream]
        obtain ⟨p1, p2, p3⟩ := ih (a + 1) (by omega) (by omega)
        refine ⟨p1, ?_, ?_⟩
        · intro j hj1 hj2 hall hgood
          have hja : ¬ j = a := by
            intro hje
            rw [hje] at hgood
            rw [hgood] at hbad
            exact Bool.noConfusion hbad
          exact p2 j (by omega) hj2 (fun i hi1 hi2 => hall i (by omega) hi2) hgood
        · intro hall
          exact p3 (fun i hi1 hi2 => hall i (by omega) hi2)
      · rw [if_neg (fun hh => hbad hh.1)]
        refine ⟨by omega, ?_, ?_⟩
        · intro j hj1 hj2 hall hgood
          have hja : j = a := by
            by_contra hne
            have := hall a (le_refl a) (by omega)
            rw [this] at hbad
            exact hbad rfl
          rw [hja]
        · intro hall
          exact absurd (hall a (le_refl a) ha) hbad
    · have ha20 : a = 20 := by omega
      rw [if_neg (fun hh => absurd hh.2 (by omega))]
      refine ⟨by omega, ?_, ?_⟩
      · intro j hj1 hj2 _ _
        omega
      · intro _
        simp [ha20]

/-- C5: for every state, random candidate stream and held buffer row, the
retry loop of `spawnBlocks` terminates with the attempts counter within the
20-attempt bound; it accepts the first candidate (the pre-held buffer is
candidate 0, the `i`-th regeneration candidate `i+1`) among candidates 0..19
whose insertion would not immediately clear a line; and when every candidate
0..19 would clear a line, the deterministic all-empty fallback row is the
one chosen.  All three parts hold unconditionally, so the fallback and the
bound cover in particular the streams on which every candidate fails. -/
theorem c5_spawn_retry_bound (st : State) (stream : ℕ → Row) (initial : Row) :
    (spawnLoopGo st stream 21 initial 0).2 ≤ 20 ∧
    (∀ j, j < 20 →
      (∀ i, i < j →
        (rowWouldClearLines st (spawnCandidate initial stream i)).1 = true) →
      (rowWouldClearLines st (spawnCandidate initial stream j)).1 = false →
      spawnChooseRow st stream initial = spawnCandidate initial stream j ∧
      (rowWouldClearLines st (spawnChooseRow st stream initial)).1 = false) ∧
    ((∀ i, i < 20 →
        (rowWouldClearLines st (spawnCandidate initial stream i)).1 = true) →
      spawnChooseRow st stream initial = emptyRow) := by
  obtain ⟨p1, p2, p3⟩ := spawnLoopGo_char st stream initial 21 0 (by omega) (by omega)
  have p1x : (spawnLoopGo st stream 21 initial 0).2 ≤ 20 := p1
  have hchoose : spawnChooseRow st stream initial =
      if (spawnLoopGo st stream 21 initial 0).2 ≥ 20 then emptyRow
      else (spawnLoopGo st stream 21 initial 0).1 := rfl
  refine ⟨p1x, ?_, ?_⟩
  · intro j hj hbefore hgood
    have hrun : spawnLoopGo st stream 21 initial 0 = (spawnCandidate initial stream j, j) :=
      p2 j (by omega) hj (fun i _ hi2 => hbefore i hi2) hgood
    constructor
    · rw [hchoose, hrun]
      show (if j ≥ 20 then emptyRow else spawnCandidate initial stream j) =
        spawnCandidate initial stream j
      rw [if_neg (by omega)]
    · rw [hchoose, hrun]
      show (rowWouldClearLines st
        (if j ≥ 20 then emptyRow else spawnCandidate initial stream j)).1 = false
      rw [if_neg (by omega)]
      exact hgood
  · intro hall
    have h20 : (spawnLoopGo st stream 21 initial 0).2 = 20 :=
      p3 (fun i _ hi2 => hall i hi2)
    rw [hchoose, h20, if_pos (by omega)]

/-- Witness for C5 at the empty bootstrap state and the constant empty
stream: the bound holds, and the first-accepted-candidate part applies at
candidate 0 (the buffer row does not clear a line), choosing the buffer row
itself. -/
theorem c5_spawn_retry_bound_witness :
    (spawnLoopGo emptyStateEx (fun _ => emptyRow) 21 emptyRow 0).2 ≤ 20 ∧
    spawnChooseRow emptyStateEx (fun _ => emptyRow) emptyRow =
      spawnCandidate emptyRow (fun _ => emptyRow) 0 ∧
    (rowWouldClearLines emptyStateEx
      (spawnChooseRow emptyStateEx (fun _ => emptyRow) emptyRow)).1 = false :=
  ⟨(c5_spawn_retry_bound emptyStateEx (fun _ => emptyRow) emptyRow).1,
   ((c5_spawn_retry_bound emptyStateEx (fun _ => emptyRow) emptyRow).2.1 0 (by decide)
      (fun i hi => absurd hi (Nat.not_lt_zero i)) (by rfl)).1,
   ((c5_spawn_retry_bound emptyStateEx (fun _ => emptyRow) emptyRow).2.1 0 (by decide)
      (fun i hi => absurd hi (Nat.not_lt_zero i)) (by rfl)).2⟩

theorem settleAnimateGo_inflight (fuel : ℕ) (st : State) (oc : Option Callback)
    (a : FallingAnimation) (ha : st.fallingAnimation = some a) :
    settleAnimateGo (fuel + 1) st oc =
      (0, { st with fallingAnimation := some ({ a with after := a.after ++ [Callback.settleCont oc] }) }, []) := by
  rw [settleAnimateGo, ha]

/-- C9: a `settleBoard({animate:true})` call made while an animation is in
flight never installs a second animation: it returns 0 immediately, runs no
callbacks, and the only state change is that the continuation
`() => settleBoard({animate:true, onComplete})` is appended to the *same*
in-flight animation's queue (its moves, finalize, stroke, start time and
duration are untouched). -/
theorem c9_serialize_behind_animation (st : State) (oc : Option Callback)
    (a : FallingAnimation) (ha : st.fallingAnimation = some a) :
    settleBoardAnimate st oc =
      (0, { st with fallingAnimation := some ({ a with after := a.after ++ [Callback.settleCont oc] }) }, []) :=
  settleAnimateGo_inflight 4095 st oc a ha

/-- Witness for C9 at a concrete in-flight animation. -/
theorem c9_serialize_behind_animation_witness :
    animExampleSt.fallingAnimation = some animExampleAnim ∧
    settleBoardAnimate animExampleSt none =
      (0, { animExampleSt with fallingAnimation := some ({ animExampleAnim with after := animExampleAnim.after ++ [Callback.settleCont none] }) }, []) :=
  ⟨rfl, c9_serialize_behind_animation animExampleSt none animExampleAnim rfl⟩

theorem dropSelectedBlockA_flag (st : State) (sel : Selection)
    (hsel : st.selectedBlock = some sel) :
    (dropSelectedBlockA st).map (fun q => q.1.shouldSpawn) = some st.selectionMoved := by
  rw [dropSelectedBlockA, hsel]
  rfl

theorem applyOffset_unmoved_inv (st : State) (t : ℤ)
    (h : st.selectionMoved = false → ∀ s, st.selectedBlock = some s → s.offset = 0) :
    (applyOffset st t).selectionMoved = false →
      ∀ s, (applyOffset st t).selectedBlock = some s → s.offset = 0 := by
  rcases hsel : st.selectedBlock with _ | sel
  · simp only [applyOffset, hsel]
    intro hm s hs
    exact Option.noConfusion hs
  · simp only [applyOffset, hsel]
    by_cases h0 : t = sel.offset
    · rw [if_pos h0]
      exact h
    · rw [if_neg h0]
      by_cases h1 : walkOffsetGo st.grid sel.baseCells
          (if t > sel.offset then 1 else -1) (t - sel.offset).natAbs sel.offset = sel.offset
      · rw [if_pos h1]
        exact h
      · rw [if_neg h1]
        intro hmoved
        exact absurd hmoved (by simp)

theorem dragsFold_unmoved_inv (st : State) :
    ∀ (ds : List ℤ),
      (st.selectionMoved = false → ∀ s, st.selectedBlock = some s → s.offset = 0) →
      ((ds.foldl applyOffset st).selectionMoved = false →
        ∀ s, (ds.foldl applyOffset st).selectedBlock = some s → s.offset = 0) := by
  intro ds
  induction ds generalizing st with
  | nil => intro h; exact h
  | cons t rest ih =>
    intro h
    rw [List.foldl_cons]
    exact ih (applyOffset st t) (applyOffset_unmoved_inv st t h)

/-- C1 counterexample (variant A, src/index.js): starting from a fresh
selection of the block at `(0, 19)`, drag to offset +1 and back to offset 0,
then release.  The final horizontal offset is 0, yet the placement's
`shouldSpawn` flag is `true`, because variant A keys the flag off the
`selectionMoved` latch (any drag that ever changed the offset), not off the
final offset.  Hence the claim — the flag is true exactly when the offset at
release differs from zero, in both variants — is false. -/
theorem c1_spawn_flag_counterexample :
    ((applyOffset (applyOffset (trySelectBlock c1St0 0 19) 1) 0).selectedBlock.map
        (fun s => s.offset)) = some 0 ∧
    ((dropSelectedBlockA (applyOffset (applyOffset (trySelectBlock c1St0 0 19) 1) 0)).map
        (fun q => q.1.shouldSpawn)) = some true ∧
    ¬ ((dropSelectedBlockA (applyOffset (applyOffset (trySelectBlock c1St0 0 19) 1) 0)).map
        (fun q => q.1.shouldSpawn)) = some (decide (¬ (0 : ℤ) = 0)) := by
  refine ⟨by decide, by decide, by decide⟩

/-- C1 (amended): variant B (part_000) keys the spawn flag off the final
offset: the released placement's `shouldSpawn` is true exactly when the
selection's offset at release differs from zero.  Variant A (index.js) keys
it off whether any drag during the selection changed the offset
(`selectionMoved`): the flag equals the latch, and in particular if the flag
is false at release then the final offset is 0 — but a drag that moves and
returns to offset 0 yields `shouldSpawn = true` (the counterexample), so in
variant A the flag is not a function of the final offset alone. -/
theorem c1_spawn_flag_amended :
    (∀ (st : State) (sel : Selection), st.selectedBlock = some sel →
      (dropSelectedBlockB st).map (fun q => q.1.shouldSpawn) =
        some (decide (¬ sel.offset = 0))) ∧
    (∀ (st : State) (ds : List ℤ) (sel : Selection),
      st.selectionMoved = false →
      (∀ s, st.selectedBlock = some s → s.offset = 0) →
      (ds.foldl applyOffset st).selectedBlock = some sel →
      (dropSelectedBlockA (ds.foldl applyOffset st)).map (fun q => q.1.shouldSpawn) =
        some false →
      sel.offset = 0) ∧
    (∀ (st : State) (sel : Selection), st.selectedBlock = some sel →
      (dropSelectedBlockA st).map (fun q => q.1.shouldSpawn) = some st.selectionMoved) := by
  refine ⟨?_, ?_, fun st sel hsel => dropSelectedBlockA_flag st sel hsel⟩
  · intro st sel hsel
    rw [dropSelectedBlockB, hsel]
    rfl
  · intro st ds sel hm h0 hsel hflag
    rw [dropSelectedBlockA_flag (ds.foldl applyOffset st) sel hsel] at hflag
    have hmoved : (ds.foldl applyOffset st).selectionMoved = false :=
      Option.some.inj hflag
    exact dragsFold_unmoved_inv st ds (fun _ s hs => h0 s hs) hmoved sel hsel

/-- Witness for C1 (amended): variant B's flag on the concrete drag-example
selection (offset 0), and variant A's unmoved-release implication on the
concrete single-cell selection with no drags. -/
theorem c1_spawn_flag_amended_witness :
    (dragExampleSt.selectedBlock = some dragExampleSel ∧
      (dropSelectedBlockB dragExampleSt).map (fun q => q.1.shouldSpawn) =
        some (decide (¬ dragExampleSel.offset = 0))) ∧
    (c1St0.selectionMoved = false ∧
      (trySelectBlock c1St0 0 19).selectedBlock = some c1Sel ∧
      c1Sel.offset = 0) := by
  refine ⟨⟨rfl, c1_spawn_flag_amended.1 dragExampleSt dragExampleSel rfl⟩, rfl, by decide, ?_⟩
  have hsel : (([] : List ℤ).foldl applyOffset (trySelectBlock c1St0 0 19)).selectedBlock =
      some c1Sel := by decide
  exact c1_spawn_flag_amended.2.1 (trySelectBlock c1St0 0 19) [] c1Sel (by decide)
    (fun s hs => by
      have h1 : (trySelectBlock c1St0 0 19).selectedBlock = some c1Sel := by decide
      rw [h1] at hs
      rw [← Option.some.inj hs]
      rfl)
    hsel (by decide)

/-- C4 counterexample: on `dropExampleGrid`, block 1's cell set (as computed
by `collectBlockCells`) is `[(0,17)]`; the code's drop computation stops at
the occupied cell directly below and returns 0, while the claim's
characterization — the maximal `d` whose destination cells are in bounds and
empty with the block's own footprint vacated — is 2 (jumping over the
occupant at `(0,18)` onto the empty `(0,19)`).  Hence the claimed equality
fails as stated. -/
theorem c4_drop_distance_counterexample :
    collectBlockCells dropExampleGrid 0 17 (some 1) = [((0 : ℤ), (17 : ℤ))] ∧
    computeDropDistance dropExampleGrid [((0 : ℤ), (17 : ℤ))] = 0 ∧
    specMaxDrop dropExampleGrid [((0 : ℤ), (17 : ℤ))] = 2 ∧
    ¬ computeDropDistance dropExampleGrid [((0 : ℤ), (17 : ℤ))] =
        specMaxDrop dropExampleGrid [((0 : ℤ), (17 : ℤ))] := by
  refine ⟨by decide, by decide, by decide, by decide⟩

/-- C4 (amended): the drop distance computed by gravity and by
`computeDropDistance` is the first-blocked depth: every depth `1..d` keeps
every cell in bounds and lands on cells empty in the *current* grid, and
depth `d+1` does not.  When the block's cells all lie in a single row — as
for every block in a reachable state — the occupancy checks against the
grid with the block's own footprint vacated coincide with the checks
against the current grid (the block is then never an obstacle to itself),
so `d` is also maximal for the spec's vacated-footprint reading restricted
to consecutive depths. -/
theorem c4_drop_distance_amended (g : Grid) (cells : List Pos) (c0 : Pos)
    (hc0 : c0 ∈ cells) (hy : 0 ≤ c0.2) :
    (canDropTo g cells (computeDropDistance g cells + 1) = false ∧
      (∀ e, 1 ≤ e → e ≤ computeDropDistance g cells → canDropTo g cells e = true)) ∧
    ((∃ y0, ∀ c ∈ cells, c.2 = y0) →
      ∀ e, 1 ≤ e → canDropTo (clearCellsG g cells) cells e = canDropTo g cells e) := by
  refine ⟨computeDropDistance_char g cells c0 hc0 hy, ?_⟩
  rintro ⟨y0, hy0⟩ e he
  unfold canDropTo
  apply all_congr
  intro c hcmem
  have hnot : ((c.1, c.2 + (e : ℤ)) : Pos) ∉ cells := by
    intro hmem
    have h1 := hy0 c hcmem
    have h2 := hy0 _ hmem
    simp only at h2
    omega
  rw [clearCellsG_apply, if_neg hnot]

/-- Witness for C4 (amended), at the counterexample's own input: block 1's
single-cell set on `dropExampleGrid` satisfies the first-blocked
characterization and the single-row agreement. -/
theorem c4_drop_distance_amended_witness :
    (((0 : ℤ), (17 : ℤ)) ∈ [((0 : ℤ), (17 : ℤ))] ∧ (0 : ℤ) ≤ 17) ∧
    ((canDropTo dropExampleGrid [((0 : ℤ), (17 : ℤ))]
        (computeDropDistance dropExampleGrid [((0 : ℤ), (17 : ℤ))] + 1) = false ∧
      (∀ e, 1 ≤ e → e ≤ computeDropDistance dropExampleGrid [((0 : ℤ), (17 : ℤ))] →
        canDropTo dropExampleGrid [((0 : ℤ), (17 : ℤ))] e = true)) ∧
    ((∃ y0, ∀ c ∈ [((0 : ℤ), (17 : ℤ))], c.2 = y0) →
      ∀ e, 1 ≤ e →
        canDropTo (clearCellsG dropExampleGrid [((0 : ℤ), (17 : ℤ))]) [((0 : ℤ), (17 : ℤ))] e =
          canDropTo dropExampleGrid [((0 : ℤ), (17 : ℤ))] e)) :=
  ⟨⟨by decide, by decide⟩,
    c4_drop_distance_amended dropExampleGrid [((0 : ℤ), (17 : ℤ))] ((0 : ℤ), (17 : ℤ))
      (by decide) (by decide)⟩

theorem mem_runFinset (x0 y0 : ℤ) (len : ℕ) (p : Pos) :
    p ∈ runFinset x0 y0 len ↔ p.2 = y0 ∧ x0 ≤ p.1 ∧ p.1 < x0 + (len : ℤ) := by
  rw [runFinset, Finset.mem_image]
  constructor
  · rintro ⟨i, hi, rfl⟩
    rw [Finset.mem_range] at hi
    refine ⟨rfl, by dsimp; omega, by dsimp; omega⟩
  · rintro ⟨h2, hle, hlt⟩
    refine ⟨(p.1 - x0).toNat, Finset.mem_range.mpr (by omega), ?_⟩
    rw [Prod.ext_iff]
    refine ⟨?_, h2.symm⟩
    show x0 + ((p.1 - x0).toNat : ℤ) = p.1
    omega

theorem mem_BlockOf (g : Grid) (id : ℕ) (p : Pos) :
    p ∈ BlockOf g id ↔ inB p.1 p.2 ∧ blockIdOf (g p.1 p.2) = some id := by
  rw [BlockOf, Finset.mem_filter, mem_boxFinset]
  exact Iff.rfl

theorem mem_bigBox (p : Pos) :
    p ∈ bigBox ↔ -1 ≤ p.1 ∧ p.1 ≤ WIDTH ∧ -1 ≤ p.2 ∧ p.2 ≤ HEIGHT := by
  rw [bigBox, Finset.mem_product, Finset.mem_Icc, Finset.mem_Icc]
  tauto

theorem bigBox_card : bigBox.card = 264 := by
  rw [bigBox, Finset.card_product, Int.card_Icc, Int.card_Icc]
  rfl

theorem neighborsOf_nodup (p : Pos) : (neighborsOf p).Nodup := by
  refine List.nodup_cons.mpr ⟨?_, List.nodup_cons.mpr ⟨?_, List.nodup_cons.mpr
    ⟨?_, List.nodup_singleton _⟩⟩⟩
  · intro h
    rcases List.mem_cons.mp h with h1 | h
    · rw [Prod.mk.injEq] at h1; omega
    rcases List.mem_cons.mp h with h1 | h
    · rw [Prod.mk.injEq] at h1; omega
    rcases List.mem_cons.mp h with h1 | h
    · rw [Prod.mk.injEq] at h1; omega
    · exact List.not_mem_nil _ h
  · intro h
    rcases List.mem_cons.mp h with h1 | h
    · rw [Prod.mk.injEq] at h1; omega
    rcases List.mem_cons.mp h with h1 | h
    · rw [Prod.mk.injEq] at h1; omega
    · exact List.not_mem_nil _ h
  · intro h
    rcases List.mem_cons.mp h with h1 | h
    · rw [Prod.mk.injEq] at h1; omega
    · exact List.not_mem_nil _ h

theorem neighborsOf_mem_bigBox (p : Pos) (hp : inB p.1 p.2) :
    ∀ q ∈ neighborsOf p, q ∈ bigBox := by
  intro q hq
  obtain ⟨h1, h2, h3, h4⟩ := hp
  have hW : WIDTH = 10 := rfl
  have hH : HEIGHT = 20 := rfl
  rw [mem_bigBox]
  rw [neighborsOf] at hq
  simp only [List.mem_cons, List.mem_singleton, List.not_mem_nil, or_false] at hq
  rcases hq with rfl | rfl | rfl | rfl <;> dsimp only <;> omega

theorem BlockOf_char (g : Grid) (counter id : ℕ) (hGood : GoodGrid g counter)
    (hne : (BlockOf g id).Nonempty) :
    id ≤ counter ∧ ∃ (x0 y0 : ℤ) (len : ℕ), 0 < len ∧
      0 ≤ x0 ∧ x0 + (len : ℤ) ≤ 10 ∧ 0 ≤ y0 ∧ y0 < 20 ∧
      ∀ q : Pos, q ∈ BlockOf g id ↔ (q.2 = y0 ∧ x0 ≤ q.1 ∧ q.1 < x0 + (len : ℤ)) := by
  obtain ⟨hle, x0, y0, len, hlen, heq⟩ := hGood id hne
  have hchar : ∀ q : Pos, q ∈ BlockOf g id ↔
      (q.2 = y0 ∧ x0 ≤ q.1 ∧ q.1 < x0 + (len : ℤ)) := by
    intro q
    rw [heq]
    exact mem_runFinset x0 y0 len q
  have hin1 : ((x0, y0) : Pos) ∈ BlockOf g id :=
    (hchar (x0, y0)).mpr ⟨rfl, le_refl x0, by dsimp; omega⟩
  have hin2 : ((x0 + (len : ℤ) - 1, y0) : Pos) ∈ BlockOf g id :=
    (hchar _).mpr ⟨rfl, by dsimp; omega, by dsimp; omega⟩
  obtain ⟨ha1, ha2, ha3, ha4⟩ := ((mem_BlockOf g id _).mp hin1).1
  obtain ⟨hb1, hb2, -, -⟩ := ((mem_BlockOf g id _).mp hin2).1
  have hW : WIDTH = 10 := rfl
  have hH : HEIGHT = 20 := rfl
  dsimp only at ha1 ha2 ha3 ha4 hb1 hb2
  exact ⟨hle, x0, y0, len, hlen, by omega, by omega, by omega, by omega, hchar⟩

theorem collectGo_complete (g : Grid) (id : ℕ) (start : Pos) :
    ∀ (fuel : ℕ) (tv : List Pos) (seen : Finset Pos) (acc : List Pos),
      (∀ q ∈ acc, ∀ n ∈ neighborsOf q, n ∈ seen) →
      (∀ q ∈ seen, q ∉ tv → inB q.1 q.2 → blockIdOf (g q.1 q.2) = some id → q ∈ acc) →
      (∀ q ∈ tv, q ∈ seen) →
      seen ⊆ insert start bigBox →
      tv.length + ((insert start bigBox).card - seen.card) ≤ fuel →
      (∀ q ∈ acc, q ∈ collectGo g id fuel tv seen acc) ∧
      (∀ q ∈ tv, inB q.1 q.2 → blockIdOf (g q.1 q.2) = some id →
        q ∈ collectGo g id fuel tv seen acc) ∧
      (∀ q ∈ collectGo g id fuel tv seen acc, ∀ n ∈ neighborsOf q,
        inB n.1 n.2 → blockIdOf (g n.1 n.2) = some id →
          n ∈ collectGo g id fuel tv seen acc) := by
  intro fuel
  induction fuel with
  | zero =>
    intro tv seen acc hnb hseen htv hsub hfuel
    have htv0 : tv = [] := List.length_eq_zero.mp (by omega)
    subst htv0
    refine ⟨fun q hq => hq, fun q hq _ _ => absurd hq (List.not_mem_nil q), ?_⟩
    intro q hq n hn hinB hid
    have hq' : q ∈ acc := hq
    exact hseen n (hnb q hq' n hn) (List.not_mem_nil n) hinB hid
  | succ m ih =>
    intro tv seen acc hnb hseen htv hsub hfuel
    rcases tv with _ | ⟨p, rest⟩
    · refine ⟨fun q hq => hq, fun q hq _ _ => absurd hq (List.not_mem_nil q), ?_⟩
      intro q hq n hn hinB hid
      have hq' : q ∈ acc := hq
      exact hseen n (hnb q hq' n hn) (List.not_mem_nil n) hinB hid
    · rw [List.length_cons] at hfuel
      by_cases hinp : inB p.1 p.2
      · by_cases hidp : blockIdOf (g p.1 p.2) = some id
        · -- processing branch: p is pushed to the output, fresh neighbors enqueued
          have hfreshND : (((neighborsOf p).filter (fun q => q ∉ seen))).Nodup :=
            (neighborsOf_nodup p).filter _
          have hfreshNotSeen :
              ∀ q ∈ (neighborsOf p).filter (fun q => q ∉ seen), q ∉ seen := by
            intro q hq
            have := List.of_mem_filter hq
            simpa using this
          have hfreshNb : ∀ q ∈ (neighborsOf p).filter (fun q => q ∉ seen),
              q ∈ neighborsOf p := fun q hq => List.mem_of_mem_filter hq
          have hnb' : ∀ q ∈ acc ++ [p], ∀ n ∈ neighborsOf q,
              n ∈ seen ∪ ((neighborsOf p).filter (fun q => q ∉ seen)).toFinset := by
            intro q hq n hn
            rcases List.mem_append.mp hq with hq' | hq'
            · exact Finset.mem_union_left _ (hnb q hq' n hn)
            · rw [List.mem_singleton.mp hq']  at hn
              by_cases hns : n ∈ seen
              · exact Finset.mem_union_left _ hns
              · refine Finset.mem_union_right _ (List.mem_toFinset.mpr ?_)
                exact List.mem_filter.mpr ⟨hn, by simpa using hns⟩
          have hseen' : ∀ q ∈ seen ∪ ((neighborsOf p).filter (fun q => q ∉ seen)).toFinset,
              q ∉ ((neighborsOf p).filter (fun q => q ∉ seen)).reverse ++ rest →
              inB q.1 q.2 → blockIdOf (g q.1 q.2) = some id → q ∈ acc ++ [p] := by
            intro q hq hqtv hqin hqid
            rcases Finset.mem_union.mp hq with hq' | hq'
            · by_cases hqp : q = p
              · subst hqp
                exact List.mem_append.mpr (Or.inr (List.mem_singleton_self q))
              · have hqrest : q ∉ rest := fun hr =>
                  hqtv (List.mem_append.mpr (Or.inr hr))
                have hqtv0 : q ∉ p :: rest := by
                  intro hr
                  rcases List.mem_cons.mp hr with h | h
                  · exact hqp h
                  · exact hqrest h
                exact List.mem_append.mpr (Or.inl (hseen q hq' hqtv0 hqin hqid))
            · exfalso
              apply hqtv
              exact List.mem_append.mpr (Or.inl (List.mem_reverse.mpr
                (List.mem_toFinset.mp hq')))
          have htv' : ∀ q ∈ ((neighborsOf p).filter (fun q => q ∉ seen)).reverse ++ rest,
              q ∈ seen ∪ ((neighborsOf p).filter (fun q => q ∉ seen)).toFinset := by
            intro q hq
            rcases List.mem_append.mp hq with hq' | hq'
            · exact Finset.mem_union_right _ (List.mem_toFinset.mpr
                (List.mem_reverse.mp hq'))
            · exact Finset.mem_union_left _ (htv q (List.mem_cons_of_mem p hq'))
          have hsub' : seen ∪ ((neighborsOf p).filter (fun q => q ∉ seen)).toFinset ⊆
              insert start bigBox := by
            apply Finset.union_subset hsub
            intro q hq
            exact Finset.mem_insert_of_mem
              (neighborsOf_mem_bigBox p hinp q (hfreshNb q (List.mem_toFinset.mp hq)))
          have hdisj : Disjoint seen ((neighborsOf p).filter (fun q => q ∉ seen)).toFinset := by
            rw [Finset.disjoint_right]
            intro a ha
            exact hfreshNotSeen a (List.mem_toFinset.mp ha)
          have hcardU : (seen ∪ ((neighborsOf p).filter (fun q => q ∉ seen)).toFinset).card =
              seen.card + ((neighborsOf p).filter (fun q => q ∉ seen)).length := by
            rw [Finset.card_union_of_disjoint hdisj, List.toFinset_card_of_nodup hfreshND]
          have hcardle : (seen ∪ ((neighborsOf p).filter (fun q => q ∉ seen)).toFinset).card ≤
              (insert start bigBox).card := Finset.card_le_card hsub'
          have hcardseen : seen.card ≤ (insert start bigBox).card := Finset.card_le_card hsub
          have hfuel' : (((neighborsOf p).filter (fun q => q ∉ seen)).reverse ++ rest).length +
              ((insert start bigBox).card -
                (seen ∪ ((neighborsOf p).filter (fun q => q ∉ seen)).toFinset).card) ≤ m := by
            rw [List.length_append, List.length_reverse]
            omega
          have hres := ih (((neighborsOf p).filter (fun q => q ∉ seen)).reverse ++ rest)
            (seen ∪ ((neighborsOf p).filter (fun q => q ∉ seen)).toFinset) (acc ++ [p])
            hnb' hseen' htv' hsub' hfuel'
          refine ⟨?_, ?_, ?_⟩
          · intro q hq
            rw [collectGo, if_pos hinp, if_pos hidp]
            exact hres.1 q (List.mem_append.mpr (Or.inl hq))
          · intro q hq hqin hqid
            rw [collectGo, if_pos hinp, if_pos hidp]
            rcases List.mem_cons.mp hq with rfl | hq'
            · exact hres.1 q (List.mem_append.mpr (Or.inr (List.mem_singleton_self q)))
            · exact hres.2.1 q (List.mem_append.mpr (Or.inr hq')) hqin hqid
          · intro q hq n hn hinN hidN
            rw [collectGo, if_pos hinp, if_pos hidp] at hq ⊢
            exact hres.2.2 q hq n hn hinN hidN
        · -- in-bounds but wrong id: skip
          have hseen' : ∀ q ∈ seen, q ∉ rest → inB q.1 q.2 →
              blockIdOf (g q.1 q.2) = some id → q ∈ acc := by
            intro q hq hqr hqin hqid
            by_cases hqp : q = p
            · subst hqp; exact absurd hqid hidp
            · refine hseen q hq ?_ hqin hqid
              intro hr
              rcases List.mem_cons.mp hr with h | h
              · exact hqp h
              · exact hqr h
          have hres := ih rest seen acc hnb hseen'
            (fun q hq => htv q (List.mem_cons_of_mem p hq)) hsub (by omega)
          refine ⟨?_, ?_, ?_⟩
          · intro q hq
            rw [collectGo, if_pos hinp, if_neg hidp]
            exact hres.1 q hq
          · intro q hq hqin hqid
            rw [collectGo, if_pos hinp, if_neg hidp]
            rcases List.mem_cons.mp hq with rfl | hq'
            · exact absurd hqid hidp
            · exact hres.2.1 q hq' hqin hqid
          · intro q hq n hn hinN hidN
            rw [collectGo, if_pos hinp, if_neg hidp] at hq ⊢
            exact hres.2.2 q hq n hn hinN hidN
      · -- out of bounds: skip
        have hseen' : ∀ q ∈ seen, q ∉ rest → inB q.1 q.2 →
            blockIdOf (g q.1 q.2) = some id → q ∈ acc := by
          intro q hq hqr hqin hqid
          by_cases hqp : q = p
          · subst hqp; exact absurd hqin hinp
          · refine hseen q hq ?_ hqin hqid
            intro hr
            rcases List.mem_cons.mp hr with h | h
            · exact hqp h
            · exact hqr h
        have hres := ih rest seen acc hnb hseen'
          (fun q hq => htv q (List.mem_cons_of_mem p hq)) hsub (by omega)
        refine ⟨?_, ?_, ?_⟩
        · intro q hq
          rw [collectGo, if_neg hinp]
          exact hres.1 q hq
        · intro q hq hqin hqid
          rw [collectGo, if_neg hinp]
          rcases List.mem_cons.mp hq with rfl | hq'
          · exact absurd hqin hinp
          · exact hres.2.1 q hq' hqin hqid
        · intro q hq n hn hinN hidN
          rw [collectGo, if_neg hinp] at hq ⊢
          exact hres.2.2 q hq n hn hinN hidN

theorem collectBlockCells_complete (g : Grid) (start : Pos) (id : ℕ)
    (hin : inB start.1 start.2) (hid : blockIdOf (g start.1 start.2) = some id) :
    start ∈ collectBlockCells g start.1 start.2 (some id) ∧
    (∀ q ∈ collectBlockCells g start.1 start.2 (some id), ∀ n ∈ neighborsOf q,
      inB n.1 n.2 → blockIdOf (g n.1 n.2) = some id →
        n ∈ collectBlockCells g start.1 start.2 (some id)) := by
  have hcard : (insert start bigBox).card ≤ 265 := by
    have h1 := Finset.card_insert_le start bigBox
    rw [bigBox_card] at h1
    omega
  have h := collectGo_complete g id start 300 [start] {start} []
    (fun q hq => absurd hq (List.not_mem_nil q))
    (by
      intro q hq hqtv _ _
      rw [Finset.mem_singleton] at hq
      subst hq
      exact absurd (List.mem_singleton_self q) hqtv)
    (by
      intro q hq
      rw [List.mem_singleton] at hq
      subst hq
      exact Finset.mem_singleton_self q)
    (by
      intro q hq
      rw [Finset.mem_singleton] at hq
      subst hq
      exact Finset.mem_insert_self q bigBox)
    (by
      rw [List.length_singleton, Finset.card_singleton]
      omega)
  exact ⟨h.2.1 start (List.mem_singleton_self start) hin hid, h.2.2⟩

theorem collect_run_complete (g : Grid) (id : ℕ) (x0 y0 : ℤ) (len : ℕ)
    (hchar : ∀ p : Pos, (inB p.1 p.2 ∧ blockIdOf (g p.1 p.2) = some id) ↔
      (p.2 = y0 ∧ x0 ≤ p.1 ∧ p.1 < x0 + (len : ℤ)))
    (start : Pos) (hs : start.2 = y0 ∧ x0 ≤ start.1 ∧ start.1 < x0 + (len : ℤ)) :
    ∀ p : Pos, p ∈ collectBlockCells g start.1 start.2 (some id) ↔
      (p.2 = y0 ∧ x0 ≤ p.1 ∧ p.1 < x0 + (len : ℤ)) := by
  obtain ⟨hin, hid⟩ := (hchar start).mpr hs
  obtain ⟨hstart, hclos⟩ := collectBlockCells_complete g start id hin hid
  have hup : ∀ k : ℕ, start.1 + (k : ℤ) < x0 + (len : ℤ) →
      ((start.1 + (k : ℤ), y0) : Pos) ∈ collectBlockCells g start.1 start.2 (some id) := by
    intro k
    induction k with
    | zero =>
      intro _
      have he : ((start.1 + ((0 : ℕ) : ℤ), y0) : Pos) = start := by
        rw [Prod.ext_iff]
        refine ⟨?_, hs.1.symm⟩
        show start.1 + ((0 : ℕ) : ℤ) = start.1
        omega
      rw [he]
      exact hstart
    | succ k ihk =>
      intro hk
      have hkk : start.1 + (k : ℤ) < x0 + (len : ℤ) := by
        have : ((k : ℤ)) < ((k + 1 : ℕ) : ℤ) := by push_cast; omega
        omega
      have hprev := ihk hkk
      have heq : ((start.1 + ((k + 1 : ℕ) : ℤ), y0) : Pos) =
          (((start.1 + (k : ℤ), y0) : Pos).1 + 1, ((start.1 + (k : ℤ), y0) : Pos).2) := by
        rw [Prod.ext_iff]
        refine ⟨?_, rfl⟩
        show start.1 + ((k + 1 : ℕ) : ℤ) = start.1 + (k : ℤ) + 1
        push_cast
        ring
      have hnmem : ((start.1 + ((k + 1 : ℕ) : ℤ), y0) : Pos) ∈
          neighborsOf (start.1 + (k : ℤ), y0) := by
        rw [neighborsOf, heq]
        exact List.mem_cons_self _ _
      have hnprops : (((start.1 + ((k + 1 : ℕ) : ℤ), y0) : Pos).2 = y0 ∧
          x0 ≤ ((start.1 + ((k + 1 : ℕ) : ℤ), y0) : Pos).1 ∧
          ((start.1 + ((k + 1 : ℕ) : ℤ), y0) : Pos).1 < x0 + (len : ℤ)) := by
        refine ⟨rfl, ?_, ?_⟩
        · show x0 ≤ start.1 + ((k + 1 : ℕ) : ℤ)
          have : (0 : ℤ) ≤ ((k + 1 : ℕ) : ℤ) := Int.natCast_nonneg _
          omega
        · exact hk
      obtain ⟨hinN, hidN⟩ := (hchar _).mpr hnprops
      exact hclos _ hprev _ hnmem hinN hidN
  have hdown : ∀ k : ℕ, x0 ≤ start.1 - (k : ℤ) →
      ((start.1 - (k : ℤ), y0) : Pos) ∈ collectBlockCells g start.1 start.2 (some id) := by
    intro k
    induction k with
    | zero =>
      intro _
      have he : ((start.1 - ((0 : ℕ) : ℤ), y0) : Pos) = start := by
        rw [Prod.ext_iff]
        refine ⟨?_, hs.1.symm⟩
        show start.1 - ((0 : ℕ) : ℤ) = start.1
        omega
      rw [he]
      exact hstart
    | succ k ihk =>
      intro hk
      have hkk : x0 ≤ start.1 - (k : ℤ) := by
        have : ((k : ℤ)) < ((k + 1 : ℕ) : ℤ) := by push_cast; omega
        omega
      have hprev := ihk hkk
      have heq : ((start.1 - ((k + 1 : ℕ) : ℤ), y0) : Pos) =
          (((start.1 - (k : ℤ), y0) : Pos).1 - 1, ((start.1 - (k : ℤ), y0) : Pos).2) := by
        rw [Prod.ext_iff]
        refine ⟨?_, rfl⟩
        show start.1 - ((k + 1 : ℕ) : ℤ) = start.1 - (k : ℤ) - 1
        push_cast
        ring
      have hnmem : ((start.1 - ((k + 1 : ℕ) : ℤ), y0) : Pos) ∈
          neighborsOf (start.1 - (k : ℤ), y0) := by
        rw [neighborsOf, heq]
        exact List.mem_cons_of_mem _ (List.mem_cons_self _ _)
      have hnprops : (((start.1 - ((k + 1 : ℕ) : ℤ), y0) : Pos).2 = y0 ∧
          x0 ≤ ((start.1 - ((k + 1 : ℕ) : ℤ), y0) : Pos).1 ∧
          ((start.1 - ((k + 1 : ℕ) : ℤ), y0) : Pos).1 < x0 + (len : ℤ)) := by
        refine ⟨rfl, hk, ?_⟩
        show start.1 - ((k + 1 : ℕ) : ℤ) < x0 + (len : ℤ)
        have h1 : (0 : ℤ) ≤ ((k + 1 : ℕ) : ℤ) := Int.natCast_nonneg _
        have h2 := hs.2.2
        omega
      obtain ⟨hinN, hidN⟩ := (hchar _).mpr hnprops
      exact hclos _ hprev _ hnmem hinN hidN
  intro p
  constructor
  · intro hp
    exact (hchar p).mp (collectBlockCells_mem g start.1 start.2 id p hp)
  · rintro ⟨hp2, hple, hplt⟩
    rcases le_or_lt start.1 p.1 with hge | hlt
    · have hk := hup (p.1 - start.1).toNat (by omega)
      have he : ((start.1 + (((p.1 - start.1).toNat : ℕ) : ℤ), y0) : Pos) = p := by
        rw [Prod.ext_iff]
        refine ⟨?_, hp2.symm⟩
        show start.1 + (((p.1 - start.1).toNat : ℕ) : ℤ) = p.1
        omega
      rw [he] at hk
      exact hk
    · have hk := hdown (start.1 - p.1).toNat (by omega)
      have he : ((start.1 - (((start.1 - p.1).toNat : ℕ) : ℤ), y0) : Pos) = p := by
        rw [Prod.ext_iff]
        refine ⟨?_, hp2.symm⟩
        show start.1 - (((start.1 - p.1).toNat : ℕ) : ℤ) = p.1
        omega
      rw [he] at hk
      exact hk

theorem collect_eq_BlockOf (g : Grid) (counter : ℕ) (hGood : GoodGrid g counter)
    (p0 : Pos) (id : ℕ) (hin : inB p0.1 p0.2) (hid : blockIdOf (g p0.1 p0.2) = some id) :
    ∃ (x0 y0 : ℤ) (len : ℕ), 0 < len ∧
      0 ≤ x0 ∧ x0 + (len : ℤ) ≤ 10 ∧ 0 ≤ y0 ∧ y0 < 20 ∧ id ≤ counter ∧
      (∀ q : Pos, q ∈ BlockOf g id ↔ (q.2 = y0 ∧ x0 ≤ q.1 ∧ q.1 < x0 + (len : ℤ))) ∧
      (∀ q : Pos, q ∈ collectBlockCells g p0.1 p0.2 (some id) ↔
        (q.2 = y0 ∧ x0 ≤ q.1 ∧ q.1 < x0 + (len : ℤ))) := by
  have hne : (BlockOf g id).Nonempty := ⟨p0, (mem_BlockOf g id p0).mpr ⟨hin, hid⟩⟩
  obtain ⟨hle, x0, y0, len, hlen, hx0, hxl, hy0, hyH, hbchar⟩ :=
    BlockOf_char g counter id hGood hne
  have hchar : ∀ p : Pos, (inB p.1 p.2 ∧ blockIdOf (g p.1 p.2) = some id) ↔
      (p.2 = y0 ∧ x0 ≤ p.1 ∧ p.1 < x0 + (len : ℤ)) :=
    fun p => (mem_BlockOf g id p).symm.trans (hbchar p)
  have hs : p0.2 = y0 ∧ x0 ≤ p0.1 ∧ p0.1 < x0 + (len : ℤ) := (hchar p0).mp ⟨hin, hid⟩
  exact ⟨x0, y0, len, hlen, hx0, hxl, hy0, hyH, hle, hbchar,
    collect_run_complete g id x0 y0 len hchar p0 hs⟩

theorem mem_map_drop (l : List Pos) (x0 y0 : ℤ) (len : ℕ) (d : ℤ)
    (h : ∀ q : Pos, q ∈ l ↔ (q.2 = y0 ∧ x0 ≤ q.1 ∧ q.1 < x0 + (len : ℤ))) (q : Pos) :
    q ∈ l.map (fun c => ((c.1, c.2 + d) : Pos)) ↔
      (q.2 = y0 + d ∧ x0 ≤ q.1 ∧ q.1 < x0 + (len : ℤ)) := by
  rw [List.mem_map]
  constructor
  · rintro ⟨c, hc, rfl⟩
    obtain ⟨h1, h2, h3⟩ := (h c).mp hc
    exact ⟨by dsimp only; omega, by dsimp only; omega, by dsimp only; omega⟩
  · rintro ⟨h1, h2, h3⟩
    refine ⟨(q.1, q.2 - d), (h _).mpr ⟨by dsimp only; omega, by dsimp only; omega,
      by dsimp only; omega⟩, ?_⟩
    rw [Prod.ext_iff]
    exact ⟨rfl, by dsimp only; omega⟩

theorem mem_map_hshift (l : List Pos) (x0 y0 : ℤ) (len : ℕ) (off : ℤ)
    (h : ∀ q : Pos, q ∈ l ↔ (q.2 = y0 ∧ x0 ≤ q.1 ∧ q.1 < x0 + (len : ℤ))) (q : Pos) :
    q ∈ l.map (fun c => ((c.1 + off, c.2) : Pos)) ↔
      (q.2 = y0 ∧ x0 + off ≤ q.1 ∧ q.1 < x0 + off + (len : ℤ)) := by
  rw [List.mem_map]
  constructor
  · rintro ⟨c, hc, rfl⟩
    obtain ⟨h1, h2, h3⟩ := (h c).mp hc
    exact ⟨by dsimp only; omega, by dsimp only; omega, by dsimp only; omega⟩
  · rintro ⟨h1, h2, h3⟩
    refine ⟨(q.1 - off, q.2), (h _).mpr ⟨by dsimp only; omega, by dsimp only; omega,
      by dsimp only; omega⟩, ?_⟩
    rw [Prod.ext_iff]
    exact ⟨by dsimp only; omega, rfl⟩

theorem sweepStep_inv (collect : Bool) (st : SweepState) (p : Pos) (counter : ℕ)
    (hOff : OffBoxEmpty st.grid) (hGood : GoodGrid st.grid counter) :
    OffBoxEmpty (sweepStep collect st p).grid ∧
    GoodGrid (sweepStep collect st p).grid counter := by
  rcases sweepStep_spec collect st p with ⟨hg, -⟩ |
    ⟨bc, cells, d, hcell, hcells, hne, hd, hd1, hg, -⟩
  · rw [hg]; exact ⟨hOff, hGood⟩
  · have hinp : inB p.1 p.2 := by
      by_contra hno
      rw [hOff p.1 p.2 hno] at hcell
      exact Option.noConfusion hcell
    have hidp : blockIdOf (st.grid p.1 p.2) = some bc.blockId := by
      rw [hcell]; rfl
    obtain ⟨x0, y0, len, hlen, hx0, hxl, hy0, hyH, hidle, hbchar, hcchar⟩ :=
      collect_eq_BlockOf st.grid counter hGood p bc.blockId hinp hidp
    have hcellsChar : ∀ q : Pos, q ∈ cells ↔
        (q.2 = y0 ∧ x0 ≤ q.1 ∧ q.1 < x0 + (len : ℤ)) := by
      intro q; rw [hcells]; exact hcchar q
    have hmemfacts : ∀ c ∈ cells,
        inB c.1 c.2 ∧ blockIdOf (st.grid c.1 c.2) = some bc.blockId := by
      rw [hcells]; exact collectBlockCells_mem st.grid p.1 p.2 bc.blockId
    have hdest := moveDestFacts st.grid cells bc.blockId hmemfacts hne d hd hd1
    have hdmapChar : ∀ q : Pos, q ∈ cells.map (fun c => ((c.1, c.2 + (d : ℤ)) : Pos)) ↔
        (q.2 = y0 + (d : ℤ) ∧ x0 ≤ q.1 ∧ q.1 < x0 + (len : ℤ)) :=
      mem_map_drop cells x0 y0 len (d : ℤ) hcellsChar
    have hg' : ∀ x y : ℤ, (sweepStep collect st p).grid x y =
        if ((x, y) : Pos) ∈ cells.map (fun c => ((c.1, c.2 + (d : ℤ)) : Pos)) then
          some ⟨bc.color, bc.blockId⟩
        else if ((x, y) : Pos) ∈ cells then none else st.grid x y := by
      intro x y
      rw [hg, writeCellsG_apply, clearCellsG_apply]
    have hdestIn : ∀ q : Pos, q ∈ cells.map (fun c => ((c.1, c.2 + (d : ℤ)) : Pos)) →
        inB q.1 q.2 ∧ st.grid q.1 q.2 = none ∧ q ∉ cells := by
      intro q hq
      rw [List.mem_map] at hq
      obtain ⟨c, hc, rfl⟩ := hq
      obtain ⟨h1, h2, h3⟩ := hdest c hc
      exact ⟨h1, h2, h3⟩
    have hoff' : OffBoxEmpty (sweepStep collect st p).grid := by
      intro x y hxy
      have hnd : ((x, y) : Pos) ∉ cells.map (fun c => ((c.1, c.2 + (d : ℤ)) : Pos)) :=
        fun hmem => hxy (hdestIn (x, y) hmem).1
      have hnc : ((x, y) : Pos) ∉ cells :=
        fun hmem => hxy ((hmemfacts (x, y) hmem).1)
      rw [hg' x y, if_neg hnd, if_neg hnc]
      exact hOff x y hxy
    have hgood' : GoodGrid (sweepStep collect st p).grid counter := by
      intro id hne2
      by_cases hid : id = bc.blockId
      · rw [hid]
        have hBD : ∀ q : Pos, q ∈ BlockOf (sweepStep collect st p).grid bc.blockId ↔
            (q.2 = y0 + (d : ℤ) ∧ x0 ≤ q.1 ∧ q.1 < x0 + (len : ℤ)) := by
          intro q
          rw [mem_BlockOf]
          constructor
          · rintro ⟨hqin, hqid⟩
            rw [hg' q.1 q.2] at hqid
            by_cases h1 : ((q.1, q.2) : Pos) ∈
                cells.map (fun c => ((c.1, c.2 + (d : ℤ)) : Pos))
            · exact (hdmapChar (q.1, q.2)).mp h1
            · rw [if_neg h1] at hqid
              by_cases h2 : ((q.1, q.2) : Pos) ∈ cells
              · rw [if_pos h2] at hqid
                exact Option.noConfusion hqid
              · rw [if_neg h2] at hqid
                have hqb : ((q.1, q.2) : Pos) ∈ BlockOf st.grid bc.blockId :=
                  (mem_BlockOf _ _ _).mpr ⟨hqin, hqid⟩
                exact absurd ((hcellsChar (q.1, q.2)).mpr ((hbchar _).mp hqb)) h2
          · rintro ⟨h1, h2, h3⟩
            have hmem : ((q.1, q.2) : Pos) ∈
                cells.map (fun c => ((c.1, c.2 + (d : ℤ)) : Pos)) :=
              (hdmapChar (q.1, q.2)).mpr ⟨h1, h2, h3⟩
            refine ⟨(hdestIn _ hmem).1, ?_⟩
            rw [hg' q.1 q.2, if_pos hmem]
            rfl
        refine ⟨hidle, x0, y0 + (d : ℤ), len, hlen, ?_⟩
        apply Finset.ext
        intro q
        rw [hBD q]
        exact (mem_runFinset x0 (y0 + (d : ℤ)) len q).symm
      · have hsame : BlockOf (sweepStep collect st p).grid id = BlockOf st.grid id := by
          apply Finset.ext
          intro q
          rw [mem_BlockOf, mem_BlockOf]
          by_cases h1 : ((q.1, q.2) : Pos) ∈
              cells.map (fun c => ((c.1, c.2 + (d : ℤ)) : Pos))
          · constructor
            · rintro ⟨hqin, hqid⟩
              rw [hg' q.1 q.2, if_pos h1] at hqid
              have hq2 : (some bc.blockId : Option ℕ) = some id := hqid
              exact absurd (Option.some.inj hq2).symm hid
            · rintro ⟨hqin, hqid⟩
              have hmm : st.grid q.1 q.2 = none := (hdestIn _ h1).2.1
              rw [hmm] at hqid
              exact Option.noConfusion hqid
          · rw [hg' q.1 q.2, if_neg h1]
            by_cases h2 : ((q.1, q.2) : Pos) ∈ cells
            · rw [if_pos h2]
              constructor
              · rintro ⟨hqin, hqid⟩
                exact Option.noConfusion hqid
              · rintro ⟨hqin, hqid⟩
                have hqid' : blockIdOf (st.grid q.1 q.2) = some bc.blockId :=
                  (hmemfacts _ h2).2
                have hq2 : (some bc.blockId : Option ℕ) = some id := hqid'.symm.trans hqid
                exact absurd (Option.some.inj hq2).symm hid
            · rw [if_neg h2]
        rw [hsame] at hne2 ⊢
        exact hGood id hne2
    exact ⟨hoff', hgood'⟩

theorem sweepFold_inv (collect : Bool) (counter : ℕ) :
    ∀ (l : List Pos) (st : SweepState),
      OffBoxEmpty st.grid → GoodGrid st.grid counter →
      OffBoxEmpty (l.foldl (sweepStep collect) st).grid ∧
      GoodGrid (l.foldl (sweepStep collect) st).grid counter := by
  intro l
  induction l with
  | nil => intro st h1 h2; exact ⟨h1, h2⟩
  | cons p t ih =>
    intro st h1 h2
    rw [List.foldl_cons]
    obtain ⟨h1', h2'⟩ := sweepStep_inv collect st p counter h1 h2
    exact ih (sweepStep collect st p) h1' h2'

theorem gravityGo_inv (collect : Bool) (counter : ℕ) :
    ∀ (fuel : ℕ) (g : Grid) (ma : Bool) (moves : List Move),
      OffBoxEmpty g → GoodGrid g counter →
      OffBoxEmpty (gravityGo collect fuel g ma moves).1 ∧
      GoodGrid (gravityGo collect fuel g ma moves).1 counter := by
  intro fuel
  induction fuel with
  | zero => intro g ma moves h1 h2; exact ⟨h1, h2⟩
  | succ n ih =>
    intro g ma moves h1 h2
    rw [gravityGo_succ]
    obtain ⟨h1', h2'⟩ :=
      sweepFold_inv collect counter sweepPositions ⟨g, [], false, moves⟩ h1 h2
    by_cases hm : (sweepOnce collect g moves).moved = true
    · rw [if_pos hm]
      exact ih _ true _ h1' h2'
    · rw [if_neg hm]
      exact ⟨h1', h2'⟩

theorem invG_gravity (s : GSt) (h : InvG s) :
    InvG (ofState (applyGravity false (toState s)).1) := by
  obtain ⟨hOff, hGood, hSel⟩ := h
  rcases hsel : s.sel with _ | sel
  · have hcond : ¬ ((toState s).selectedBlock.isSome ||
        (toState s).fallingAnimation.isSome) = true := by
      show ¬ (s.sel.isSome || (none : Option FallingAnimation).isSome) = true
      rw [hsel]
      simp
    have happ : (applyGravity false (toState s)).1 =
        { toState s with grid := (gravityGo false 4096 (toState s).grid false []).1 } := by
      rw [applyGravity, if_neg hcond]
    rw [happ]
    obtain ⟨h1, h2⟩ := gravityGo_inv false s.counter 4096 s.grid false [] hOff hGood
    refine ⟨h1, h2, ?_⟩
    show SelGood ((gravityGo false 4096 s.grid false []).1) s.counter s.sel
    rw [hsel]
    trivial
  · have hcond : ((toState s).selectedBlock.isSome ||
        (toState s).fallingAnimation.isSome) = true := by
      show (s.sel.isSome || (none : Option FallingAnimation).isSome) = true
      rw [hsel]
      rfl
    have happ : (applyGravity false (toState s)).1 = toState s := by
      rw [applyGravity, if_pos hcond]
    rw [happ]
    refine ⟨hOff, hGood, ?_⟩
    show SelGood s.grid s.counter s.sel
    exact hSel

theorem foldl_gridSet_const_char {α : Type} (X Y : α → ℤ) (c : Cell) :
    ∀ (l : List α) (g : Grid) (x y : ℤ),
      (l.foldl (fun h a => gridSet h (X a) (Y a) c) g) x y =
        if ∃ a ∈ l, X a = x ∧ Y a = y then c else g x y := by
  intro l
  induction l with
  | nil =>
    intro g x y
    rw [List.foldl_nil, if_neg]
    rintro ⟨a, ha, -⟩
    exact List.not_mem_nil a ha
  | cons a t ih =>
    intro g x y
    rw [List.foldl_cons, ih]
    by_cases ht : ∃ b ∈ t, X b = x ∧ Y b = y
    · rw [if_pos ht]
      obtain ⟨b, hb, hbx⟩ := ht
      rw [if_pos ⟨b, List.mem_cons_of_mem a hb, hbx⟩]
    · rw [if_neg ht]
      by_cases ha : X a = x ∧ Y a = y
      · rw [if_pos ⟨a, List.mem_cons_self a t, ha⟩, gridSet, if_pos ⟨ha.1.symm, ha.2.symm⟩]
      · have hnone : ¬ ∃ b ∈ a :: t, X b = x ∧ Y b = y := by
          rintro ⟨b, hb, hbx⟩
          rcases List.mem_cons.mp hb with rfl | hb'
          · exact ha hbx
          · exact ht ⟨b, hb', hbx⟩
        rw [if_neg hnone, gridSet, if_neg]
        intro hcon
        exact ha ⟨hcon.1.symm, hcon.2.symm⟩

theorem clearRow_apply (g : Grid) (yi x y : ℤ) :
    clearRow g yi x y = if 0 ≤ x ∧ x < 10 ∧ y = yi then none else g x y := by
  have h := foldl_gridSet_const_char (fun xi : ℕ => (xi : ℤ)) (fun _ : ℕ => yi) none
    (List.range 10) g x y
  have h2 : clearRow g yi x y =
      if ∃ a ∈ List.range 10, ((a : ℤ) = x ∧ yi = y) then none else g x y := h
  by_cases hc : 0 ≤ x ∧ x < 10 ∧ y = yi
  · obtain ⟨hc1, hc2, hc3⟩ := hc
    rw [h2, if_pos ⟨x.toNat, List.mem_range.mpr (by omega), by omega, hc3.symm⟩,
      if_pos ⟨hc1, hc2, hc3⟩]
  · have hno : ¬ ∃ a ∈ List.range 10, ((a : ℤ) = x ∧ yi = y) := by
      rintro ⟨a, ha, hax, hay⟩
      rw [List.mem_range] at ha
      exact hc ⟨by omega, by omega, hay.symm⟩
    rw [h2, if_neg hno, if_neg hc]

theorem clearLinesFold_rows (g : Grid) :
    ∀ (l : List ℕ) (acc : ℕ × Grid),
      (∀ y : ℤ, (∀ x, 0 ≤ x → x < 10 → acc.2 x y = g x y) ∨
        (∀ x, 0 ≤ x → x < 10 → acc.2 x y = none)) →
      ∀ y : ℤ,
        (∀ x, 0 ≤ x → x < 10 →
          (l.foldl (fun (acc : ℕ × Grid) (yi : ℕ) =>
            if rowFull acc.2 (yi : ℤ) then (acc.1 + 1, clearRow acc.2 (yi : ℤ)) else acc)
            acc).2 x y = g x y) ∨
        (∀ x, 0 ≤ x → x < 10 →
          (l.foldl (fun (acc : ℕ × Grid) (yi : ℕ) =>
            if rowFull acc.2 (yi : ℤ) then (acc.1 + 1, clearRow acc.2 (yi : ℤ)) else acc)
            acc).2 x y = none) := by
  intro l
  induction l with
  | nil => intro acc hacc y; exact hacc y
  | cons a t ih =>
    intro acc hacc y
    rw [List.foldl_cons]
    apply ih
    intro y2
    by_cases hf : rowFull acc.2 (a : ℤ) = true
    · rw [if_pos hf]
      by_cases hy : y2 = (a : ℤ)
      · right
        intro x hx1 hx2
        show clearRow acc.2 (a : ℤ) x y2 = none
        rw [clearRow_apply, if_pos ⟨hx1, hx2, hy⟩]
      · rcases hacc y2 with hl | hr
        · left
          intro x hx1 hx2
          show clearRow acc.2 (a : ℤ) x y2 = g x y2
          rw [clearRow_apply, if_neg (fun hcon => hy hcon.2.2)]
          exact hl x hx1 hx2
        · right
          intro x hx1 hx2
          show clearRow acc.2 (a : ℤ) x y2 = none
          rw [clearRow_apply, if_neg (fun hcon => hy hcon.2.2)]
          exact hr x hx1 hx2
    · rw [if_neg hf]
      exact hacc y2

theorem clearFullLinesGrid_rows (g : Grid) (y : ℤ) :
    (∀ x, 0 ≤ x → x < 10 → (clearFullLinesGrid g).2 x y = g x y) ∨
    (∀ x, 0 ≤ x → x < 10 → (clearFullLinesGrid g).2 x y = none) :=
  clearLinesFold_rows g (List.range 20) (0, g) (fun _ => Or.inl (fun _ _ _ => rfl)) y

theorem clearFullLinesGrid_cell (g : Grid) (x y : ℤ) (hx1 : 0 ≤ x) (hx2 : x < 10) :
    (clearFullLinesGrid g).2 x y = g x y ∨ (clearFullLinesGrid g).2 x y = none := by
  rcases clearFullLinesGrid_rows g y with h | h
  · exact Or.inl (h x hx1 hx2)
  · exact Or.inr (h x hx1 hx2)

theorem invG_clear (s : GSt) (h : InvG s) : InvG (ofState (clearFullLines (toState s)).2) := by
  obtain ⟨hOff, hGood, hSel⟩ := h
  have hW : WIDTH = 10 := rfl
  have hOff' : OffBoxEmpty (clearFullLinesGrid s.grid).2 := by
    intro x y hxy
    rw [clearFullLinesGrid_offbox s.grid x y hxy]
    exact hOff x y hxy
  have hGood' : GoodGrid (clearFullLinesGrid s.grid).2 s.counter := by
    intro id hne
    obtain ⟨q, hq⟩ := hne
    obtain ⟨hqin, hqid⟩ := (mem_BlockOf _ _ _).mp hq
    have hq10 : q.1 < 10 := by have := hqin.2.1; omega
    have hqrow : ∀ x, 0 ≤ x → x < 10 →
        (clearFullLinesGrid s.grid).2 x q.2 = s.grid x q.2 := by
      rcases clearFullLinesGrid_rows s.grid q.2 with hrow | hrow
      · exact hrow
      · exfalso
        have hnone := hrow q.1 hqin.1 hq10
        rw [hnone] at hqid
        exact Option.noConfusion hqid
    have hqid0 : blockIdOf (s.grid q.1 q.2) = some id := by
      rw [← hqrow q.1 hqin.1 hq10]
      exact hqid
    have hneOld : (BlockOf s.grid id).Nonempty :=
      ⟨q, (mem_BlockOf _ _ _).mpr ⟨hqin, hqid0⟩⟩
    obtain ⟨hidle, x0, y0, len, hlen, hx0, hxl, hy0, hyH, hchar⟩ :=
      BlockOf_char s.grid s.counter id hGood hneOld
    have hqy : q.2 = y0 := ((hchar q).mp ((mem_BlockOf _ _ _).mpr ⟨hqin, hqid0⟩)).1
    have hsame : BlockOf (clearFullLinesGrid s.grid).2 id = BlockOf s.grid id := by
      apply Finset.ext
      intro r
      rw [mem_BlockOf, mem_BlockOf]
      constructor
      · rintro ⟨hrin, hrid⟩
        have hr10 : r.1 < 10 := by have := hrin.2.1; omega
        refine ⟨hrin, ?_⟩
        rcases clearFullLinesGrid_rows s.grid r.2 with hrow | hrow
        · rw [← hrow r.1 hrin.1 hr10]
          exact hrid
        · exfalso
          rw [hrow r.1 hrin.1 hr10] at hrid
          exact Option.noConfusion hrid
      · rintro ⟨hrin, hrid⟩
        have hr10 : r.1 < 10 := by have := hrin.2.1; omega
        refine ⟨hrin, ?_⟩
        have hr2 : r.2 = y0 := ((hchar r).mp ((mem_BlockOf _ _ _).mpr ⟨hrin, hrid⟩)).1
        have hsr : (clearFullLinesGrid s.grid).2 r.1 r.2 = s.grid r.1 r.2 := by
          rw [hr2, ← hqy]
          exact hqrow r.1 hrin.1 hr10
        rw [hsr]
        exact hrid
    rw [hsame]
    exact hGood id hneOld
  have hSel' : SelGood (clearFullLinesGrid s.grid).2 s.counter s.sel := by
    rcases hsel : s.sel with _ | sel
    · trivial
    · rw [hsel] at hSel
      obtain ⟨h1, h2, h3, h4, h5, h6, h7⟩ := hSel
      refine ⟨h1, h2, h3, h4, ?_, ?_, h7⟩
      · rw [canPlaceOffset, List.all_eq_true] at h5 ⊢
        intro c hc
        have h5c := h5 c hc
        rw [Bool.and_eq_true, Bool.and_eq_true] at h5c ⊢
        obtain ⟨⟨ha', hb'⟩, hc'⟩ := h5c
        refine ⟨⟨ha', hb'⟩, ?_⟩
        rw [decide_eq_true_eq] at ha' hb'
        rcases clearFullLinesGrid_cell s.grid (c.1 + sel.offset) c.2 ha' (by omega)
          with hcell | hcell
        · rw [hcell]
          exact hc'
        · rw [hcell]
          rfl
      · rw [Finset.eq_empty_iff_forall_not_mem] at h6 ⊢
        intro r hr
        obtain ⟨hrin, hrid⟩ := (mem_BlockOf _ _ _).mp hr
        have hr10 : r.1 < 10 := by have := hrin.2.1; omega
        rcases clearFullLinesGrid_cell s.grid r.1 r.2 hrin.1 hr10 with hcell | hcell
        · rw [hcell] at hrid
          exact h6 r ((mem_BlockOf _ _ _).mpr ⟨hrin, hrid⟩)
        · rw [hcell] at hrid
          exact Option.noConfusion hrid
  exact ⟨hOff', hGood', hSel'⟩

theorem foldl_shift_char :
    ∀ (l : List Pos) (g g0 : Grid),
      List.Pairwise (fun p q : Pos => ¬ ((p.1, p.2 - 1) : Pos) = q) l →
      (∀ p ∈ l, g p.1 p.2 = g0 p.1 p.2) →
      ∀ x y : ℤ,
        (l.foldl (fun h p => gridSet h p.1 (p.2 - 1) (h p.1 p.2)) g) x y =
          if ((x, y + 1) : Pos) ∈ l then g0 x (y + 1) else g x y := by
  intro l
  induction l with
  | nil =>
    intro g g0 _ _ x y
    rw [List.foldl_nil, if_neg (List.not_mem_nil _)]
  | cons p rest ih =>
    intro g g0 hpw hread x y
    rw [List.foldl_cons]
    obtain ⟨hp, hpw'⟩ := List.pairwise_cons.mp hpw
    have hread' : ∀ q ∈ rest,
        (gridSet g p.1 (p.2 - 1) (g p.1 p.2)) q.1 q.2 = g0 q.1 q.2 := by
      intro q hq
      rw [gridSet, if_neg]
      · exact hread q (List.mem_cons_of_mem p hq)
      · intro hcon
        apply hp q hq
        rw [Prod.ext_iff]
        exact ⟨hcon.1.symm, hcon.2.symm⟩
    rw [ih _ g0 hpw' hread']
    by_cases hr : ((x, y + 1) : Pos) ∈ rest
    · rw [if_pos hr, if_pos (List.mem_cons_of_mem p hr)]
    · rw [if_neg hr]
      by_cases hpq : ((x, y + 1) : Pos) = p
      · rw [if_pos (List.mem_cons.mpr (Or.inl hpq))]
        have hx : p.1 = x := by rw [← hpq]
        have hy : p.2 = y + 1 := by rw [← hpq]
        rw [gridSet, if_pos ⟨hx.symm, by omega⟩]
        rw [hread p (List.mem_cons_self p rest), hx, hy]
      · have hno : ((x, y + 1) : Pos) ∉ p :: rest := by
          intro hcon
          rcases List.mem_cons.mp hcon with h' | h'
          · exact hpq h'
          · exact hr h'
        rw [if_neg hno, gridSet, if_neg]
        intro hcon
        obtain ⟨hc1, hc2⟩ := hcon
        apply hpq
        rw [Prod.ext_iff]
        constructor
        · exact hc1
        · show y + 1 = p.2
          omega

theorem mem_shiftSources (p : Pos) :
    p ∈ shiftSources ↔ 0 ≤ p.1 ∧ p.1 < 10 ∧ 1 ≤ p.2 ∧ p.2 ≤ 19 := by
  rw [shiftSources]
  simp only [List.mem_flatMap, List.mem_map, List.mem_range]
  constructor
  · rintro ⟨yi, hyi, xi, hxi, rfl⟩
    dsimp only
    omega
  · rintro ⟨h1, h2, h3, h4⟩
    refine ⟨(p.2 - 1).toNat, by omega, p.1.toNat, by omega, ?_⟩
    rw [Prod.ext_iff]
    constructor
    · show (p.1.toNat : ℤ) = p.1
      omega
    · show ((p.2 - 1).toNat : ℤ) + 1 = p.2
      omega

theorem shiftSources_pairwise :
    List.Pairwise (fun p q : Pos => ¬ ((p.1, p.2 - 1) : Pos) = q) shiftSources := by
  decide

theorem shiftUpGrid_apply (g : Grid) (x y : ℤ) :
    shiftUpGrid g x y =
      if 0 ≤ x ∧ x < 10 ∧ y = 19 then none
      else if 0 ≤ x ∧ x < 10 ∧ 0 ≤ y ∧ y ≤ 18 then g x (y + 1)
      else g x y := by
  have hH : HEIGHT = 20 := rfl
  have hmain : shiftUpGrid g x y =
      (List.range 10).foldl (fun h (xi : ℕ) => gridSet h (xi : ℤ) (HEIGHT - 1) none)
        (shiftSources.foldl (fun h p => gridSet h p.1 (p.2 - 1) (h p.1 p.2)) g) x y := rfl
  have hconst := foldl_gridSet_const_char (fun xi : ℕ => (xi : ℤ)) (fun _ : ℕ => HEIGHT - 1)
    none (List.range 10)
    (shiftSources.foldl (fun h p => gridSet h p.1 (p.2 - 1) (h p.1 p.2)) g) x y
  have hconst2 : shiftUpGrid g x y =
      if ∃ a ∈ List.range 10, ((a : ℤ) = x ∧ HEIGHT - 1 = y) then none
      else (shiftSources.foldl (fun h p => gridSet h p.1 (p.2 - 1) (h p.1 p.2)) g) x y :=
    hmain.trans hconst
  rw [hconst2,
    foldl_shift_char shiftSources g g shiftSources_pairwise (fun _ _ => rfl) x y]
  by_cases h1 : 0 ≤ x ∧ x < 10 ∧ y = 19
  · obtain ⟨a1, a2, a3⟩ := h1
    rw [if_pos ⟨x.toNat, List.mem_range.mpr (by omega), by omega, by omega⟩,
      if_pos ⟨a1, a2, a3⟩]
  · have hno : ¬ ∃ a ∈ List.range 10, ((a : ℤ) = x ∧ HEIGHT - 1 = y) := by
      rintro ⟨a, ha, hax, hay⟩
      rw [List.mem_range] at ha
      exact h1 ⟨by omega, by omega, by omega⟩
    rw [if_neg hno, if_neg h1]
    by_cases h2 : 0 ≤ x ∧ x < 10 ∧ 0 ≤ y ∧ y ≤ 18
    · obtain ⟨b1, b2, b3, b4⟩ := h2
      rw [if_pos ((mem_shiftSources _).mpr ⟨by dsimp only; omega, by dsimp only; omega,
        by dsimp only; omega, by dsimp only; omega⟩), if_pos ⟨b1, b2, b3, b4⟩]
    · have hnm : ((x, y + 1) : Pos) ∉ shiftSources := by
        intro hmem
        have hb := (mem_shiftSources _).mp hmem
        dsimp only at hb
        exact h2 ⟨by omega, by omega, by omega, by omega⟩
      rw [if_neg hnm, if_neg h2]

theorem insertRowFold_char (row : Row) :
    ∀ (l : List ℕ) (g : Grid) (x y : ℤ),
      (l.foldl (fun h (xi : ℕ) => gridSet h (xi : ℤ) (HEIGHT - 1) (row.getD xi none)) g) x y =
        if ∃ xi ∈ l, (xi : ℤ) = x ∧ y = HEIGHT - 1 then row.getD x.toNat none else g x y := by
  intro l
  induction l with
  | nil =>
    intro g x y
    rw [List.foldl_nil, if_neg]
    rintro ⟨xi, hxi, -⟩
    exact List.not_mem_nil xi hxi
  | cons a t ih =>
    intro g x y
    rw [List.foldl_cons, ih]
    by_cases ht : ∃ xi ∈ t, (xi : ℤ) = x ∧ y = HEIGHT - 1
    · rw [if_pos ht]
      obtain ⟨b, hb, hbx⟩ := ht
      rw [if_pos ⟨b, List.mem_cons_of_mem a hb, hbx⟩]
    · rw [if_neg ht]
      by_cases ha : (a : ℤ) = x ∧ y = HEIGHT - 1
      · obtain ⟨ha1, ha2⟩ := ha
        rw [if_pos ⟨a, List.mem_cons_self a t, ha1, ha2⟩, gridSet, if_pos ⟨ha1.symm, ha2⟩]
        have hax : a = x.toNat := by omega
        rw [hax]
      · have hnone : ¬ ∃ xi ∈ a :: t, (xi : ℤ) = x ∧ y = HEIGHT - 1 := by
          rintro ⟨b, hb, hbx⟩
          rcases List.mem_cons.mp hb with rfl | hb'
          · exact ha hbx
          · exact ht ⟨b, hb', hbx⟩
        rw [if_neg hnone, gridSet, if_neg]
        intro hcon
        exact ha ⟨hcon.1.symm, hcon.2⟩

theorem insertRowGrid_apply (g : Grid) (row : Row) (x y : ℤ) :
    insertRowGrid g row x y =
      if 0 ≤ x ∧ x < 10 ∧ y = HEIGHT - 1 then row.getD x.toNat none else g x y := by
  have h2 : insertRowGrid g row x y =
      if ∃ xi ∈ List.range 10, (xi : ℤ) = x ∧ y = HEIGHT - 1 then row.getD x.toNat none
      else g x y := insertRowFold_char row (List.range 10) g x y
  by_cases hc : 0 ≤ x ∧ x < 10 ∧ y = HEIGHT - 1
  · obtain ⟨hc1, hc2, hc3⟩ := hc
    rw [h2, if_pos ⟨x.toNat, List.mem_range.mpr (by omega), by omega, hc3⟩,
      if_pos ⟨hc1, hc2, hc3⟩]
  · have hno : ¬ ∃ xi ∈ List.range 10, (xi : ℤ) = x ∧ y = HEIGHT - 1 := by
      rintro ⟨a, ha, hax, hay⟩
      rw [List.mem_range] at ha
      exact hc ⟨by omega, by omega, hay⟩
    rw [h2, if_neg hno, if_neg hc]

theorem emptyRow_getD (i : ℕ) : emptyRow.getD i none = none := by
  rw [emptyRow, List.getD_eq_getElem?_getD, List.getElem?_replicate]
  split <;> rfl

theorem generateNextRow_inv (cp : ℕ → Fin 4) (lp : ℕ → ℕ) (c0 : ℕ) :
    ∃ x2 sp2,
      RowInv c0 (generateNextRow cp lp c0).1 sp2 x2 (generateNextRow cp lp c0).2 := by
  have hrep : ∀ i, (List.replicate 10 (none : Cell)).getD i none = none := by
    intro i
    rw [List.getD_eq_getElem?_getD, List.getElem?_replicate]
    split <;> rfl
  have hinit : RowInv c0 (List.replicate 10 none) 0 0 c0 := by
    refine ⟨List.length_replicate 10 none, ?_, by omega, le_refl c0, by omega,
      fun i _ => hrep i, ?_⟩
    · unfold filledCount
      rw [List.length_replicate]
      rw [Finset.filter_eq_empty_iff.mpr]
      · rfl
      · intro i _
        exact not_not_intro (hrep i)
    · intro id hid
      obtain ⟨i, hi⟩ := hid
      rw [hrep i] at hi
      exact absurd hi (by simp [blockIdOf])
  exact generateRowGo_inv cp lp c0 10 (List.replicate 10 none) 0 0 0 c0 hinit

theorem invG_shift_insert_row (s : GSt) (h : InvG s) (row : Row) (cnt2 : ℕ)
    (hc0le : s.counter ≤ cnt2)
    (hids : ∀ id, (∃ i, blockIdOf (row.getD i none) = some id) →
      s.counter < id ∧ id ≤ cnt2 ∧
      ∃ l len, 1 ≤ len ∧ len ≤ 4 ∧ l + len ≤ 10 ∧ IdRun row id l len) :
    InvG ⟨insertRowGrid (shiftUpGrid s.grid) row, cnt2, none⟩ := by
  obtain ⟨hOff, hGood, -⟩ := h
  have hW : WIDTH = 10 := rfl
  have hH : HEIGHT = 20 := rfl
  have hgTop : ∀ x y : ℤ, 0 ≤ x → x < 10 → y = 19 →
      insertRowGrid (shiftUpGrid s.grid) row x y = row.getD x.toNat none := by
    intro x y a1 a2 a3
    rw [insertRowGrid_apply, if_pos ⟨a1, a2, by omega⟩]
  have hgMid : ∀ x y : ℤ, 0 ≤ x → x < 10 → 0 ≤ y → y ≤ 18 →
      insertRowGrid (shiftUpGrid s.grid) row x y = s.grid x (y + 1) := by
    intro x y a1 a2 a3 a4
    rw [insertRowGrid_apply, if_neg (fun hcon => by omega), shiftUpGrid_apply,
      if_neg (fun hcon => by omega), if_pos ⟨a1, a2, a3, a4⟩]
  have hgOther : ∀ x y : ℤ, ¬ (0 ≤ x ∧ x < 10 ∧ 0 ≤ y ∧ y ≤ 19) →
      insertRowGrid (shiftUpGrid s.grid) row x y = s.grid x y := by
    intro x y hxy
    rw [insertRowGrid_apply, if_neg (fun hcon => hxy ⟨hcon.1, hcon.2.1, by omega, by omega⟩),
      shiftUpGrid_apply, if_neg (fun hcon => hxy ⟨hcon.1, hcon.2.1, by omega, by omega⟩),
      if_neg (fun hcon => hxy ⟨hcon.1, hcon.2.1, by omega, by omega⟩)]
  have hOff' : OffBoxEmpty (insertRowGrid (shiftUpGrid s.grid) row) := by
    intro x y hxy
    rw [hgOther x y (fun hcon => hxy ⟨hcon.1, by omega, hcon.2.2.1, by omega⟩)]
    exact hOff x y hxy
  have hGood' : GoodGrid (insertRowGrid (shiftUpGrid s.grid) row) cnt2 := by
    intro id hne
    obtain ⟨q, hq⟩ := hne
    obtain ⟨hqin, hqid⟩ := (mem_BlockOf _ _ _).mp hq
    obtain ⟨hq1, hq2, hq3, hq4⟩ := hqin
    by_cases hq19 : q.2 = 19
    · -- a freshly inserted block of the new row
      have hqtop := hgTop q.1 q.2 hq1 (by omega) hq19
      rw [hqtop] at hqid
      obtain ⟨hgt, hle2, l, len, hl1, hl4, hlx, hrun⟩ := hids id ⟨q.1.toNat, hqid⟩
      have hchar : ∀ r : Pos, r ∈ BlockOf (insertRowGrid (shiftUpGrid s.grid) row) id ↔
          (r.2 = (19 : ℤ) ∧ (l : ℤ) ≤ r.1 ∧ r.1 < (l : ℤ) + (len : ℤ)) := by
        intro r
        rw [mem_BlockOf]
        constructor
        · rintro ⟨hrin, hrid⟩
          obtain ⟨hr1, hr2, hr3, hr4⟩ := hrin
          by_cases hr19 : r.2 = 19
          · have hrtop := hgTop r.1 r.2 hr1 (by omega) hr19
            rw [hrtop] at hrid
            have hidx := (hrun r.1.toNat).mp hrid
            exact ⟨hr19, by omega, by omega⟩
          · exfalso
            have hrmid := hgMid r.1 r.2 hr1 (by omega) hr3 (by omega)
            rw [hrmid] at hrid
            have hold : ((r.1, r.2 + 1) : Pos) ∈ BlockOf s.grid id :=
              (mem_BlockOf _ _ _).mpr ⟨⟨hr1, hr2, by omega, by omega⟩, hrid⟩
            have hle0 : id ≤ s.counter := (hGood id ⟨_, hold⟩).1
            omega
        · rintro ⟨hr2, hrl, hrr⟩
          have hrin : inB r.1 r.2 := ⟨by omega, by omega, by omega, by omega⟩
          refine ⟨hrin, ?_⟩
          have hrtop := hgTop r.1 r.2 hrin.1 (by omega) hr2
          rw [hrtop]
          exact (hrun r.1.toNat).mpr ⟨by omega, by omega⟩
      refine ⟨hle2, (l : ℤ), 19, len, by omega, ?_⟩
      exact Finset.ext fun r => (hchar r).trans (mem_runFinset (l : ℤ) 19 len r).symm
    · -- a pre-existing block, shifted up by one row
      have hq18 : q.2 ≤ 18 := by omega
      have hqmid := hgMid q.1 q.2 hq1 (by omega) hq3 hq18
      rw [hqmid] at hqid
      have holdq : ((q.1, q.2 + 1) : Pos) ∈ BlockOf s.grid id :=
        (mem_BlockOf _ _ _).mpr ⟨⟨hq1, hq2, by omega, by omega⟩, hqid⟩
      have hneOld : (BlockOf s.grid id).Nonempty := ⟨_, holdq⟩
      obtain ⟨hidle, x0, y0, len, hlen, hx0, hxl, hy0, hyH, hchar0⟩ :=
        BlockOf_char s.grid s.counter id hGood hneOld
      have hy0q : q.2 + 1 = y0 := ((hchar0 _).mp holdq).1
      have hchar : ∀ r : Pos, r ∈ BlockOf (insertRowGrid (shiftUpGrid s.grid) row) id ↔
          (r.2 = y0 - 1 ∧ x0 ≤ r.1 ∧ r.1 < x0 + (len : ℤ)) := by
        intro r
        rw [mem_BlockOf]
        constructor
        · rintro ⟨hrin, hrid⟩
          obtain ⟨hr1, hr2, hr3, hr4⟩ := hrin
          by_cases hr19 : r.2 = 19
          · exfalso
            have hrtop := hgTop r.1 r.2 hr1 (by omega) hr19
            rw [hrtop] at hrid
            have hgt := (hids id ⟨r.1.toNat, hrid⟩).1
            omega
          · have hrmid := hgMid r.1 r.2 hr1 (by omega) hr3 (by omega)
            rw [hrmid] at hrid
            have hold : ((r.1, r.2 + 1) : Pos) ∈ BlockOf s.grid id :=
              (mem_BlockOf _ _ _).mpr ⟨⟨hr1, hr2, by omega, by omega⟩, hrid⟩
            have hprops := (hchar0 _).mp hold
            obtain ⟨hp1, hp2, hp3⟩ := hprops
            dsimp only at hp1 hp2 hp3
            exact ⟨by omega, by omega, by omega⟩
        · rintro ⟨hr2, hrl, hrr⟩
          have hrin : inB r.1 r.2 := ⟨by omega, by omega, by omega, by omega⟩
          refine ⟨hrin, ?_⟩
          have hrmid := hgMid r.1 r.2 hrin.1 (by omega) (by omega) (by omega)
          rw [hrmid]
          have hmem : ((r.1, r.2 + 1) : Pos) ∈ BlockOf s.grid id :=
            (hchar0 _).mpr ⟨by dsimp only; omega, by dsimp only; omega, by dsimp only; omega⟩
          exact ((mem_BlockOf _ _ _).mp hmem).2
      refine ⟨by omega, x0, y0 - 1, len, hlen, ?_⟩
      exact Finset.ext fun r => (hchar r).trans (mem_runFinset x0 (y0 - 1) len r).symm
  exact ⟨hOff', hGood', True.intro⟩

theorem invG_shiftInsert (s : GSt) (cp : ℕ → Fin 4) (lp : ℕ → ℕ) (h : InvG s) :
    InvG ⟨insertRowGrid (shiftUpGrid s.grid) (generateNextRow cp lp s.counter).1,
          (generateNextRow cp lp s.counter).2, none⟩ := by
  obtain ⟨x2, sp2, hrowinv⟩ := generateNextRow_inv cp lp s.counter
  obtain ⟨hlen10, hfc, hsp, hc0le, hx2, hbeyond, hids⟩ := hrowinv
  refine invG_shift_insert_row s h _ _ hc0le ?_
  intro id hid
  obtain ⟨hgt, hle2, l, len, h1, h4, hlx, hrun⟩ := hids id hid
  exact ⟨hgt, hle2, l, len, h1, h4, by omega, hrun⟩

theorem invG_shiftInsertEmpty (s : GSt) (h : InvG s) :
    InvG ⟨insertRowGrid (shiftUpGrid s.grid) emptyRow, s.counter, none⟩ := by
  refine invG_shift_insert_row s h emptyRow s.counter (le_refl _) ?_
  intro id hid
  obtain ⟨i, hi⟩ := hid
  rw [emptyRow_getD] at hi
  exact absurd hi (by simp [blockIdOf])

theorem ofState_toState (s : GSt) : ofState (toState s) = s := rfl

theorem invG_select (s : GSt) (x y : ℤ) (h : InvG s) :
    InvG (ofState (trySelectBlock (toState s) x y)) := by
  obtain ⟨hOff, hGood, hSel⟩ := h
  have hW : WIDTH = 10 := rfl
  have hH : HEIGHT = 20 := rfl
  by_cases hguard : ((toState s).selectedBlock.isSome ||
      (toState s).fallingAnimation.isSome) = true
  · have ht : trySelectBlock (toState s) x y = toState s := by
      rw [trySelectBlock, if_pos hguard]
    rw [ht, ofState_toState]
    exact ⟨hOff, hGood, hSel⟩
  · by_cases hin : inB x y
    · rcases hcell : (toState s).grid x y with _ | bc
      · have ht : trySelectBlock (toState s) x y = toState s := by
          rw [trySelectBlock, if_neg hguard, if_neg (not_not_intro hin)]
          simp only [hcell]
        rw [ht, ofState_toState]
        exact ⟨hOff, hGood, hSel⟩
      · have hcell' : s.grid x y = some bc := hcell
        have hidp : blockIdOf (s.grid x y) = some bc.blockId := by
          rw [hcell']; rfl
        by_cases hcnil : collectBlockCells (toState s).grid x y (some bc.blockId) = []
        · have ht : trySelectBlock (toState s) x y = toState s := by
            rw [trySelectBlock, if_neg hguard, if_neg (not_not_intro hin)]
            simp only [hcell]
            rw [if_pos hcnil]
          rw [ht, ofState_toState]
          exact ⟨hOff, hGood, hSel⟩
        · have ht : trySelectBlock (toState s) x y =
              { toState s with
                grid := clearCellsG (toState s).grid
                  (collectBlockCells (toState s).grid x y (some bc.blockId))
                selectedBlock := some
                  { color := bc.color, blockId := bc.blockId
                    baseCells := collectBlockCells (toState s).grid x y (some bc.blockId)
                    cells := collectBlockCells (toState s).grid x y (some bc.blockId)
                    offset := 0 }
                hoveredBlock := none
                selectionMoved := false } := by
            rw [trySelectBlock, if_neg hguard, if_neg (not_not_intro hin)]
            simp only [hcell]
            rw [if_neg hcnil]
          rw [ht]
          obtain ⟨x0, y0, len, hlen, hx0, hxl, hy0, hyH, hidle, hbchar, hcchar⟩ :=
            collect_eq_BlockOf s.grid s.counter hGood (x, y) bc.blockId hin hidp
          have hcmem : ∀ c ∈ collectBlockCells s.grid x y (some bc.blockId),
              inB c.1 c.2 ∧ blockIdOf (s.grid c.1 c.2) = some bc.blockId :=
            collectBlockCells_mem s.grid x y bc.blockId
          have hoff2 : OffBoxEmpty (clearCellsG s.grid
              (collectBlockCells s.grid x y (some bc.blockId))) := by
            intro a b hab
            have hnc : ((a, b) : Pos) ∉ collectBlockCells s.grid x y (some bc.blockId) :=
              fun hmem => hab (hcmem (a, b) hmem).1
            rw [clearCellsG_apply, if_neg hnc]
            exact hOff a b hab
          have hBempty : BlockOf (clearCellsG s.grid
              (collectBlockCells s.grid x y (some bc.blockId))) bc.blockId = ∅ := by
            rw [Finset.eq_empty_iff_forall_not_mem]
            intro r hr
            obtain ⟨hrin, hrid⟩ := (mem_BlockOf _ _ _).mp hr
            by_cases hrc : ((r.1, r.2) : Pos) ∈ collectBlockCells s.grid x y (some bc.blockId)
            · rw [clearCellsG_apply, if_pos hrc] at hrid
              exact Option.noConfusion hrid
            · rw [clearCellsG_apply, if_neg hrc] at hrid
              exact hrc ((hcchar (r.1, r.2)).mpr
                ((hbchar (r.1, r.2)).mp ((mem_BlockOf _ _ _).mpr ⟨hrin, hrid⟩)))
          have hgood2 : GoodGrid (clearCellsG s.grid
              (collectBlockCells s.grid x y (some bc.blockId))) s.counter := by
            intro id hne
            by_cases hid : id = bc.blockId
            · exfalso
              rw [hid, hBempty] at hne
              exact Finset.not_mem_empty _ hne.choose_spec
            · have hsame : BlockOf (clearCellsG s.grid
                  (collectBlockCells s.grid x y (some bc.blockId))) id =
                  BlockOf s.grid id := by
                apply Finset.ext
                intro r
                rw [mem_BlockOf, mem_BlockOf]
                by_cases hrc : ((r.1, r.2) : Pos) ∈
                    collectBlockCells s.grid x y (some bc.blockId)
                · rw [clearCellsG_apply, if_pos hrc]
                  constructor
                  · rintro ⟨-, hrid⟩
                    exact absurd hrid Option.noConfusion
                  · rintro ⟨hrin, hrid⟩
                    have := (hcmem _ hrc).2
                    have hq2 : (some bc.blockId : Option ℕ) = some id := this.symm.trans hrid
                    exact absurd (Option.some.inj hq2).symm hid
                · rw [clearCellsG_apply, if_neg hrc]
              rw [hsame] at hne ⊢
              exact hGood id hne
          have hselgood : SelGood (clearCellsG s.grid
              (collectBlockCells s.grid x y (some bc.blockId))) s.counter
              (some { color := bc.color, blockId := bc.blockId
                      baseCells := collectBlockCells s.grid x y (some bc.blockId)
                      cells := collectBlockCells s.grid x y (some bc.blockId)
                      offset := 0 }) := by
            refine ⟨hcnil, ?_, ?_, ?_, ?_, hBempty, hidle⟩
            · exact ⟨x0, y0, len, hlen, Finset.ext fun r =>
                (List.mem_toFinset.trans (hcchar r)).trans (mem_runFinset x0 y0 len r).symm⟩
            · intro p hp
              have := (hcmem p hp).1
              exact ⟨this.2.2.1, this.2.2.2⟩
            · show collectBlockCells s.grid x y (some bc.blockId) =
                (collectBlockCells s.grid x y (some bc.blockId)).map
                  (fun c => ((c.1 + (0 : ℤ), c.2) : Pos))
              have hfun : (fun (c : Pos) => ((c.1 + (0 : ℤ), c.2) : Pos)) = fun c => c := by
                funext c
                rw [Prod.ext_iff]
                exact ⟨add_zero c.1, rfl⟩
              rw [hfun]
              exact (List.map_id _).symm
            · show canPlaceOffset (clearCellsG s.grid
                (collectBlockCells s.grid x y (some bc.blockId)))
                (collectBlockCells s.grid x y (some bc.blockId)) 0 = true
              rw [canPlaceOffset, List.all_eq_true]
              intro c hc
              have hcf := (hcmem c hc).1
              rw [Bool.and_eq_true, Bool.and_eq_true, decide_eq_true_eq, decide_eq_true_eq]
              refine ⟨⟨by omega, by omega⟩, ?_⟩
              have h00 : c.1 + (0 : ℤ) = c.1 := add_zero c.1
              rw [h00, clearCellsG_apply, if_pos hc]
              rfl
          exact ⟨hoff2, hgood2, hselgood⟩
    · have ht : trySelectBlock (toState s) x y = toState s := by
        rw [trySelectBlock, if_neg hguard, if_pos hin]
      rw [ht, ofState_toState]
      exact ⟨hOff, hGood, hSel⟩

theorem invG_drag (s : GSt) (t : ℤ) (h : InvG s) :
    InvG (ofState (applyOffset (toState s) t)) := by
  obtain ⟨hOff, hGood, hSel⟩ := h
  rcases hsel : s.sel with _ | sel
  · have hsel' : (toState s).selectedBlock = none := hsel
    have ht : applyOffset (toState s) t = toState s := by
      simp only [applyOffset, hsel']
    rw [ht, ofState_toState]
    exact ⟨hOff, hGood, hSel⟩
  · have hsel' : (toState s).selectedBlock = some sel := hsel
    rw [hsel] at hSel
    by_cases heq : t = sel.offset
    · have ht : applyOffset (toState s) t = toState s := by
        simp only [applyOffset, hsel']
        rw [if_pos heq]
      rw [ht, ofState_toState]
      refine ⟨hOff, hGood, ?_⟩
      show SelGood s.grid s.counter s.sel
      rw [hsel]
      exact hSel
    · by_cases hsame : walkOffsetGo (toState s).grid sel.baseCells
          (if t > sel.offset then (1 : ℤ) else -1) (t - sel.offset).natAbs sel.offset =
          sel.offset
      · have ht : applyOffset (toState s) t = toState s := by
          simp only [applyOffset, hsel']
          rw [if_neg heq, if_pos hsame]
        rw [ht, ofState_toState]
        refine ⟨hOff, hGood, ?_⟩
        show SelGood s.grid s.counter s.sel
        rw [hsel]
        exact hSel
      · have ht : applyOffset (toState s) t =
            { toState s with
              selectedBlock := some
                { sel with
                  offset := walkOffsetGo (toState s).grid sel.baseCells
                    (if t > sel.offset then (1 : ℤ) else -1) (t - sel.offset).natAbs
                    sel.offset
                  cells := sel.baseCells.map fun c =>
                    (c.1 + walkOffsetGo (toState s).grid sel.baseCells
                      (if t > sel.offset then (1 : ℤ) else -1) (t - sel.offset).natAbs
                      sel.offset, c.2) }
              selectionMoved := true } := by
          simp only [applyOffset, hsel']
          rw [if_neg heq, if_neg hsame]
        rw [ht]
        obtain ⟨h1, h2, h3, h4, h5, h6, h7⟩ := hSel
        refine ⟨hOff, hGood, ?_⟩
        refine ⟨h1, h2, h3, rfl, ?_, h6, h7⟩
        show canPlaceOffset s.grid sel.baseCells
          (walkOffsetGo s.grid sel.baseCells
            (if t > sel.offset then (1 : ℤ) else -1) (t - sel.offset).natAbs sel.offset) =
          true
        exact walkOffsetGo_canPlace s.grid sel.baseCells _ _ sel.offset h5

theorem invG_place (s : GSt) (sel : Selection) (hs : s.sel = some sel) (h : InvG s) :
    InvG ⟨writeCellsG s.grid sel.cells (computeDropDistance s.grid sel.cells)
            sel.color sel.blockId, s.counter, none⟩ := by
  obtain ⟨hOff, hGood, hSel⟩ := h
  rw [hs] at hSel
  obtain ⟨h1, h2, h3, h4, h5, h6, h7⟩ := hSel
  have hW : WIDTH = 10 := rfl
  have hH : HEIGHT = 20 := rfl
  obtain ⟨bx0, by0, blen, hblen, hbeq⟩ := h2
  have hbmem : ∀ q : Pos, q ∈ sel.baseCells ↔
      (q.2 = by0 ∧ bx0 ≤ q.1 ∧ q.1 < bx0 + (blen : ℤ)) := by
    intro q
    rw [← List.mem_toFinset, hbeq]
    exact mem_runFinset bx0 by0 blen q
  have hcmem : ∀ q : Pos, q ∈ sel.cells ↔
      (q.2 = by0 ∧ bx0 + sel.offset ≤ q.1 ∧ q.1 < bx0 + sel.offset + (blen : ℤ)) := by
    intro q
    rw [h4]
    exact mem_map_hshift sel.baseCells bx0 by0 blen sel.offset hbmem q
  have hplace : ∀ c ∈ sel.baseCells, 0 ≤ c.1 + sel.offset ∧ c.1 + sel.offset < WIDTH ∧
      isEmptyCell (s.grid (c.1 + sel.offset) c.2) = true := by
    intro c hc
    rw [canPlaceOffset, List.all_eq_true] at h5
    have h5c := h5 c hc
    rw [Bool.and_eq_true, Bool.and_eq_true, decide_eq_true_eq, decide_eq_true_eq] at h5c
    exact ⟨h5c.1.1, h5c.1.2, h5c.2⟩
  have hcellfacts : ∀ c ∈ sel.cells, 0 ≤ c.1 ∧ c.1 < WIDTH ∧ 0 ≤ c.2 ∧ c.2 < HEIGHT ∧
      s.grid c.1 c.2 = none := by
    intro c hc
    rw [h4, List.mem_map] at hc
    obtain ⟨b, hb, rfl⟩ := hc
    obtain ⟨hb1, hb2, hb3⟩ := hplace b hb
    obtain ⟨hb4, hb5⟩ := h3 b hb
    exact ⟨hb1, hb2, hb4, hb5, Option.isNone_iff_eq_none.mp hb3⟩
  have hcne : sel.cells ≠ [] := by
    rw [h4]
    intro hcon
    exact h1 (List.map_eq_nil_iff.mp hcon)
  obtain ⟨c0, hc0⟩ := List.exists_mem_of_ne_nil sel.cells hcne
  have hc0y : 0 ≤ c0.2 := (hcellfacts c0 hc0).2.2.1
  have hdestfacts : ∀ c ∈ sel.cells,
      inB c.1 (c.2 + ((computeDropDistance s.grid sel.cells : ℕ) : ℤ)) ∧
      s.grid c.1 (c.2 + ((computeDropDistance s.grid sel.cells : ℕ) : ℤ)) = none := by
    rcases Nat.eq_zero_or_pos (computeDropDistance s.grid sel.cells) with hd0 | hdpos
    · intro c hc
      obtain ⟨f1, f2, f3, f4, f5⟩ := hcellfacts c hc
      rw [hd0]
      constructor
      · exact ⟨f1, f2, by omega, by omega⟩
      · rw [(by omega : c.2 + (((0 : ℕ) : ℕ) : ℤ) = c.2)]
        exact f5
    · have hchar := computeDropDistance_char s.grid sel.cells c0 hc0 hc0y
      have hdrop : canDropTo s.grid sel.cells (computeDropDistance s.grid sel.cells) = true :=
        hchar.2 _ hdpos (le_refl _)
      have hfacts := canDropTo_facts s.grid sel.cells _ hdrop
      intro c hc
      obtain ⟨hbnd, hemp⟩ := hfacts c hc
      obtain ⟨f1, f2, f3, f4, f5⟩ := hcellfacts c hc
      have hnn : (0 : ℤ) ≤ ((computeDropDistance s.grid sel.cells : ℕ) : ℤ) :=
        Int.natCast_nonneg _
      exact ⟨⟨f1, f2, by omega, hbnd⟩, hemp⟩
  have hdmap : ∀ q : Pos, q ∈ sel.cells.map
      (fun c => ((c.1, c.2 + ((computeDropDistance s.grid sel.cells : ℕ) : ℤ)) : Pos)) ↔
      (q.2 = by0 + ((computeDropDistance s.grid sel.cells : ℕ) : ℤ) ∧
        bx0 + sel.offset ≤ q.1 ∧ q.1 < bx0 + sel.offset + (blen : ℤ)) :=
    mem_map_drop sel.cells (bx0 + sel.offset) by0 blen _ hcmem
  have hg' : ∀ a b : ℤ, writeCellsG s.grid sel.cells (computeDropDistance s.grid sel.cells)
      sel.color sel.blockId a b =
      if ((a, b) : Pos) ∈ sel.cells.map
          (fun c => ((c.1, c.2 + ((computeDropDistance s.grid sel.cells : ℕ) : ℤ)) : Pos))
        then some ⟨sel.color, sel.blockId⟩ else s.grid a b := by
    intro a b
    rw [writeCellsG_apply]
  have hOff' : OffBoxEmpty (writeCellsG s.grid sel.cells
      (computeDropDistance s.grid sel.cells) sel.color sel.blockId) := by
    intro a b hab
    have hnd : ((a, b) : Pos) ∉ sel.cells.map
        (fun c => ((c.1, c.2 + ((computeDropDistance s.grid sel.cells : ℕ) : ℤ)) : Pos)) := by
      intro hmem
      rw [List.mem_map] at hmem
      obtain ⟨c, hc, hceq⟩ := hmem
      have hf := (hdestfacts c hc).1
      rw [Prod.ext_iff] at hceq
      obtain ⟨he1, he2⟩ := hceq
      dsimp only at he1 he2
      rw [he1, he2] at hf
      exact hab hf
    rw [hg' a b, if_neg hnd]
    exact hOff a b hab
  have hGood' : GoodGrid (writeCellsG s.grid sel.cells
      (computeDropDistance s.grid sel.cells) sel.color sel.blockId) s.counter := by
    intro id hne
    by_cases hid : id = sel.blockId
    · rw [hid]
      have hchar : ∀ r : Pos, r ∈ BlockOf (writeCellsG s.grid sel.cells
          (computeDropDistance s.grid sel.cells) sel.color sel.blockId) sel.blockId ↔
          (r.2 = by0 + ((computeDropDistance s.grid sel.cells : ℕ) : ℤ) ∧
            bx0 + sel.offset ≤ r.1 ∧ r.1 < bx0 + sel.offset + (blen : ℤ)) := by
        intro r
        rw [mem_BlockOf]
        constructor
        · rintro ⟨hrin, hrid⟩
          rw [hg' r.1 r.2] at hrid
          by_cases hm : ((r.1, r.2) : Pos) ∈ sel.cells.map
              (fun c => ((c.1, c.2 + ((computeDropDistance s.grid sel.cells : ℕ) : ℤ)) : Pos))
          · exact (hdmap (r.1, r.2)).mp hm
          · exfalso
            rw [if_neg hm] at hrid
            have hmem : ((r.1, r.2) : Pos) ∈ BlockOf s.grid sel.blockId :=
              (mem_BlockOf _ _ _).mpr ⟨hrin, hrid⟩
            rw [h6] at hmem
            exact Finset.not_mem_empty _ hmem
        · rintro ⟨hr1, hr2, hr3⟩
          have hm : ((r.1, r.2) : Pos) ∈ sel.cells.map
              (fun c => ((c.1, c.2 + ((computeDropDistance s.grid sel.cells : ℕ) : ℤ)) : Pos)) :=
            (hdmap (r.1, r.2)).mpr ⟨hr1, hr2, hr3⟩
          refine ⟨?_, ?_⟩
          · have hm2 := hm
            rw [List.mem_map] at hm2
            obtain ⟨c, hc, hceq⟩ := hm2
            have hf := (hdestfacts c hc).1
            rw [Prod.ext_iff] at hceq
            obtain ⟨he1, he2⟩ := hceq
            dsimp only at he1 he2
            rw [he1, he2] at hf
            exact hf
          · rw [hg' r.1 r.2, if_pos hm]
            rfl
      refine ⟨h7, bx0 + sel.offset,
        by0 + ((computeDropDistance s.grid sel.cells : ℕ) : ℤ), blen, hblen, ?_⟩
      exact Finset.ext fun r => (hchar r).trans
        (mem_runFinset (bx0 + sel.offset)
          (by0 + ((computeDropDistance s.grid sel.cells : ℕ) : ℤ)) blen r).symm
    · have hsame : BlockOf (writeCellsG s.grid sel.cells
          (computeDropDistance s.grid sel.cells) sel.color sel.blockId) id =
          BlockOf s.grid id := by
        apply Finset.ext
        intro r
        rw [mem_BlockOf, mem_BlockOf]
        by_cases hm : ((r.1, r.2) : Pos) ∈ sel.cells.map
            (fun c => ((c.1, c.2 + ((computeDropDistance s.grid sel.cells : ℕ) : ℤ)) : Pos))
        · constructor
          · rintro ⟨hrin, hrid⟩
            rw [hg' r.1 r.2, if_pos hm] at hrid
            have hq2 : (some sel.blockId : Option ℕ) = some id := hrid
            exact absurd (Option.some.inj hq2).symm hid
          · rintro ⟨hrin, hrid⟩
            have hm2 := hm
            rw [List.mem_map] at hm2
            obtain ⟨c, hc, hceq⟩ := hm2
            have hf := (hdestfacts c hc).2
            rw [Prod.ext_iff] at hceq
            obtain ⟨he1, he2⟩ := hceq
            dsimp only at he1 he2
            rw [he1, he2] at hf
            rw [hf] at hrid
            exact Option.noConfusion hrid
        · rw [hg' r.1 r.2, if_neg hm]
      rw [hsame] at hne ⊢
      exact hGood id hne
  exact ⟨hOff', hGood', True.intro⟩

theorem invG_init : InvG initGSt := by
  refine ⟨fun x y _ => rfl, ?_, True.intro⟩
  intro id hne
  obtain ⟨p, hp⟩ := hne
  obtain ⟨-, hpid⟩ := (mem_BlockOf _ _ _).mp hp
  exact Option.noConfusion hpid

theorem invG_step (s s2 : GSt) (hstep : GStep s s2) (h : InvG s) : InvG s2 := by
  cases hstep with
  | gravity => exact invG_gravity s h
  | clearStep => exact invG_clear s h
  | shiftInsert cp lp hsel => exact invG_shiftInsert s cp lp h
  | shiftInsertEmpty hsel => exact invG_shiftInsertEmpty s h
  | selectStep x y => exact invG_select s x y h
  | dragStep t => exact invG_drag s t h
  | placeStep sel hsel => exact invG_place s sel hsel h

theorem reachable_invG (s : GSt) (h : ReachableG s) : InvG s := by
  rw [ReachableG] at h
  induction h with
  | refl => exact invG_init
  | tail hab hbc ih => exact invG_step _ _ hbc ih

/-- C10: in every reachable grid state of the engine's grid-mutating
operations (gravity passes, line clears, row shift plus bottom-row
insertion, block selection, drags, and placement commits), all cells
sharing one block id lie in a single row (equal `y` coordinates): rows
spawn blocks as horizontal runs, gravity and placement translate a whole
block by one uniform vertical distance, row shifting moves all rows
uniformly, drag shifts only horizontally, and line clears remove entire
rows, so no operation ever makes a block span two rows. -/
theorem c10_single_row_blocks (s : GSt) (h : ReachableG s) (id : ℕ) (p q : Pos)
    (hp : idAt s.grid p = some id) (hq : idAt s.grid q = some id) : p.2 = q.2 := by
  obtain ⟨hOff, hGood, -⟩ := reachable_invG s h
  have hpin : inB p.1 p.2 := by
    by_contra hno
    rw [idAt, hOff p.1 p.2 hno] at hp
    exact Option.noConfusion hp
  have hqin : inB q.1 q.2 := by
    by_contra hno
    rw [idAt, hOff q.1 q.2 hno] at hq
    exact Option.noConfusion hq
  have hpb : p ∈ BlockOf s.grid id := (mem_BlockOf _ _ _).mpr ⟨hpin, hp⟩
  have hqb : q ∈ BlockOf s.grid id := (mem_BlockOf _ _ _).mpr ⟨hqin, hq⟩
  obtain ⟨-, x0, y0, len, -, -, -, -, -, hchar⟩ :=
    BlockOf_char s.grid s.counter id hGood ⟨p, hpb⟩
  have hpy := ((hchar p).mp hpb).1
  have hqy := ((hchar q).mp hqb).1
  rw [hpy, hqy]

/-- Witness for C10: one `shiftInsert` step from the bootstrap state with the
constant streams yields a reachable state whose cells `(0,19)` and `(1,19)`
carry the same block id 1, and the theorem equates their rows. -/
theorem c10_single_row_blocks_witness :
    ReachableG c10St ∧
    idAt c10St.grid (0, 19) = some 1 ∧ idAt c10St.grid (1, 19) = some 1 ∧
    (((0 : ℤ), (19 : ℤ)) : Pos).2 = (((1 : ℤ), (19 : ℤ)) : Pos).2 := by
  have hreach : ReachableG c10St :=
    Relation.ReflTransGen.single (GStep.shiftInsert initGSt cpA lpA rfl)
  exact ⟨hreach, by decide, by decide,
    c10_single_row_blocks c10St hreach 1 (0, 19) (1, 19) (by decide) (by decide)⟩
